import Mathlib

/-!
# GEOS geomgraph: the simple sweep-line intersector

A shallow embedding of `source/geomgraph/index/SimpleSweepLineIntersector.cpp`.

* Objects created with `new` live in two stores kept in the intersector state:
  `evHeap` for `SweepLineEvent` objects and `segHeap` for `SweepLineSegment`
  objects.  A pointer to such an object is its index in the store.
* A pointer is a natural number: the address of an `Edge` or of an edge list,
  the index in `evHeap` of a `SweepLineEvent`, the index in `segHeap` of a
  `SweepLineSegment`.  A pointer that may be `NULL` is an `Option Nat`, `none`
  being `NULL`.
* A `void*` group tag is an `Option Nat`; `none` is `NULL`.
* `double` coordinates are exact integers (no NaN, no rounding).
* The counter `int nOverlaps` is an integer kept in the range of a 32-bit
  two's complement `int`: its increment wraps around (`incrInt32`).  The `int`
  indices into the event list are natural numbers.
* `std::sort` is a parameter `sortFn` of the embedding.  Its contract
  (`StdSortSpec`) is the one of the C++ standard: the result is a permutation of
  the input and no later element compares less than an earlier one.  Elements
  that compare equivalent may end up in any order.
* The external `SegmentIntersector` is recorded as the sequence of segment
  pairs handed to it.
* The header `geos/geomgraphindex.h`, which declares `SweepLineEvent`,
  `SweepLineSegment` and the comparator `SweepLineEventLessThen`, is not among
  the sources; what the sweep uses of them is modelled from the specification
  and marked so.

The definitions whose names end in `Checked` are the same loops with every
access `events[i]`, every followed event pointer and every read of a delete
index checked; they return `none` where the C++ code would read out of bounds
or read a delete index that was never assigned.

From `source/headers/geos/geomgraph.h` the file embeds the comparator
`EdgeIntersectionLessThen`, the inline accessors of `DirectedEdge` and the
comparator `CoordLT`.

* A `std::set` or `std::map` is the sequence of its entries in the order of
  its comparator; `setInsert`, `mapFind` and `mapAssign` are the library
  operations on that sequence.
* `DirectedEdge` objects live in a store; a pointer is an index into it.
* `EdgeIntersectionList::add`, `NodeMap::find` and `NodeMap::addNode` are
  declared in the headers and defined in files that are not among the sources;
  they are modelled from the specification and marked so.
  `Coordinate::compareTo` is a parameter.
-/

namespace geos

/-- A coordinate; the ordinates are exact numbers. -/
structure Coordinate where
  /-- The x ordinate. -/
  x : Int
  /-- The y ordinate. -/
  y : Int
  /-- The z ordinate. -/
  z : Int
deriving DecidableEq

/-- An `Edge` as the sweep sees it: its identity (the value of `Edge*`) and the
coordinate sequence returned by `getCoordinates()`. -/
structure Edge where
  /-- The address of the edge object, the value of an `Edge*`. -/
  addr : Nat
  /-- The points of the edge, `pts`. -/
  pts : List Coordinate
deriving DecidableEq

/-- The x ordinate of point `i` of the edge. -/
def Edge.getX (e : Edge) (i : Nat) : Int :=
  (e.pts.getD i ⟨0, 0, 0⟩).x

/-- Modelled from the spec: class `SweepLineSegment` of `geos/geomgraphindex.h`,
a header that is not among the sources.  "An `Edge` plus a segment index defines
a `SweepLineSegment` with `minX`/`maxX`". -/
structure SweepLineSegment where
  /-- The edge the segment belongs to. -/
  edge : Edge
  /-- The index of the first point of the segment in the edge. -/
  ptIndex : Nat
deriving DecidableEq

/-- Modelled from the spec: `SweepLineSegment::getMinX`, the smaller x ordinate
of the two end points of the segment. -/
def SweepLineSegment.getMinX (ss : SweepLineSegment) : Int :=
  min (ss.edge.getX ss.ptIndex) (ss.edge.getX (ss.ptIndex + 1))

/-- Modelled from the spec: `SweepLineSegment::getMaxX`, the larger x ordinate
of the two end points of the segment. -/
def SweepLineSegment.getMaxX (ss : SweepLineSegment) : Int :=
  max (ss.edge.getX ss.ptIndex) (ss.edge.getX (ss.ptIndex + 1))

/-- Modelled from the spec: class `SweepLineEvent` of `geos/geomgraphindex.h`.
The fields are the four constructor arguments used by `add` and the delete
index written by `prepareEvents`. -/
structure SweepLineEvent where
  /-- The group tag, a `void*`; `none` is `NULL`. -/
  edgeSet : Option Nat
  /-- The x value of the event. -/
  xValue : Int
  /-- For a delete event the pointer to its insert event; `none` (`NULL`) for
  an insert event. -/
  insertEvent : Option Nat
  /-- The pointer to the `SweepLineSegment` of the event. -/
  obj : Nat
  /-- The index written by `setDeleteEventIndex`. -/
  deleteEventIndex : Nat
deriving DecidableEq

/-- Modelled from the spec: the constructor
`SweepLineEvent(edgeSet, x, insertEvent, obj)`; the delete index starts at 0. -/
def SweepLineEvent.new (edgeSet : Option Nat) (x : Int) (insertEvent : Option Nat)
    (obj : Nat) : SweepLineEvent :=
  { edgeSet := edgeSet, xValue := x, insertEvent := insertEvent, obj := obj,
    deleteEventIndex := 0 }

/-- Modelled from the spec: `SweepLineEvent::isInsert`; an insert event has no
insert back-reference. -/
def SweepLineEvent.isInsert (e : SweepLineEvent) : Bool :=
  e.insertEvent.isNone

/-- Modelled from the spec: `SweepLineEvent::isDelete`; a delete event carries
the back-reference to its insert event. -/
def SweepLineEvent.isDelete (e : SweepLineEvent) : Bool :=
  e.insertEvent.isSome

/-- Modelled from the spec: the event type, `INSERT_EVENT = 1` for an insert
event and `DELETE_EVENT = 2` for a delete event. -/
def SweepLineEvent.eventType (e : SweepLineEvent) : Nat :=
  if e.isInsert then 1 else 2

/-- The event a pointer refers to. -/
def deref (heap : List SweepLineEvent) (p : Nat) : SweepLineEvent :=
  heap.getD p (SweepLineEvent.new none 0 none 0)

/-- Modelled from the spec: `struct SweepLineEventLessThen` of
`geos/geomgraphindex.h`, the comparator handed to `std::sort`.  Events are
ordered by x; at equal x an insert event comes before a delete event, the
tie-break under which the scanned range of an insert covers the segments whose
x-interval overlaps it. -/
def SweepLineEventLessThen (heap : List SweepLineEvent) (f s : Nat) : Bool :=
  if (deref heap f).xValue < (deref heap s).xValue then true
  else if (deref heap s).xValue < (deref heap f).xValue then false
  else decide ((deref heap f).eventType < (deref heap s).eventType)

/-- The external `SegmentIntersector`, recorded as the sequence of segment pairs
on which the segment-pair test was invoked. -/
abbrev SegmentIntersector := List (Nat × Nat)

/-- Modelled from the spec: `ss0->computeIntersections(ss1, si)`, the
segment-pair test; it hands the pair `(ss0, ss1)` to the intersector. -/
def SweepLineSegment.computeIntersections (ss0 ss1 : Nat) (si : SegmentIntersector) :
    SegmentIntersector :=
  si ++ [(ss0, ss1)]

/-- The value a 32-bit two's complement `int` holds for the arithmetic result
`z`: `z` reduced modulo `2^32` into the range from `-2^31` to `2^31 - 1`. -/
def wrapInt32 (z : Int) : Int :=
  (z + 2147483648) % 4294967296 - 2147483648

/-- The increment `n++` of an `int`; past `2^31 - 1` the value wraps around to
`-2^31`, as it does on two's complement hardware. -/
def incrInt32 (n : Int) : Int :=
  wrapInt32 (n + 1)

/-- The state of a `SimpleSweepLineIntersector` together with the two object
stores its pointers refer to. -/
structure SimpleSweepLineIntersector where
  /-- The member `vector<SweepLineEvent*> events`. -/
  events : List Nat
  /-- The member `int nOverlaps`, a 32-bit two's complement integer. -/
  nOverlaps : Int
  /-- The `SweepLineEvent` objects created so far; pointer `p` is entry `p`. -/
  evHeap : List SweepLineEvent
  /-- The `SweepLineSegment` objects created so far; pointer `p` is entry `p`. -/
  segHeap : List SweepLineSegment
deriving DecidableEq

/-- The constructor `SimpleSweepLineIntersector()`: no events, `nOverlaps = 0`. -/
def SimpleSweepLineIntersector.init : SimpleSweepLineIntersector :=
  { events := [], nOverlaps := 0, evHeap := [], segHeap := [] }

/-- One iteration of the loop of `add(Edge*, void*)` for segment index `i`. -/
def addSegment (edge : Edge) (edgeSet : Option Nat) (st : SimpleSweepLineIntersector)
    (i : Nat) : SimpleSweepLineIntersector :=
  let ss : SweepLineSegment := { edge := edge, ptIndex := i }
  let ssPtr : Nat := st.segHeap.length
  let insertEvent : Nat := st.evHeap.length
  let deleteEvent : Nat := st.evHeap.length + 1
  { st with
    segHeap := st.segHeap ++ [ss]
    evHeap := st.evHeap ++ [SweepLineEvent.new edgeSet ss.getMinX none ssPtr,
      SweepLineEvent.new edgeSet ss.getMaxX (some insertEvent) ssPtr]
    events := st.events ++ [insertEvent, deleteEvent] }

/-- `SimpleSweepLineIntersector::add(Edge *edge, void* edgeSet)`. -/
def add (st : SimpleSweepLineIntersector) (edge : Edge) (edgeSet : Option Nat) :
    SimpleSweepLineIntersector :=
  (List.range (edge.pts.length - 1)).foldl (addSegment edge edgeSet) st

/-- `SimpleSweepLineIntersector::add(vector<Edge*> *edges, void* edgeSet)`. -/
def addEdges (st : SimpleSweepLineIntersector) (edges : List Edge) (edgeSet : Option Nat) :
    SimpleSweepLineIntersector :=
  edges.foldl (fun s edge => add s edge edgeSet) st

/-- `SimpleSweepLineIntersector::add(vector<Edge*> *edges)`: each edge is its
own group. -/
def addEdgesOwnGroup (st : SimpleSweepLineIntersector) (edges : List Edge) :
    SimpleSweepLineIntersector :=
  edges.foldl (fun s edge => add s edge (some edge.addr)) st

/-- `ev->setDeleteEventIndex(i)` on the event `p` points to. -/
def setDeleteEventIndex (heap : List SweepLineEvent) (p : Nat) (i : Nat) :
    List SweepLineEvent :=
  heap.set p { deref heap p with deleteEventIndex := i }

/-- One iteration of the loop of `prepareEvents`. -/
def stampStep (events : List Nat) (heap : List SweepLineEvent) (i : Nat) :
    List SweepLineEvent :=
  let ev := events.getD i 0
  match (deref heap ev).insertEvent with
  | some ins => setDeleteEventIndex heap ins i
  | none => heap

/-- `SimpleSweepLineIntersector::prepareEvents()`. -/
def prepareEvents (sortFn : (Nat → Nat → Bool) → List Nat → List Nat)
    (st : SimpleSweepLineIntersector) : SimpleSweepLineIntersector :=
  let events := sortFn (SweepLineEventLessThen st.evHeap) st.events
  { st with
    events := events
    evHeap := (List.range events.length).foldl (stampStep events) st.evHeap }

/-- One iteration of the loop of `processOverlaps`, for index `i`. -/
def processOverlapsStep (ev0 : Nat)
    (acc : SimpleSweepLineIntersector × SegmentIntersector) (i : Nat) :
    SimpleSweepLineIntersector × SegmentIntersector :=
  let ss0 := (deref acc.1.evHeap ev0).obj
  let ev1 := acc.1.events.getD i 0
  if (deref acc.1.evHeap ev1).isInsert then
    let ss1 := (deref acc.1.evHeap ev1).obj
    if (deref acc.1.evHeap ev0).edgeSet = none ∨
        (deref acc.1.evHeap ev0).edgeSet ≠ (deref acc.1.evHeap ev1).edgeSet then
      ({ acc.1 with nOverlaps := incrInt32 acc.1.nOverlaps },
        SweepLineSegment.computeIntersections ss0 ss1 acc.2)
    else acc
  else acc

/-- `SimpleSweepLineIntersector::processOverlaps(start, end, ev0, si)`. -/
def processOverlaps (st : SimpleSweepLineIntersector) (start end_ : Nat) (ev0 : Nat)
    (si : SegmentIntersector) : SimpleSweepLineIntersector × SegmentIntersector :=
  (List.range' start (end_ - start)).foldl (processOverlapsStep ev0) (st, si)

/-- One iteration of the loop of `computeIntersections(si)`, for index `i`. -/
def sweepStep (acc : SimpleSweepLineIntersector × SegmentIntersector) (i : Nat) :
    SimpleSweepLineIntersector × SegmentIntersector :=
  let ev := acc.1.events.getD i 0
  if (deref acc.1.evHeap ev).isInsert then
    processOverlaps acc.1 i (deref acc.1.evHeap ev).deleteEventIndex ev acc.2
  else acc

/-- `SimpleSweepLineIntersector::computeIntersections(SegmentIntersector *si)`. -/
def computeIntersections (sortFn : (Nat → Nat → Bool) → List Nat → List Nat)
    (st : SimpleSweepLineIntersector) (si : SegmentIntersector) :
    SimpleSweepLineIntersector × SegmentIntersector :=
  let st1 := prepareEvents sortFn { st with nOverlaps := 0 }
  (List.range st1.events.length).foldl sweepStep (st1, si)

/-- An edge list: the value of the `vector<Edge*>*` pointer and the edges. -/
structure EdgeList where
  /-- The address of the vector, the value of the `vector<Edge*>*`. -/
  addr : Nat
  /-- The edges the vector holds. -/
  edges : List Edge
deriving DecidableEq

/-- `computeIntersections(vector<Edge*> *edges, SegmentIntersector *si,
bool testAllSegments)`. -/
def computeIntersectionsSelf (sortFn : (Nat → Nat → Bool) → List Nat → List Nat)
    (st : SimpleSweepLineIntersector) (edges : EdgeList) (si : SegmentIntersector)
    (testAllSegments : Bool) : SimpleSweepLineIntersector × SegmentIntersector :=
  if testAllSegments then
    computeIntersections sortFn (addEdges st edges.edges none) si
  else
    computeIntersections sortFn (addEdgesOwnGroup st edges.edges) si

/-- `computeIntersections(vector<Edge*> *edges0, vector<Edge*> *edges1,
SegmentIntersector *si)`. -/
def computeIntersectionsCross (sortFn : (Nat → Nat → Bool) → List Nat → List Nat)
    (st : SimpleSweepLineIntersector) (edges0 edges1 : EdgeList) (si : SegmentIntersector) :
    SimpleSweepLineIntersector × SegmentIntersector :=
  computeIntersections sortFn
    (addEdges (addEdges st edges0.edges (some edges0.addr)) edges1.edges (some edges1.addr)) si

/-- The contract of `std::sort` with the comparator `SweepLineEventLessThen`:
the result is a permutation of the input in which no element compares less
than an element before it. -/
def StdSortSpec (sortFn : (Nat → Nat → Bool) → List Nat → List Nat) : Prop :=
  ∀ (heap : List SweepLineEvent) (l : List Nat),
    (sortFn (SweepLineEventLessThen heap) l).Perm l ∧
    (sortFn (SweepLineEventLessThen heap) l).Pairwise
      (fun a b => SweepLineEventLessThen heap b a = false)

/-- Insertion of one element into a sorted list, before the first element it
compares less than. -/
def insertSorted (lt : Nat → Nat → Bool) (a : Nat) : List Nat → List Nat
  | [] => [a]
  | b :: l => if lt a b then a :: b :: l else b :: insertSorted lt a l

/-- A sorting function that meets `StdSortSpec`: insertion sort. -/
def insertionSort (lt : Nat → Nat → Bool) : List Nat → List Nat
  | [] => []
  | a :: l => insertSorted lt a (insertionSort lt l)

/-- A sequence of calls `add(edge, edgeSet)` on an intersector. -/
def addAll (st : SimpleSweepLineIntersector) (adds : List (Edge × Option Nat)) :
    SimpleSweepLineIntersector :=
  adds.foldl (fun s a => add s a.1 a.2) st

/-- The segments one call `add(edge, edgeSet)` creates, each with the group tag
given to the call. -/
def segmentsOf (edge : Edge) (edgeSet : Option Nat) :
    List (SweepLineSegment × Option Nat) :=
  (List.range (edge.pts.length - 1)).map
    (fun i => (({ edge := edge, ptIndex := i } : SweepLineSegment), edgeSet))

/-- The segments a sequence of calls to `add` creates, in the order of their
creation; on a fresh intersector, segment pointer `k` refers to entry `k`. -/
def taggedSegments (adds : List (Edge × Option Nat)) :
    List (SweepLineSegment × Option Nat) :=
  adds.flatMap (fun a => segmentsOf a.1 a.2)

/-- The segments of an edge list, in the order `add` creates them. -/
def edgeSegments (edges : List Edge) : List SweepLineSegment :=
  edges.flatMap (fun e =>
    (List.range (e.pts.length - 1)).map (fun i => ({ edge := e, ptIndex := i } : SweepLineSegment)))

/-- The segment a segment pointer refers to. -/
def segDeref (heap : List SweepLineSegment) (p : Nat) : SweepLineSegment :=
  heap.getD p { edge := { addr := 0, pts := [] }, ptIndex := 0 }

/-- An edge with the single segment from x = 0 to x = 2. -/
def edgeA : Edge := { addr := 1, pts := [⟨0, 0, 0⟩, ⟨2, 0, 0⟩] }

/-- An edge with the single segment from x = 2 to x = 3; it touches `edgeA` in
x. -/
def edgeB : Edge := { addr := 2, pts := [⟨2, 1, 0⟩, ⟨3, 1, 0⟩] }

/-- An edge with two segments, from x = 5 to x = 6 and from x = 6 to x = 7;
it lies to the right of `edgeA` and of `edgeB`. -/
def edgeC : Edge := { addr := 3, pts := [⟨5, 0, 0⟩, ⟨6, 0, 0⟩, ⟨7, 3, 0⟩] }

/-- Entry `k` of a list of tagged segments. -/
def segAt (segs : List (SweepLineSegment × Option Nat)) (k : Nat) :
    SweepLineSegment × Option Nat :=
  segs.getD k (({ edge := { addr := 0, pts := [] }, ptIndex := 0 } : SweepLineSegment), none)

/-- The closed x-intervals `[minX, maxX]` of two segments overlap. -/
abbrev xOverlap (s t : SweepLineSegment) : Prop :=
  s.getMinX ≤ t.getMaxX ∧ t.getMinX ≤ s.getMaxX

/-- The group rule of `processOverlaps`: the test is made unless the first tag
is non-null and equal to the second. -/
abbrev groupTest (g0 g1 : Option Nat) : Prop :=
  g0 = none ∨ g0 ≠ g1

/-- An event without its delete index, the only field written after
construction. -/
def staticPart (e : SweepLineEvent) : SweepLineEvent :=
  { e with deleteEventIndex := 0 }

/-- The event object `add` stores at address `p` for the tagged segments
`segs`: the insert event of segment `p / 2` when `p` is even, its delete event
when `p` is odd. -/
def eventImage (segs : List (SweepLineSegment × Option Nat)) (p : Nat) : SweepLineEvent :=
  if p % 2 = 0 then
    SweepLineEvent.new (segAt segs (p / 2)).2 (segAt segs (p / 2)).1.getMinX none (p / 2)
  else
    SweepLineEvent.new (segAt segs (p / 2)).2 (segAt segs (p / 2)).1.getMaxX (some (p - 1))
      (p / 2)

/-- The state of an intersector whose segments, in creation order, are `segs`:
the stores hold the objects `add` builds for them and the event list holds
every event pointer once. -/
def WellFormed (segs : List (SweepLineSegment × Option Nat))
    (st : SimpleSweepLineIntersector) : Prop :=
  st.segHeap = segs.map Prod.fst ∧
  st.evHeap.map staticPart = (List.range (2 * segs.length)).map (eventImage segs) ∧
  st.events.Perm (List.range (2 * segs.length))

/-- A well-formed state as `prepareEvents` leaves it: the event list is ordered
by the comparator and every insert event records the index of its delete
event. -/
def Prepared (segs : List (SweepLineSegment × Option Nat))
    (st : SimpleSweepLineIntersector) : Prop :=
  WellFormed segs st ∧
  st.events.Pairwise (fun a b => SweepLineEventLessThen st.evHeap b a = false) ∧
  ∀ i k : Nat, i < st.events.length → st.events.getD i 0 = 2 * k + 1 →
    (deref st.evHeap (2 * k)).deleteEventIndex = i

/-- The index of the event pointer `p` in the event list. -/
def pos (st : SimpleSweepLineIntersector) (p : Nat) : Nat :=
  st.events.indexOf p

/-- The segment-pair test made when the scan for `ev0` looks at index `i`. -/
def testAt (events : List Nat) (heap : List SweepLineEvent) (ev0 : Nat) (i : Nat) :
    Option (Nat × Nat) :=
  if (deref heap (events.getD i 0)).isInsert = true ∧
      groupTest (deref heap ev0).edgeSet (deref heap (events.getD i 0)).edgeSet then
    some ((deref heap ev0).obj, (deref heap (events.getD i 0)).obj)
  else none

/-- The segment-pair tests of one scan `processOverlaps(start, end, ev0, si)`. -/
def scanTests (st : SimpleSweepLineIntersector) (start end_ : Nat) (ev0 : Nat) :
    List (Nat × Nat) :=
  (List.range' start (end_ - start)).filterMap (testAt st.events st.evHeap ev0)

/-- The segment-pair tests of the sweep over a prepared event list. -/
def sweepTests (st : SimpleSweepLineIntersector) : List (Nat × Nat) :=
  (List.range st.events.length).flatMap (fun i =>
    if (deref st.evHeap (st.events.getD i 0)).isInsert = true then
      scanTests st i (deref st.evHeap (st.events.getD i 0)).deleteEventIndex
        (st.events.getD i 0)
    else [])

/-- An unordered pair of segments, written smaller pointer first. -/
def unorderedPair (p : Nat × Nat) : Nat × Nat :=
  if p.1 ≤ p.2 then p else (p.2, p.1)

/-- An edge with a single vertical segment, at x = 1. -/
def edgeV : Edge := { addr := 4, pts := [⟨1, 0, 0⟩, ⟨1, 5, 0⟩] }

/-- A second sorting function that meets `StdSortSpec`: insertion sort of the
reversed list.  It leaves equivalent events in another order than
`insertionSort`. -/
def insertionSortRev (lt : Nat → Nat → Bool) (l : List Nat) : List Nat :=
  insertionSort lt l.reverse

/-! ## Edge intersections, directed edges and the node map (`geomgraph.h`) -/

/-- `EdgeIntersection`: a point on an edge, with the index of the segment it
lies on and its distance along that segment (`dist` is an exact number). -/
structure EdgeIntersection where
  /-- The point of the intersection. -/
  coord : Coordinate
  /-- The index of the segment of the edge. -/
  segmentIndex : Int
  /-- The distance along the segment. -/
  dist : Int
deriving DecidableEq

/-- `EdgeIntersectionLessThen::operator()`. -/
def EdgeIntersectionLessThen (ei1 ei2 : EdgeIntersection) : Bool :=
  if ei1.segmentIndex < ei2.segmentIndex ∨
      (ei1.segmentIndex = ei2.segmentIndex ∧ ei1.dist < ei2.dist) then true
  else false

/-- `std::set::insert` on the ordered sequence of the elements of the set: the
new contents, the element at the position of `x`, and whether `x` was
inserted.  An element equivalent to `x` (neither less than the other) blocks
the insertion. -/
def setInsert {α : Type} (lt : α → α → Bool) (x : α) : List α → List α × α × Bool
  | [] => ([x], x, true)
  | y :: l =>
    if lt x y then (x :: y :: l, x, true)
    else if lt y x then (y :: (setInsert lt x l).1, (setInsert lt x l).2)
    else (y :: l, y, false)

/-- `EdgeIntersectionList`: the owning edge and the set
`set<EdgeIntersection *, EdgeIntersectionLessThen> nodeMap`, held as the
ordered sequence of its entries. -/
structure EdgeIntersectionList where
  /-- The address of the owning edge. -/
  edge : Nat
  /-- The entries of the set, in the order of the comparator. -/
  nodeMap : List EdgeIntersection
deriving DecidableEq

/-- Modelled from the spec: `EdgeIntersectionList::add(coord, segmentIndex,
dist)`, declared in `geomgraph.h` and defined in a file that is not among the
sources.  "Adds an intersection into the list, if it isn't already there";
"a set-insert keyed by the ordering"; it returns "the EdgeIntersection found or
added". -/
def EdgeIntersectionList.add (eil : EdgeIntersectionList) (coord : Coordinate)
    (segmentIndex : Int) (dist : Int) : EdgeIntersectionList × EdgeIntersection :=
  ({ eil with
      nodeMap := (setInsert EdgeIntersectionLessThen
        { coord := coord, segmentIndex := segmentIndex, dist := dist } eil.nodeMap).1 },
    (setInsert EdgeIntersectionLessThen
        { coord := coord, segmentIndex := segmentIndex, dist := dist } eil.nodeMap).2.1)

/-- The fields of a `DirectedEdge` that its inline member functions read and
write; pointers to other objects are addresses, `none` being `NULL`. -/
structure DirectedEdge where
  /-- The parent edge, `EdgeEnd::edge`. -/
  edge : Option Nat
  /-- The member `isForwardVar`. -/
  isForwardVar : Bool
  /-- The member `isInResultVar`. -/
  isInResultVar : Bool
  /-- The member `isVisitedVar`. -/
  isVisitedVar : Bool
  /-- The symmetric edge. -/
  sym : Option Nat
  /-- The next edge in the edge ring. -/
  next : Option Nat
  /-- The next edge in the minimal edge ring. -/
  nextMin : Option Nat
  /-- The edge ring this edge is part of. -/
  edgeRing : Option Nat
  /-- The minimal edge ring this edge is part of. -/
  minEdgeRing : Option Nat
  /-- The array `int depth[3]`. -/
  depth : List Int
deriving DecidableEq

/-- The `DirectedEdge` object at address `d` of a store of such objects. -/
def derefDE (store : List DirectedEdge) (d : Nat) : DirectedEdge :=
  store.getD d
    { edge := none, isForwardVar := false, isInResultVar := false, isVisitedVar := false,
      sym := none, next := none, nextMin := none, edgeRing := none, minEdgeRing := none,
      depth := [] }

/-- `DirectedEdge::getSym()` on the object at address `d`. -/
def DirectedEdge.getSym (store : List DirectedEdge) (d : Nat) : Option Nat :=
  (derefDE store d).sym

/-- `DirectedEdge::setSym(de)` on the object at address `d`: `sym=de`. -/
def DirectedEdge.setSym (store : List DirectedEdge) (d : Nat) (de : Option Nat) :
    List DirectedEdge :=
  store.set d { derefDE store d with sym := de }

/-- `DirectedEdge::setNext(newNext)` on the object at address `d`. -/
def DirectedEdge.setNext (store : List DirectedEdge) (d : Nat) (newNext : Option Nat) :
    List DirectedEdge :=
  store.set d { derefDE store d with next := newNext }

/-- `DirectedEdge::setNextMin(nm)` on the object at address `d`. -/
def DirectedEdge.setNextMin (store : List DirectedEdge) (d : Nat) (nm : Option Nat) :
    List DirectedEdge :=
  store.set d { derefDE store d with nextMin := nm }

/-- `DirectedEdge::setInResult(v)` on the object at address `d`. -/
def DirectedEdge.setInResult (store : List DirectedEdge) (d : Nat) (v : Bool) :
    List DirectedEdge :=
  store.set d { derefDE store d with isInResultVar := v }

/-- `DirectedEdge::setVisited(v)` on the object at address `d`. -/
def DirectedEdge.setVisited (store : List DirectedEdge) (d : Nat) (v : Bool) :
    List DirectedEdge :=
  store.set d { derefDE store d with isVisitedVar := v }

/-- `DirectedEdge::setEdgeRing(er)` on the object at address `d`. -/
def DirectedEdge.setEdgeRing (store : List DirectedEdge) (d : Nat) (er : Option Nat) :
    List DirectedEdge :=
  store.set d { derefDE store d with edgeRing := er }

/-- `DirectedEdge::setMinEdgeRing(mer)` on the object at address `d`. -/
def DirectedEdge.setMinEdgeRing (store : List DirectedEdge) (d : Nat) (mer : Option Nat) :
    List DirectedEdge :=
  store.set d { derefDE store d with minEdgeRing := mer }

/-- The value of `d.getSym().getSym()`; `none` when one of the two pointers is
`NULL`. -/
def symOfSym (store : List DirectedEdge) (d : Nat) : Option Nat :=
  (DirectedEdge.getSym store d).bind (DirectedEdge.getSym store)

/-- A directed edge with the given symmetric edge and no other link. -/
def directedEdgeWithSym (sym : Option Nat) : DirectedEdge :=
  { edge := none, isForwardVar := true, isInResultVar := false, isVisitedVar := false,
    sym := sym, next := none, nextMin := none, edgeRing := none, minEdgeRing := none,
    depth := [0, 0, 0] }

/-- A store of four directed edges in two symmetric pairs, 0 with 1 and 2 with
3. -/
def pairedStore : List DirectedEdge :=
  [directedEdgeWithSym (some 1), directedEdgeWithSym (some 0),
    directedEdgeWithSym (some 3), directedEdgeWithSym (some 2)]

/-- `CoordLT::operator()`: `s1->compareTo(*s2)<0`.  `Coordinate::compareTo` is
not among the sources and is a parameter. -/
def CoordLT (compareTo : Coordinate → Coordinate → Int) (s1 s2 : Coordinate) : Bool :=
  decide (compareTo s1 s2 < 0)

/-- A comparator is a strict weak ordering, as `std::set` and `std::map`
require: irreflexive, transitive, and with a transitive equivalence. -/
def StrictWeakOrder {α : Type} (lt : α → α → Bool) : Prop :=
  (∀ a, lt a a = false) ∧
  (∀ a b c, lt a b = true → lt b c = true → lt a c = true) ∧
  (∀ a b c, lt a b = false → lt b a = false → lt b c = false → lt c b = false →
    lt a c = false ∧ lt c a = false)

/-- A comparison of coordinates by x, then by y, with the sign convention of
`compareTo`; used in examples. -/
def compareXY (a b : Coordinate) : Int :=
  if a.x < b.x then -1
  else if b.x < a.x then 1
  else if a.y < b.y then -1
  else if b.y < a.y then 1
  else 0

/-- `std::map::find` on the ordered sequence of the entries of the map: the
entry whose key is equivalent to `k` (neither less than the other), if any. -/
def mapFind {κ V : Type} (lt : κ → κ → Bool) (k : κ) : List (κ × V) → Option (κ × V)
  | [] => none
  | e :: l => if lt k e.1 = false ∧ lt e.1 k = false then some e else mapFind lt k l

/-- The assignment `m[k] = v` of `std::map` on the ordered sequence of the
entries: the value of an entry with an equivalent key is replaced, otherwise
the entry `(k, v)` is inserted at its place in the order. -/
def mapAssign {κ V : Type} (lt : κ → κ → Bool) (k : κ) (v : V) : List (κ × V) → List (κ × V)
  | [] => [(k, v)]
  | e :: l =>
    if lt k e.1 then (k, v) :: e :: l
    else if lt e.1 k then e :: mapAssign lt k v l
    else (e.1, v) :: l

/-- A `Node` as the node map sees it: its coordinate. -/
structure Node where
  /-- The coordinate of the node. -/
  coord : Coordinate
deriving DecidableEq

/-- `NodeMap`: the map `map<Coordinate*,Node*,CoordLT> nodeMap`, held as the
ordered sequence of its entries (key coordinate, node pointer), and the store
of the nodes created by the node factory; a node pointer is an index into the
store. -/
structure NodeMap where
  /-- The entries of the map, in the order of the comparator. -/
  nodeMap : List (Coordinate × Nat)
  /-- The nodes created so far. -/
  nodes : List Node
deriving DecidableEq

/-- Modelled from the spec: `NodeMap::find(coord)`, declared in `geomgraph.h`
and `NodeMap.h` and defined in a file that is not among the sources: the node
stored under the coordinate, `none` (`NULL`) when there is none. -/
def NodeMap.find (compareTo : Coordinate → Coordinate → Int) (nm : NodeMap)
    (coord : Coordinate) : Option Nat :=
  (mapFind (CoordLT compareTo) coord nm.nodeMap).map Prod.snd

/-- Modelled from the spec: `NodeMap::addNode(coord)`, declared in `geomgraph.h`
and `NodeMap.h` and defined in a file that is not among the sources.  The map
is "keyed by coordinate with a total order"; `addNode` uses "an existing node
if the coordinate already exists rather than creating a duplicate", otherwise
the node factory creates a node, which is stored under its coordinate. -/
def NodeMap.addNode (compareTo : Coordinate → Coordinate → Int) (nm : NodeMap)
    (coord : Coordinate) : NodeMap × Nat :=
  match nm.find compareTo coord with
  | some node => (nm, node)
  | none =>
    ({ nodeMap := mapAssign (CoordLT compareTo) coord nm.nodes.length nm.nodeMap
       nodes := nm.nodes ++ [{ coord := coord }] },
      nm.nodes.length)

/-! ## The sweep with its accesses checked -/

/-- One iteration of the loop of `prepareEvents` with its accesses checked:
`none` when `events[i]` is out of bounds or a pointer that is followed does not
refer to an event object.  The second component lists the insert events whose
delete index has been assigned so far. -/
def stampStepChecked (events : List Nat) (acc : List SweepLineEvent × List Nat) (i : Nat) :
    Option (List SweepLineEvent × List Nat) :=
  if i < events.length ∧ events.getD i 0 < acc.1.length then
    match (deref acc.1 (events.getD i 0)).insertEvent with
    | some ins =>
      if ins < acc.1.length then some (setDeleteEventIndex acc.1 ins i, ins :: acc.2)
      else none
    | none => some acc
  else none

/-- The iteration of `stampStepChecked` without the checks. -/
def stampStepGhost (events : List Nat) (acc : List SweepLineEvent × List Nat) (i : Nat) :
    List SweepLineEvent × List Nat :=
  (stampStep events acc.1 i,
    match (deref acc.1 (events.getD i 0)).insertEvent with
    | some ins => ins :: acc.2
    | none => acc.2)

/-- `prepareEvents` with the accesses of its loop checked; it returns the state
and the insert events whose delete index it has assigned. -/
def prepareEventsChecked (sortFn : (Nat → Nat → Bool) → List Nat → List Nat)
    (st : SimpleSweepLineIntersector) : Option (SimpleSweepLineIntersector × List Nat) :=
  ((List.range (sortFn (SweepLineEventLessThen st.evHeap) st.events).length).foldlM
      (stampStepChecked (sortFn (SweepLineEventLessThen st.evHeap) st.events))
      (st.evHeap, [])).map
    (fun r =>
      ({ st with
          events := sortFn (SweepLineEventLessThen st.evHeap) st.events
          evHeap := r.1 }, r.2))

/-- One iteration of the loop of `processOverlaps` with its accesses checked:
`none` when `events[i]` is out of bounds or `ev0` or `events[i]` does not refer
to an event object. -/
def processOverlapsStepChecked (ev0 : Nat)
    (acc : SimpleSweepLineIntersector × SegmentIntersector) (i : Nat) :
    Option (SimpleSweepLineIntersector × SegmentIntersector) :=
  if i < acc.1.events.length ∧ acc.1.events.getD i 0 < acc.1.evHeap.length ∧
      ev0 < acc.1.evHeap.length then
    some (processOverlapsStep ev0 acc i)
  else none

/-- `processOverlaps` with its accesses checked. -/
def processOverlapsChecked (st : SimpleSweepLineIntersector) (start end_ : Nat) (ev0 : Nat)
    (si : SegmentIntersector) : Option (SimpleSweepLineIntersector × SegmentIntersector) :=
  (List.range' start (end_ - start)).foldlM (processOverlapsStepChecked ev0) (st, si)

/-- One iteration of the loop of `computeIntersections(si)` with its accesses
checked: `none` when `events[i]` is out of bounds, when it does not refer to an
event object, when the delete index of an insert event is read without having
been assigned (the event is not in `assigned`), or when the scan fails. -/
def sweepStepChecked (assigned : List Nat)
    (acc : SimpleSweepLineIntersector × SegmentIntersector) (i : Nat) :
    Option (SimpleSweepLineIntersector × SegmentIntersector) :=
  if i < acc.1.events.length ∧ acc.1.events.getD i 0 < acc.1.evHeap.length then
    if (deref acc.1.evHeap (acc.1.events.getD i 0)).isInsert then
      if acc.1.events.getD i 0 ∈ assigned then
        processOverlapsChecked acc.1 i
          (deref acc.1.evHeap (acc.1.events.getD i 0)).deleteEventIndex
          (acc.1.events.getD i 0) acc.2
      else none
    else some acc
  else none

/-- `computeIntersections(si)` with the accesses of `prepareEvents`, of its own
loop and of `processOverlaps` checked. -/
def computeIntersectionsChecked (sortFn : (Nat → Nat → Bool) → List Nat → List Nat)
    (st : SimpleSweepLineIntersector) (si : SegmentIntersector) :
    Option (SimpleSweepLineIntersector × SegmentIntersector) :=
  match prepareEventsChecked sortFn { st with nOverlaps := 0 } with
  | none => none
  | some r => (List.range r.1.events.length).foldlM (sweepStepChecked r.2) (r.1, si)

/-- A state that `add` cannot build: one insert event without a delete event,
holding a delete index beyond the event list. -/
def unpairedState : SimpleSweepLineIntersector :=
  { events := [0]
    nOverlaps := 0
    evHeap := [⟨none, 0, none, 0, 5⟩]
    segHeap := [⟨edgeA, 0⟩] }

/-- An edge of `m` segments whose points alternate between x = 0 and x = 1, so
that every segment spans the x-interval from 0 to 1. -/
def zigzagEdge (m : Nat) : Edge :=
  { addr := 5, pts := (List.range (m + 1)).map (fun i => ⟨((i % 2 : Nat) : Int), 0, 0⟩) }

/-- The pairs `(a, b)` of natural numbers with `a ≤ b < n`. -/
def trianglePairs (n : Nat) : List (Nat × Nat) :=
  (List.range n).flatMap (fun b => (List.range (b + 1)).map (fun a => (a, b)))

/-! ## The comparator and the sort -/

theorem lessThen_iff (heap : List SweepLineEvent) (f s : Nat) :
    SweepLineEventLessThen heap f s = true ↔
      (deref heap f).xValue < (deref heap s).xValue ∨
      ((deref heap f).xValue = (deref heap s).xValue ∧
        (deref heap f).eventType < (deref heap s).eventType) := by
  unfold SweepLineEventLessThen
  split_ifs with h1 h2
  · simp [h1]
  · simp only [Bool.false_eq_true, false_iff]; omega
  · simp only [decide_eq_true_eq]; omega

theorem lessThen_false_iff (heap : List SweepLineEvent) (f s : Nat) :
    SweepLineEventLessThen heap f s = false ↔
      (deref heap s).xValue < (deref heap f).xValue ∨
      ((deref heap s).xValue = (deref heap f).xValue ∧
        (deref heap s).eventType ≤ (deref heap f).eventType) := by
  rw [← Bool.not_eq_true, lessThen_iff]
  omega

theorem insertSorted_perm (lt : Nat → Nat → Bool) (a : Nat) (l : List Nat) :
    (insertSorted lt a l).Perm (a :: l) := by
  induction l with
  | nil => exact List.Perm.refl _
  | cons b l ih =>
    unfold insertSorted
    split_ifs
    · exact List.Perm.refl _
    · exact (List.Perm.cons b ih).trans (List.Perm.swap a b l)

theorem insertionSort_perm (lt : Nat → Nat → Bool) (l : List Nat) :
    (insertionSort lt l).Perm l := by
  induction l with
  | nil => exact List.Perm.refl _
  | cons a l ih =>
    exact (insertSorted_perm lt a _).trans (List.Perm.cons a ih)

theorem insertSorted_sorted (lt : Nat → Nat → Bool)
    (hasym : ∀ a b, lt a b = true → lt b a = false)
    (htrans : ∀ a b c, lt b a = false → lt c b = false → lt c a = false)
    (a : Nat) (l : List Nat)
    (hl : l.Pairwise (fun x y => lt y x = false)) :
    (insertSorted lt a l).Pairwise (fun x y => lt y x = false) := by
  induction l with
  | nil => simp [insertSorted]
  | cons b l ih =>
    unfold insertSorted
    rw [List.pairwise_cons] at hl
    split_ifs with h
    · refine List.Pairwise.cons ?_ (List.Pairwise.cons hl.1 hl.2)
      intro c hc
      rcases List.mem_cons.mp hc with rfl | hc
      · exact hasym _ _ h
      · exact htrans _ _ _ (hasym _ _ h) (hl.1 c hc)
    · refine List.Pairwise.cons ?_ (ih hl.2)
      intro c hc
      rcases List.mem_cons.mp ((insertSorted_perm lt a l).mem_iff.mp hc) with rfl | hc
      · simpa using h
      · exact hl.1 c hc

theorem insertionSort_sorted (lt : Nat → Nat → Bool)
    (hasym : ∀ a b, lt a b = true → lt b a = false)
    (htrans : ∀ a b c, lt b a = false → lt c b = false → lt c a = false)
    (l : List Nat) :
    (insertionSort lt l).Pairwise (fun x y => lt y x = false) := by
  induction l with
  | nil => simp [insertionSort]
  | cons a l ih => exact insertSorted_sorted lt hasym htrans a _ ih

theorem insertionSort_spec : StdSortSpec insertionSort := by
  intro heap l
  refine ⟨insertionSort_perm _ l, insertionSort_sorted _ ?_ ?_ l⟩
  · intro a b h
    rw [lessThen_iff] at h
    rw [lessThen_false_iff]
    omega
  · intro a b c h1 h2
    rw [lessThen_false_iff] at h1 h2 ⊢
    omega

/-! ## The two loops of the sweep as lists of tests -/


theorem wrapInt32_incr (a : Int) : wrapInt32 (wrapInt32 a + 1) = wrapInt32 (a + 1) := by
  unfold wrapInt32
  omega

theorem wrapInt32_of_le (z : Int) (h0 : 0 ≤ z) (h1 : z ≤ 2147483647) : wrapInt32 z = z := by
  unfold wrapInt32
  omega

theorem iterate_incrInt32_zero (k : Nat) : incrInt32^[k] 0 = wrapInt32 k := by
  induction k with
  | zero => rfl
  | succ k ih =>
    rw [Function.iterate_succ_apply', ih]
    unfold incrInt32
    rw [wrapInt32_incr]
    push_cast
    rfl

theorem foldl_processOverlapsStep (ev0 : Nat) (l : List Nat)
    (st : SimpleSweepLineIntersector) (si : SegmentIntersector) :
    l.foldl (processOverlapsStep ev0) (st, si) =
      ({ st with nOverlaps :=
          incrInt32^[(l.filterMap (testAt st.events st.evHeap ev0)).length] st.nOverlaps },
        si ++ l.filterMap (testAt st.events st.evHeap ev0)) := by
  induction l generalizing st si with
  | nil => simp
  | cons i l ih =>
    rw [List.foldl_cons]
    by_cases h : (deref st.evHeap (st.events.getD i 0)).isInsert = true ∧
        groupTest (deref st.evHeap ev0).edgeSet (deref st.evHeap (st.events.getD i 0)).edgeSet
    · have hstep : processOverlapsStep ev0 (st, si) i =
          ({ st with nOverlaps := incrInt32 st.nOverlaps },
            si ++ [((deref st.evHeap ev0).obj, (deref st.evHeap (st.events.getD i 0)).obj)]) := by
        simp only [processOverlapsStep, h.1, if_true, SweepLineSegment.computeIntersections]
        rw [if_pos h.2]
      have ht : testAt st.events st.evHeap ev0 i =
          some ((deref st.evHeap ev0).obj, (deref st.evHeap (st.events.getD i 0)).obj) := by
        simp only [testAt]; rw [if_pos h]
      rw [hstep, ih, List.filterMap_cons_some ht]
      simp only [List.length_cons, List.append_assoc, List.singleton_append,
        Function.iterate_succ_apply]
    · have hstep : processOverlapsStep ev0 (st, si) i = (st, si) := by
        simp only [processOverlapsStep]
        by_cases h1 : (deref st.evHeap (st.events.getD i 0)).isInsert = true
        · rw [if_pos h1, if_neg (fun h2 => h ⟨h1, h2⟩)]
        · rw [if_neg h1]
      have ht : testAt st.events st.evHeap ev0 i = none := by
        simp only [testAt]; rw [if_neg h]
      rw [hstep, ih, List.filterMap_cons_none ht]

theorem processOverlaps_eq (st : SimpleSweepLineIntersector) (start end_ : Nat) (ev0 : Nat)
    (si : SegmentIntersector) :
    processOverlaps st start end_ ev0 si =
      ({ st with nOverlaps := incrInt32^[(scanTests st start end_ ev0).length] st.nOverlaps },
        si ++ scanTests st start end_ ev0) := by
  unfold processOverlaps scanTests
  exact foldl_processOverlapsStep ev0 _ st si


theorem foldl_sweepStep (l : List Nat) (st : SimpleSweepLineIntersector)
    (si : SegmentIntersector) :
    l.foldl sweepStep (st, si) =
      ({ st with nOverlaps := incrInt32^[(l.flatMap (fun i =>
          if (deref st.evHeap (st.events.getD i 0)).isInsert = true then
            scanTests st i (deref st.evHeap (st.events.getD i 0)).deleteEventIndex
              (st.events.getD i 0)
          else [])).length] st.nOverlaps },
        si ++ l.flatMap (fun i =>
          if (deref st.evHeap (st.events.getD i 0)).isInsert = true then
            scanTests st i (deref st.evHeap (st.events.getD i 0)).deleteEventIndex
              (st.events.getD i 0)
          else [])) := by
  induction l generalizing st si with
  | nil => simp
  | cons i l ih =>
    rw [List.foldl_cons]
    by_cases h : (deref st.evHeap (st.events.getD i 0)).isInsert = true
    · have hstep : sweepStep (st, si) i =
          ({ st with nOverlaps := incrInt32^[(scanTests st i
                (deref st.evHeap (st.events.getD i 0)).deleteEventIndex
                (st.events.getD i 0)).length] st.nOverlaps },
            si ++ scanTests st i (deref st.evHeap (st.events.getD i 0)).deleteEventIndex
                (st.events.getD i 0)) := by
        simp only [sweepStep]
        rw [if_pos h, processOverlaps_eq]
      rw [hstep, ih]
      simp only [scanTests, List.flatMap_cons, if_pos h, List.length_append, List.append_assoc,
        Prod.mk.injEq, and_true]
      rw [Nat.add_comm, Function.iterate_add_apply]
    · have hstep : sweepStep (st, si) i = (st, si) := by
        simp only [sweepStep]
        rw [if_neg h]
      rw [hstep, ih]
      simp only [List.flatMap_cons, if_neg h, List.nil_append]

theorem computeIntersections_eq
    (sortFn : (Nat → Nat → Bool) → List Nat → List Nat)
    (st : SimpleSweepLineIntersector) (si : SegmentIntersector) :
    computeIntersections sortFn st si =
      ({ prepareEvents sortFn { st with nOverlaps := 0 } with
          nOverlaps :=
            wrapInt32 (sweepTests (prepareEvents sortFn { st with nOverlaps := 0 })).length },
        si ++ sweepTests (prepareEvents sortFn { st with nOverlaps := 0 })) := by
  unfold computeIntersections
  simp only
  rw [foldl_sweepStep]
  have h0 : (prepareEvents sortFn { st with nOverlaps := 0 }).nOverlaps = 0 := rfl
  rw [h0, iterate_incrInt32_zero]
  rfl

/-! ## States built by `add` -/


theorem staticPart_new (g : Option Nat) (x : Int) (ins : Option Nat) (o : Nat) :
    staticPart (SweepLineEvent.new g x ins o) = SweepLineEvent.new g x ins o := rfl

theorem segAt_append_left (segs : List (SweepLineSegment × Option Nat))
    (x : SweepLineSegment × Option Nat) (k : Nat) (hk : k < segs.length) :
    segAt (segs ++ [x]) k = segAt segs k := by
  unfold segAt
  rw [List.getD_eq_getElem?_getD, List.getD_eq_getElem?_getD, List.getElem?_append_left hk]

theorem segAt_append_right (segs : List (SweepLineSegment × Option Nat))
    (x : SweepLineSegment × Option Nat) :
    segAt (segs ++ [x]) segs.length = x := by
  unfold segAt
  rw [List.getD_eq_getElem?_getD]
  simp

theorem eventImage_append_left (segs : List (SweepLineSegment × Option Nat))
    (x : SweepLineSegment × Option Nat) (p : Nat) (hp : p < 2 * segs.length) :
    eventImage (segs ++ [x]) p = eventImage segs p := by
  unfold eventImage
  rw [segAt_append_left segs x (p / 2) (by omega)]

theorem WellFormed.heap_length {segs : List (SweepLineSegment × Option Nat)}
    {st : SimpleSweepLineIntersector} (h : WellFormed segs st) :
    st.evHeap.length = 2 * segs.length := by
  have := congrArg List.length h.2.1
  simpa using this

theorem WellFormed.seg_length {segs : List (SweepLineSegment × Option Nat)}
    {st : SimpleSweepLineIntersector} (h : WellFormed segs st) :
    st.segHeap.length = segs.length := by
  rw [h.1, List.length_map]

theorem wellFormed_init : WellFormed [] SimpleSweepLineIntersector.init := by
  refine ⟨rfl, rfl, ?_⟩
  exact List.Perm.refl _

theorem wellFormed_addSegment (segs : List (SweepLineSegment × Option Nat))
    (st : SimpleSweepLineIntersector) (h : WellFormed segs st) (edge : Edge)
    (g : Option Nat) (i : Nat) :
    WellFormed (segs ++ [(({ edge := edge, ptIndex := i } : SweepLineSegment), g)])
      (addSegment edge g st i) := by
  have hlen := h.heap_length
  have hseg := h.seg_length
  obtain ⟨h1, h2, h3⟩ := h
  have hr : List.range (2 * (segs.length + 1)) =
      List.range (2 * segs.length) ++ [2 * segs.length, 2 * segs.length + 1] := by
    rw [show 2 * (segs.length + 1) = (2 * segs.length + 1) + 1 by ring, List.range_succ,
      List.range_succ]
    simp
  refine ⟨?_, ?_, ?_⟩
  · simp [addSegment, h1]
  · simp only [addSegment, List.map_append, List.length_append, List.length_singleton, hr,
      List.map_cons, List.map_nil, staticPart_new, h2]
    congr 1
    · apply List.map_congr_left
      intro p hp
      rw [List.mem_range] at hp
      exact (eventImage_append_left segs _ p hp).symm
    · have e1 : (2 * segs.length) % 2 = 0 := by omega
      have e2 : (2 * segs.length + 1) % 2 ≠ 0 := by omega
      have e3 : (2 * segs.length) / 2 = segs.length := by omega
      have e4 : (2 * segs.length + 1) / 2 = segs.length := by omega
      simp only [eventImage, e1, e3, e4, if_true, if_neg e2, segAt_append_right, hseg, hlen,
        Nat.add_sub_cancel]
  · simp only [addSegment, List.length_append, List.length_singleton, hr, hlen]
    exact List.Perm.append h3 (List.Perm.refl _)

theorem wellFormed_foldl_addSegment (edge : Edge) (g : Option Nat) (l : List Nat)
    (segs : List (SweepLineSegment × Option Nat)) (st : SimpleSweepLineIntersector)
    (h : WellFormed segs st) :
    WellFormed (segs ++ l.map (fun i => (({ edge := edge, ptIndex := i } : SweepLineSegment), g)))
      (l.foldl (addSegment edge g) st) := by
  induction l generalizing segs st with
  | nil => simpa using h
  | cons i l ih =>
    have := ih _ _ (wellFormed_addSegment segs st h edge g i)
    simpa using this

theorem wellFormed_add (segs : List (SweepLineSegment × Option Nat))
    (st : SimpleSweepLineIntersector) (h : WellFormed segs st) (edge : Edge)
    (g : Option Nat) :
    WellFormed (segs ++ segmentsOf edge g) (add st edge g) :=
  wellFormed_foldl_addSegment edge g _ segs st h

theorem wellFormed_addAll (adds : List (Edge × Option Nat))
    (segs : List (SweepLineSegment × Option Nat)) (st : SimpleSweepLineIntersector)
    (h : WellFormed segs st) :
    WellFormed (segs ++ taggedSegments adds) (addAll st adds) := by
  induction adds generalizing segs st with
  | nil => simpa [taggedSegments, addAll] using h
  | cons a adds ih =>
    have := ih _ _ (wellFormed_add segs st h a.1 a.2)
    simpa [taggedSegments, addAll] using this

theorem wellFormed_built (adds : List (Edge × Option Nat)) :
    WellFormed (taggedSegments adds) (addAll SimpleSweepLineIntersector.init adds) := by
  simpa using wellFormed_addAll adds [] _ wellFormed_init

theorem addEdges_eq_addAll (st : SimpleSweepLineIntersector) (edges : List Edge)
    (g : Option Nat) :
    addEdges st edges g = addAll st (edges.map (fun e => (e, g))) := by
  simp [addEdges, addAll, List.foldl_map]

theorem addEdgesOwnGroup_eq_addAll (st : SimpleSweepLineIntersector) (edges : List Edge) :
    addEdgesOwnGroup st edges = addAll st (edges.map (fun e => (e, some e.addr))) := by
  simp [addEdgesOwnGroup, addAll, List.foldl_map]

theorem addAll_append (st : SimpleSweepLineIntersector) (a b : List (Edge × Option Nat)) :
    addAll st (a ++ b) = addAll (addAll st a) b := by
  simp [addAll, List.foldl_append]

/-! ## `prepareEvents` -/


theorem deref_eq (heap : List SweepLineEvent) (p : Nat) :
    deref heap p = heap[p]?.getD (SweepLineEvent.new none 0 none 0) := by
  unfold deref
  rw [List.getD_eq_getElem?_getD]

theorem staticPart_deref (heap : List SweepLineEvent) (p : Nat) :
    staticPart (deref heap p) = deref (heap.map staticPart) p := by
  rw [deref_eq, deref_eq, List.getElem?_map]
  cases heap[p]? <;> rfl

theorem static_fields {a b : SweepLineEvent} (h : staticPart a = staticPart b) :
    a.edgeSet = b.edgeSet ∧ a.xValue = b.xValue ∧ a.insertEvent = b.insertEvent ∧
      a.obj = b.obj := by
  cases a; cases b
  simp only [staticPart, SweepLineEvent.mk.injEq] at h
  simp [h]

theorem map_staticPart_setDeleteEventIndex (heap : List SweepLineEvent) (p : Nat) (i : Nat) :
    (setDeleteEventIndex heap p i).map staticPart = heap.map staticPart := by
  apply List.ext_getElem?
  intro j
  unfold setDeleteEventIndex
  rw [List.getElem?_map, List.getElem?_map, List.getElem?_set]
  split_ifs with h1 h2
  · subst h1
    rw [deref_eq, List.getElem?_eq_getElem h2]
    rfl
  · subst h1
    rw [List.getElem?_eq_none (by omega)]
  · rfl

theorem map_staticPart_stampStep (events : List Nat) (heap : List SweepLineEvent) (i : Nat) :
    (stampStep events heap i).map staticPart = heap.map staticPart := by
  unfold stampStep
  simp only
  split
  · exact map_staticPart_setDeleteEventIndex _ _ _
  · rfl

theorem map_staticPart_foldl_stampStep (events : List Nat) (l : List Nat)
    (heap : List SweepLineEvent) :
    (l.foldl (stampStep events) heap).map staticPart = heap.map staticPart := by
  induction l generalizing heap with
  | nil => rfl
  | cons i l ih => rw [List.foldl_cons, ih, map_staticPart_stampStep]

theorem deref_static_congr {h1 h2 : List SweepLineEvent}
    (h : h1.map staticPart = h2.map staticPart) (p : Nat) :
    staticPart (deref h1 p) = staticPart (deref h2 p) := by
  rw [staticPart_deref, staticPart_deref, h]

theorem lessThen_static_congr {h1 h2 : List SweepLineEvent}
    (h : h1.map staticPart = h2.map staticPart) :
    SweepLineEventLessThen h1 = SweepLineEventLessThen h2 := by
  funext f s
  have hf := static_fields (deref_static_congr h f)
  have hs := static_fields (deref_static_congr h s)
  simp only [SweepLineEventLessThen, SweepLineEvent.eventType, SweepLineEvent.isInsert,
    hf.2.1, hs.2.1, hf.2.2.1, hs.2.2.1]

theorem prepareEvents_events (sortFn : (Nat → Nat → Bool) → List Nat → List Nat)
    (st : SimpleSweepLineIntersector) :
    (prepareEvents sortFn st).events = sortFn (SweepLineEventLessThen st.evHeap) st.events :=
  rfl

theorem prepareEvents_static (sortFn : (Nat → Nat → Bool) → List Nat → List Nat)
    (st : SimpleSweepLineIntersector) :
    (prepareEvents sortFn st).evHeap.map staticPart = st.evHeap.map staticPart :=
  map_staticPart_foldl_stampStep _ _ _

theorem prepareEvents_segHeap (sortFn : (Nat → Nat → Bool) → List Nat → List Nat)
    (st : SimpleSweepLineIntersector) :
    (prepareEvents sortFn st).segHeap = st.segHeap :=
  rfl

theorem prepareEvents_sorted (sortFn : (Nat → Nat → Bool) → List Nat → List Nat)
    (hsort : StdSortSpec sortFn) (st : SimpleSweepLineIntersector) :
    (prepareEvents sortFn st).events.Pairwise
      (fun a b => SweepLineEventLessThen (prepareEvents sortFn st).evHeap b a = false) := by
  rw [lessThen_static_congr (prepareEvents_static sortFn st)]
  exact (hsort st.evHeap st.events).2

theorem wellFormed_prepareEvents (sortFn : (Nat → Nat → Bool) → List Nat → List Nat)
    (hsort : StdSortSpec sortFn) (segs : List (SweepLineSegment × Option Nat))
    (st : SimpleSweepLineIntersector) (h : WellFormed segs st) :
    WellFormed segs (prepareEvents sortFn st) := by
  refine ⟨h.1, ?_, ?_⟩
  · rw [prepareEvents_static]; exact h.2.1
  · exact (hsort st.evHeap st.events).1.trans h.2.2

theorem wellFormed_static {segs : List (SweepLineSegment × Option Nat)}
    {st : SimpleSweepLineIntersector} (h : WellFormed segs st) (p : Nat)
    (hp : p < 2 * segs.length) :
    staticPart (deref st.evHeap p) = eventImage segs p := by
  rw [staticPart_deref, h.2.1, deref_eq, List.getElem?_map, List.getElem?_range hp]
  rfl

theorem wellFormed_insert {segs : List (SweepLineSegment × Option Nat)}
    {st : SimpleSweepLineIntersector} (h : WellFormed segs st) (k : Nat)
    (hk : k < segs.length) :
    (deref st.evHeap (2 * k)).edgeSet = (segAt segs k).2 ∧
    (deref st.evHeap (2 * k)).xValue = (segAt segs k).1.getMinX ∧
    (deref st.evHeap (2 * k)).insertEvent = none ∧
    (deref st.evHeap (2 * k)).obj = k := by
  have hs := wellFormed_static h (2 * k) (show 2 * k < 2 * segs.length by omega)
  have e1 : (2 * k) % 2 = 0 := by omega
  have e3 : (2 * k) / 2 = k := by omega
  have hi : eventImage segs (2 * k) =
      staticPart (SweepLineEvent.new (segAt segs k).2 (segAt segs k).1.getMinX none k) := by
    simp only [eventImage, e1, e3, if_true, staticPart_new]
  rw [hi] at hs
  exact static_fields hs

theorem wellFormed_delete {segs : List (SweepLineSegment × Option Nat)}
    {st : SimpleSweepLineIntersector} (h : WellFormed segs st) (k : Nat)
    (hk : k < segs.length) :
    (deref st.evHeap (2 * k + 1)).edgeSet = (segAt segs k).2 ∧
    (deref st.evHeap (2 * k + 1)).xValue = (segAt segs k).1.getMaxX ∧
    (deref st.evHeap (2 * k + 1)).insertEvent = some (2 * k) ∧
    (deref st.evHeap (2 * k + 1)).obj = k := by
  have hs := wellFormed_static h (2 * k + 1) (show 2 * k + 1 < 2 * segs.length by omega)
  have e2 : (2 * k + 1) % 2 ≠ 0 := by omega
  have e4 : (2 * k + 1) / 2 = k := by omega
  have hi : eventImage segs (2 * k + 1) =
      staticPart (SweepLineEvent.new (segAt segs k).2 (segAt segs k).1.getMaxX
        (some (2 * k)) k) := by
    simp only [eventImage, e4, if_neg e2, staticPart_new, Nat.add_sub_cancel]
  rw [hi] at hs
  exact static_fields hs

theorem deref_setDeleteEventIndex_self (heap : List SweepLineEvent) (p : Nat) (i : Nat)
    (hp : p < heap.length) :
    (deref (setDeleteEventIndex heap p i) p).deleteEventIndex = i := by
  unfold setDeleteEventIndex
  rw [deref_eq, List.getElem?_set]
  simp [hp]

theorem deref_setDeleteEventIndex_ne (heap : List SweepLineEvent) (p q : Nat) (i : Nat)
    (hpq : p ≠ q) :
    deref (setDeleteEventIndex heap p i) q = deref heap q := by
  unfold setDeleteEventIndex
  rw [deref_eq _ q, deref_eq heap q, List.getElem?_set]
  simp [hpq]

theorem stampStep_none (events : List Nat) (heap : List SweepLineEvent) (i : Nat)
    (h : (deref heap (events.getD i 0)).insertEvent = none) :
    stampStep events heap i = heap := by
  unfold stampStep
  simp only [h]

theorem stampStep_some (events : List Nat) (heap : List SweepLineEvent) (i : Nat)
    (q : Nat) (h : (deref heap (events.getD i 0)).insertEvent = some q) :
    stampStep events heap i = setDeleteEventIndex heap q i := by
  unfold stampStep
  simp only [h]

theorem length_stampStep (events : List Nat) (heap : List SweepLineEvent) (i : Nat) :
    (stampStep events heap i).length = heap.length := by
  have := congrArg List.length (map_staticPart_stampStep events heap i)
  simpa using this

theorem insertEvent_static_congr {h1 h2 : List SweepLineEvent}
    (h : h1.map staticPart = h2.map staticPart) (p : Nat) :
    (deref h1 p).insertEvent = (deref h2 p).insertEvent :=
  (static_fields (deref_static_congr h p)).2.2.1

/-- The loop of `prepareEvents` records, on the insert event of every delete
event it has passed, the index of that delete event, provided no two events of
the list name the same insert event. -/
theorem stamp_invariant (events : List Nat) (heap : List SweepLineEvent)
    (huniq : ∀ (i j q : Nat), i < events.length → j < events.length →
      (deref heap (events.getD i 0)).insertEvent = some q →
      (deref heap (events.getD j 0)).insertEvent = some q → i = j)
    (m : Nat) (hm : m ≤ events.length) (i : Nat) (hi : i < m) (q : Nat)
    (hq : (deref heap (events.getD i 0)).insertEvent = some q) (hql : q < heap.length) :
    (deref ((List.range m).foldl (stampStep events) heap) q).deleteEventIndex = i := by
  induction m with
  | zero => omega
  | succ m ih =>
    rw [List.range_succ, List.foldl_append, List.foldl_cons, List.foldl_nil]
    have hst := map_staticPart_foldl_stampStep events (List.range m) heap
    have hins := insertEvent_static_congr hst (events.getD m 0)
    have hlen : ((List.range m).foldl (stampStep events) heap).length = heap.length := by
      have := congrArg List.length hst
      simpa using this
    cases hcase : (deref heap (events.getD m 0)).insertEvent with
    | none =>
      rw [stampStep_none _ _ _ (hins.trans hcase)]
      have hne : i ≠ m := by
        intro e
        rw [e, hcase] at hq
        cases hq
      exact ih (by omega) (by omega)
    | some q' =>
      rw [stampStep_some _ _ _ q' (hins.trans hcase)]
      by_cases e : i = m
      · subst e
        rw [hcase] at hq
        cases hq
        exact deref_setDeleteEventIndex_self _ _ _ (by rw [hlen]; exact hql)
      · have hqq : q' ≠ q := by
          intro e'
          subst e'
          exact e (huniq i m q' (by omega) (by omega) hq hcase)
        rw [deref_setDeleteEventIndex_ne _ _ _ _ hqq]
        exact ih (by omega) (by omega)


theorem WellFormed.events_length {segs : List (SweepLineSegment × Option Nat)}
    {st : SimpleSweepLineIntersector} (h : WellFormed segs st) :
    st.events.length = 2 * segs.length := by
  rw [h.2.2.length_eq, List.length_range]

theorem WellFormed.events_nodup {segs : List (SweepLineSegment × Option Nat)}
    {st : SimpleSweepLineIntersector} (h : WellFormed segs st) : st.events.Nodup :=
  h.2.2.nodup_iff.mpr (List.nodup_range _)

theorem WellFormed.mem_events {segs : List (SweepLineSegment × Option Nat)}
    {st : SimpleSweepLineIntersector} (h : WellFormed segs st) (p : Nat) :
    p ∈ st.events ↔ p < 2 * segs.length := by
  rw [h.2.2.mem_iff, List.mem_range]

theorem WellFormed.getD_lt {segs : List (SweepLineSegment × Option Nat)}
    {st : SimpleSweepLineIntersector} (h : WellFormed segs st) (i : Nat)
    (hi : i < 2 * segs.length) : st.events.getD i 0 < 2 * segs.length := by
  have hi' : i < st.events.length := by rw [h.events_length]; exact hi
  rw [List.getD_eq_getElem _ _ hi', ← h.mem_events]
  exact List.getElem_mem _

theorem WellFormed.pos_lt {segs : List (SweepLineSegment × Option Nat)}
    {st : SimpleSweepLineIntersector} (h : WellFormed segs st) (p : Nat)
    (hp : p < 2 * segs.length) : pos st p < 2 * segs.length := by
  rw [← h.events_length]
  exact List.indexOf_lt_length.mpr ((h.mem_events p).mpr hp)

theorem WellFormed.getD_pos {segs : List (SweepLineSegment × Option Nat)}
    {st : SimpleSweepLineIntersector} (h : WellFormed segs st) (p : Nat)
    (hp : p < 2 * segs.length) : st.events.getD (pos st p) 0 = p := by
  have hlt : pos st p < st.events.length := by rw [h.events_length]; exact h.pos_lt p hp
  rw [List.getD_eq_getElem _ _ hlt]
  exact List.getElem_indexOf hlt

theorem WellFormed.pos_getD {segs : List (SweepLineSegment × Option Nat)}
    {st : SimpleSweepLineIntersector} (h : WellFormed segs st) (i : Nat)
    (hi : i < 2 * segs.length) : pos st (st.events.getD i 0) = i := by
  have hi' : i < st.events.length := by rw [h.events_length]; exact hi
  rw [List.getD_eq_getElem _ _ hi']
  exact List.indexOf_getElem h.events_nodup i hi'

theorem WellFormed.pos_inj {segs : List (SweepLineSegment × Option Nat)}
    {st : SimpleSweepLineIntersector} (h : WellFormed segs st) (p q : Nat)
    (hp : p < 2 * segs.length) (hq : q < 2 * segs.length) (e : pos st p = pos st q) :
    p = q := by
  rw [← h.getD_pos p hp, ← h.getD_pos q hq, e]

theorem wellFormed_isInsert {segs : List (SweepLineSegment × Option Nat)}
    {st : SimpleSweepLineIntersector} (h : WellFormed segs st) (p : Nat)
    (hp : p < 2 * segs.length) :
    (deref st.evHeap p).isInsert = true ↔ p % 2 = 0 := by
  rcases Nat.even_or_odd' p with ⟨k, rfl | rfl⟩
  · have := wellFormed_insert h k (by omega)
    simp [SweepLineEvent.isInsert, this.2.2.1]
  · have := wellFormed_delete h k (by omega)
    simp [SweepLineEvent.isInsert, this.2.2.1]
    omega

theorem prepared_prepareEvents (sortFn : (Nat → Nat → Bool) → List Nat → List Nat)
    (hsort : StdSortSpec sortFn) (segs : List (SweepLineSegment × Option Nat))
    (st : SimpleSweepLineIntersector) (h : WellFormed segs st) :
    Prepared segs (prepareEvents sortFn st) := by
  have hwf := wellFormed_prepareEvents sortFn hsort segs st h
  refine ⟨hwf, prepareEvents_sorted sortFn hsort st, ?_⟩
  intro i k hi hk
  have hlen : (prepareEvents sortFn st).events.length = 2 * segs.length := hwf.events_length
  have hk2 : 2 * k + 1 < 2 * segs.length := by
    rw [← hk]; exact hwf.getD_lt i (by omega)
  have huniq : ∀ (i j q : Nat), i < (prepareEvents sortFn st).events.length →
      j < (prepareEvents sortFn st).events.length →
      (deref st.evHeap ((prepareEvents sortFn st).events.getD i 0)).insertEvent = some q →
      (deref st.evHeap ((prepareEvents sortFn st).events.getD j 0)).insertEvent = some q →
      i = j := by
    intro i j q hi hj h1 h2
    have key : ∀ p, p < 2 * segs.length → (deref st.evHeap p).insertEvent = some q →
        p = q + 1 := by
      intro p hp hq
      rcases Nat.even_or_odd' p with ⟨k, rfl | rfl⟩
      · have := wellFormed_insert h k (by omega)
        rw [this.2.2.1] at hq
        cases hq
      · have := wellFormed_delete h k (by omega)
        rw [this.2.2.1] at hq
        cases hq
        rfl
    have e1 := key _ (hwf.getD_lt i (by omega)) h1
    have e2 := key _ (hwf.getD_lt j (by omega)) h2
    have := hwf.pos_getD i (by omega)
    rw [e1, ← e2, hwf.pos_getD j (by omega)] at this
    exact this.symm
  have hd := wellFormed_delete h k (by omega)
  have := stamp_invariant (prepareEvents sortFn st).events st.evHeap huniq
    (prepareEvents sortFn st).events.length (le_refl _) i hi (2 * k)
    (by rw [hk]; exact hd.2.2.1) (by rw [h.heap_length]; omega)
  exact this


/-! ## The order of a prepared event list -/

theorem getMinX_le_getMaxX (ss : SweepLineSegment) : ss.getMinX ≤ ss.getMaxX :=
  le_trans (min_le_left _ _) (le_max_left _ _)

theorem eventType_insert {segs : List (SweepLineSegment × Option Nat)}
    {st : SimpleSweepLineIntersector} (h : WellFormed segs st) (k : Nat)
    (hk : k < segs.length) : (deref st.evHeap (2 * k)).eventType = 1 := by
  simp [SweepLineEvent.eventType, SweepLineEvent.isInsert, (wellFormed_insert h k hk).2.2.1]

theorem eventType_delete {segs : List (SweepLineSegment × Option Nat)}
    {st : SimpleSweepLineIntersector} (h : WellFormed segs st) (k : Nat)
    (hk : k < segs.length) : (deref st.evHeap (2 * k + 1)).eventType = 2 := by
  simp [SweepLineEvent.eventType, SweepLineEvent.isInsert, (wellFormed_delete h k hk).2.2.1]

theorem Prepared.sorted_pos {segs : List (SweepLineSegment × Option Nat)}
    {st : SimpleSweepLineIntersector} (h : Prepared segs st) (p q : Nat)
    (hp : p < 2 * segs.length) (hq : q < 2 * segs.length) (hpq : pos st p < pos st q) :
    SweepLineEventLessThen st.evHeap q p = false := by
  have hlen := h.1.events_length
  have h1 := h.1.pos_lt p hp
  have h2 := h.1.pos_lt q hq
  have := List.pairwise_iff_getElem.mp h.2.1 (pos st p) (pos st q) (by omega) (by omega) hpq
  have e1 := h.1.getD_pos p hp
  have e2 := h.1.getD_pos q hq
  rw [List.getD_eq_getElem _ _ (by omega)] at e1 e2
  rw [e1, e2] at this
  exact this

theorem Prepared.insert_before_delete {segs : List (SweepLineSegment × Option Nat)}
    {st : SimpleSweepLineIntersector} (h : Prepared segs st) (k : Nat)
    (hk : k < segs.length) : pos st (2 * k) < pos st (2 * k + 1) := by
  by_contra hcon
  have hne : pos st (2 * k) ≠ pos st (2 * k + 1) := by
    intro e
    have := h.1.pos_inj _ _ (by omega) (by omega) e
    omega
  have hs := h.sorted_pos (2 * k + 1) (2 * k) (by omega) (by omega) (by omega)
  rw [lessThen_false_iff, eventType_insert h.1 k hk, eventType_delete h.1 k hk,
    (wellFormed_insert h.1 k hk).2.1, (wellFormed_delete h.1 k hk).2.1] at hs
  have := getMinX_le_getMaxX (segAt segs k).1
  omega

theorem Prepared.insert_before_delete_iff {segs : List (SweepLineSegment × Option Nat)}
    {st : SimpleSweepLineIntersector} (h : Prepared segs st) (a b : Nat)
    (ha : a < segs.length) (hb : b < segs.length) :
    pos st (2 * b) < pos st (2 * a + 1) ↔
      (segAt segs b).1.getMinX ≤ (segAt segs a).1.getMaxX := by
  constructor
  · intro hlt
    have hs := h.sorted_pos (2 * b) (2 * a + 1) (by omega) (by omega) hlt
    rw [lessThen_false_iff, eventType_insert h.1 b hb, eventType_delete h.1 a ha,
      (wellFormed_insert h.1 b hb).2.1, (wellFormed_delete h.1 a ha).2.1] at hs
    omega
  · intro hle
    by_contra hcon
    have hne : pos st (2 * b) ≠ pos st (2 * a + 1) := by
      intro e
      have := h.1.pos_inj _ _ (by omega) (by omega) e
      omega
    have hs := h.sorted_pos (2 * a + 1) (2 * b) (by omega) (by omega) (by omega)
    rw [lessThen_false_iff, eventType_insert h.1 b hb, eventType_delete h.1 a ha,
      (wellFormed_insert h.1 b hb).2.1, (wellFormed_delete h.1 a ha).2.1] at hs
    omega

theorem Prepared.insert_order {segs : List (SweepLineSegment × Option Nat)}
    {st : SimpleSweepLineIntersector} (h : Prepared segs st) (a b : Nat)
    (ha : a < segs.length) (hb : b < segs.length) (hlt : pos st (2 * a) ≤ pos st (2 * b)) :
    (segAt segs a).1.getMinX ≤ (segAt segs b).1.getMinX := by
  rcases Nat.eq_or_lt_of_le hlt with e | hlt
  · have := h.1.pos_inj _ _ (by omega) (by omega) e
    have : a = b := by omega
    rw [this]
  · have hs := h.sorted_pos (2 * a) (2 * b) (by omega) (by omega) hlt
    rw [lessThen_false_iff, eventType_insert h.1 b hb, eventType_insert h.1 a ha,
      (wellFormed_insert h.1 b hb).2.1, (wellFormed_insert h.1 a ha).2.1] at hs
    omega

theorem Prepared.deleteEventIndex_eq {segs : List (SweepLineSegment × Option Nat)}
    {st : SimpleSweepLineIntersector} (h : Prepared segs st) (k : Nat)
    (hk : k < segs.length) :
    (deref st.evHeap (2 * k)).deleteEventIndex = pos st (2 * k + 1) := by
  have hlt := h.1.pos_lt (2 * k + 1) (by omega)
  exact h.2.2 (pos st (2 * k + 1)) k (by rw [h.1.events_length]; exact hlt)
    (h.1.getD_pos (2 * k + 1) (by omega))


/-! ## Which pairs the sweep tests -/

theorem mem_scanTests (st : SimpleSweepLineIntersector) (start end_ : Nat) (ev0 : Nat)
    (x : Nat × Nat) :
    x ∈ scanTests st start end_ ev0 ↔
      ∃ j, start ≤ j ∧ j < end_ ∧ testAt st.events st.evHeap ev0 j = some x := by
  unfold scanTests
  rw [List.mem_filterMap]
  constructor
  · rintro ⟨j, hj, hx⟩
    rw [List.mem_range'_1] at hj
    exact ⟨j, hj.1, by omega, hx⟩
  · rintro ⟨j, h1, h2, hx⟩
    exact ⟨j, by rw [List.mem_range'_1]; omega, hx⟩

theorem testAt_eq_some (events : List Nat) (heap : List SweepLineEvent) (ev0 : Nat)
    (j : Nat) (x : Nat × Nat) :
    testAt events heap ev0 j = some x ↔
      (deref heap (events.getD j 0)).isInsert = true ∧
      groupTest (deref heap ev0).edgeSet (deref heap (events.getD j 0)).edgeSet ∧
      x = ((deref heap ev0).obj, (deref heap (events.getD j 0)).obj) := by
  unfold testAt
  split_ifs with h
  · simp only [Option.some.injEq]
    constructor
    · intro e; exact ⟨h.1, h.2, e.symm⟩
    · intro e; exact e.2.2.symm
  · simp only [false_iff]
    intro e
    exact h ⟨e.1, e.2.1⟩

theorem mem_sweepTests_iff {segs : List (SweepLineSegment × Option Nat)}
    {st : SimpleSweepLineIntersector} (h : Prepared segs st) (a b : Nat) :
    (a, b) ∈ sweepTests st ↔
      a < segs.length ∧ b < segs.length ∧ pos st (2 * a) ≤ pos st (2 * b) ∧
      pos st (2 * b) < pos st (2 * a + 1) ∧
      groupTest (segAt segs a).2 (segAt segs b).2 := by
  have hlen := h.1.events_length
  unfold sweepTests
  rw [List.mem_flatMap]
  constructor
  · rintro ⟨i, hi, hx⟩
    rw [List.mem_range] at hi
    have hp := h.1.getD_lt i (by omega)
    split_ifs at hx with hins
    swap
    · simp at hx
    rw [wellFormed_isInsert h.1 _ hp] at hins
    obtain ⟨k, hk⟩ : ∃ k, st.events.getD i 0 = 2 * k := ⟨st.events.getD i 0 / 2, by omega⟩
    rw [hk] at hx hp
    have hkn : k < segs.length := by omega
    rw [h.deleteEventIndex_eq k hkn, mem_scanTests] at hx
    obtain ⟨j, hij, hjd, hx⟩ := hx
    rw [testAt_eq_some] at hx
    obtain ⟨hjins, hg, hab⟩ := hx
    have hdl := h.1.pos_lt (2 * k + 1) (by omega)
    have hq := h.1.getD_lt j (by omega)
    rw [wellFormed_isInsert h.1 _ hq] at hjins
    obtain ⟨m, hm⟩ : ∃ m, st.events.getD j 0 = 2 * m := ⟨st.events.getD j 0 / 2, by omega⟩
    rw [hm] at hg hab hq
    have hmn : m < segs.length := by omega
    rw [(wellFormed_insert h.1 k hkn).2.2.2, (wellFormed_insert h.1 m hmn).2.2.2] at hab
    rw [(wellFormed_insert h.1 k hkn).1, (wellFormed_insert h.1 m hmn).1] at hg
    simp only [Prod.mk.injEq] at hab
    obtain ⟨rfl, rfl⟩ := hab
    have e1 := h.1.pos_getD i (by omega)
    have e2 := h.1.pos_getD j (by omega)
    rw [hk] at e1
    rw [hm] at e2
    rw [e1, e2]
    exact ⟨hkn, hmn, hij, hjd, hg⟩
  · rintro ⟨ha, hb, hij, hjd, hg⟩
    have hi := h.1.pos_lt (2 * a) (by omega)
    have hj := h.1.pos_lt (2 * b) (by omega)
    refine ⟨pos st (2 * a), by rw [List.mem_range]; omega, ?_⟩
    have e1 := h.1.getD_pos (2 * a) (by omega)
    have e2 := h.1.getD_pos (2 * b) (by omega)
    rw [e1, if_pos ((wellFormed_isInsert h.1 _ (by omega)).mpr (by omega)),
      h.deleteEventIndex_eq a ha, mem_scanTests]
    refine ⟨pos st (2 * b), hij, hjd, ?_⟩
    rw [testAt_eq_some, e2]
    refine ⟨(wellFormed_isInsert h.1 _ (by omega)).mpr (by omega), ?_, ?_⟩
    · rw [(wellFormed_insert h.1 a ha).1, (wellFormed_insert h.1 b hb).1]
      exact hg
    · rw [(wellFormed_insert h.1 a ha).2.2.2, (wellFormed_insert h.1 b hb).2.2.2]


theorem groupTest_symm (g0 g1 : Option Nat) : groupTest g0 g1 ↔ groupTest g1 g0 := by
  unfold groupTest
  cases g0 <;> cases g1 <;> simp [eq_comm]

theorem groupTest_iff (g0 g1 : Option Nat) :
    groupTest g0 g1 ↔ ¬ (g0 ≠ none ∧ g0 = g1) := by
  unfold groupTest
  cases g0 <;> cases g1 <;> simp

theorem groupTest_self (g : Option Nat) : groupTest g g ↔ g = none := by
  unfold groupTest
  cases g <;> simp

theorem mem_sweepTests_lt {segs : List (SweepLineSegment × Option Nat)}
    {st : SimpleSweepLineIntersector} (h : Prepared segs st) (x : Nat × Nat)
    (hx : x ∈ sweepTests st) : x.1 < segs.length ∧ x.2 < segs.length := by
  obtain ⟨a, b⟩ := x
  have := (mem_sweepTests_iff h a b).mp hx
  exact ⟨this.1, this.2.1⟩

theorem sweepTests_antisymm {segs : List (SweepLineSegment × Option Nat)}
    {st : SimpleSweepLineIntersector} (h : Prepared segs st) (a b : Nat)
    (h1 : (a, b) ∈ sweepTests st) (h2 : (b, a) ∈ sweepTests st) : a = b := by
  rw [mem_sweepTests_iff h] at h1 h2
  have e : pos st (2 * a) = pos st (2 * b) := by omega
  have := h.1.pos_inj _ _ (by omega) (by omega) e
  omega

theorem mem_sweepTests_or_iff {segs : List (SweepLineSegment × Option Nat)}
    {st : SimpleSweepLineIntersector} (h : Prepared segs st) (a b : Nat) :
    ((a, b) ∈ sweepTests st ∨ (b, a) ∈ sweepTests st) ↔
      a < segs.length ∧ b < segs.length ∧ groupTest (segAt segs a).2 (segAt segs b).2 ∧
      xOverlap (segAt segs a).1 (segAt segs b).1 := by
  rw [mem_sweepTests_iff h, mem_sweepTests_iff h]
  constructor
  · rintro (⟨ha, hb, h1, h2, hg⟩ | ⟨hb, ha, h1, h2, hg⟩)
    · have o1 := h.insert_order a b ha hb h1
      have o2 := (h.insert_before_delete_iff a b ha hb).mp h2
      have := getMinX_le_getMaxX (segAt segs b).1
      exact ⟨ha, hb, hg, by omega, o2⟩
    · have o1 := h.insert_order b a hb ha h1
      have o2 := (h.insert_before_delete_iff b a hb ha).mp h2
      have := getMinX_le_getMaxX (segAt segs a).1
      exact ⟨ha, hb, (groupTest_symm _ _).mp hg, o2, by omega⟩
  · rintro ⟨ha, hb, hg, o1, o2⟩
    rcases Nat.le_total (pos st (2 * a)) (pos st (2 * b)) with hle | hle
    · exact Or.inl ⟨ha, hb, hle, (h.insert_before_delete_iff a b ha hb).mpr o2, hg⟩
    · exact Or.inr ⟨hb, ha, hle, (h.insert_before_delete_iff b a hb ha).mpr o1,
        (groupTest_symm _ _).mp hg⟩

theorem nodup_filterMap_of_injOn {α β : Type} (f : α → Option β) (l : List α)
    (hl : l.Nodup)
    (hinj : ∀ a ∈ l, ∀ a' ∈ l, ∀ b, f a = some b → f a' = some b → a = a') :
    (l.filterMap f).Nodup := by
  induction l with
  | nil => simp
  | cons a l ih =>
    rw [List.nodup_cons] at hl
    have ih' := ih hl.2 (fun x hx y hy b h1 h2 =>
      hinj x (List.mem_cons_of_mem _ hx) y (List.mem_cons_of_mem _ hy) b h1 h2)
    cases hfa : f a with
    | none => rw [List.filterMap_cons_none hfa]; exact ih'
    | some b =>
      rw [List.filterMap_cons_some hfa, List.nodup_cons]
      refine ⟨?_, ih'⟩
      intro hb
      rw [List.mem_filterMap] at hb
      obtain ⟨a', ha', hfa'⟩ := hb
      have := hinj a (List.mem_cons_self _ _) a' (List.mem_cons_of_mem _ ha') b hfa hfa'
      rw [this] at hl
      exact hl.1 ha'

theorem testAt_second {segs : List (SweepLineSegment × Option Nat)}
    {st : SimpleSweepLineIntersector} (h : WellFormed segs st) (ev0 j : Nat)
    (hj : j < 2 * segs.length) (x : Nat × Nat)
    (hx : testAt st.events st.evHeap ev0 j = some x) : st.events.getD j 0 = 2 * x.2 := by
  rw [testAt_eq_some] at hx
  obtain ⟨hins, _, rfl⟩ := hx
  have hq := h.getD_lt j hj
  rw [wellFormed_isInsert h _ hq] at hins
  obtain ⟨m, hm⟩ : ∃ m, st.events.getD j 0 = 2 * m := ⟨st.events.getD j 0 / 2, by omega⟩
  rw [hm] at hq ⊢
  rw [(wellFormed_insert h m (by omega)).2.2.2]

theorem nodup_scanTests {segs : List (SweepLineSegment × Option Nat)}
    {st : SimpleSweepLineIntersector} (h : WellFormed segs st) (start end_ ev0 : Nat)
    (hend : end_ ≤ 2 * segs.length) : (scanTests st start end_ ev0).Nodup := by
  unfold scanTests
  apply nodup_filterMap_of_injOn _ _ (List.nodup_range' _ _)
  intro j hj j' hj' x hx hx'
  rw [List.mem_range'_1] at hj hj'
  have e1 := testAt_second h ev0 j (by omega) x hx
  have e2 := testAt_second h ev0 j' (by omega) x hx'
  have p1 := h.pos_getD j (by omega)
  have p2 := h.pos_getD j' (by omega)
  rw [e1] at p1
  rw [e2, p1] at p2
  exact p2

theorem nodup_sweepTests {segs : List (SweepLineSegment × Option Nat)}
    {st : SimpleSweepLineIntersector} (h : Prepared segs st) : (sweepTests st).Nodup := by
  have hlen := h.1.events_length
  unfold sweepTests
  rw [List.nodup_flatMap]
  have hfirst : ∀ i, i < 2 * segs.length → ∀ x : Nat × Nat,
      x ∈ (if (deref st.evHeap (st.events.getD i 0)).isInsert = true then
        scanTests st i (deref st.evHeap (st.events.getD i 0)).deleteEventIndex
          (st.events.getD i 0) else []) → st.events.getD i 0 = 2 * x.1 := by
    intro i hi x hx
    have hp := h.1.getD_lt i hi
    split_ifs at hx with hins
    swap
    · simp at hx
    rw [wellFormed_isInsert h.1 _ hp] at hins
    obtain ⟨k, hk⟩ : ∃ k, st.events.getD i 0 = 2 * k := ⟨st.events.getD i 0 / 2, by omega⟩
    rw [mem_scanTests] at hx
    obtain ⟨j, _, _, hx⟩ := hx
    rw [testAt_eq_some] at hx
    have hkn : k < segs.length := by omega
    rw [hx.2.2, hk]
    simp only
    rw [(wellFormed_insert h.1 k hkn).2.2.2]
  constructor
  · intro i hi
    rw [List.mem_range] at hi
    have hp := h.1.getD_lt i (by omega)
    split_ifs with hins
    · rw [wellFormed_isInsert h.1 _ hp] at hins
      obtain ⟨k, hk⟩ : ∃ k, st.events.getD i 0 = 2 * k := ⟨st.events.getD i 0 / 2, by omega⟩
      rw [hk] at hp ⊢
      rw [h.deleteEventIndex_eq k (by omega)]
      exact nodup_scanTests h.1 _ _ _ (le_of_lt (h.1.pos_lt _ (by omega)))
    · exact List.nodup_nil
  · apply List.Nodup.pairwise_of_forall_ne (List.nodup_range _)
    intro i hi i' hi' hne
    rw [List.mem_range] at hi hi'
    simp only [Function.onFun]
    intro x hx hx'
    have e1 := hfirst i (by omega) x hx
    have e2 := hfirst i' (by omega) x hx'
    have p1 := h.1.pos_getD i (by omega)
    have p2 := h.1.pos_getD i' (by omega)
    rw [e1] at p1
    rw [e2, p1] at p2
    exact hne p2


theorem mem_map_unorderedPair {segs : List (SweepLineSegment × Option Nat)}
    {st : SimpleSweepLineIntersector} (h : Prepared segs st) (y : Nat × Nat) :
    y ∈ (sweepTests st).map unorderedPair ↔
      y.1 ≤ y.2 ∧ y.1 < segs.length ∧ y.2 < segs.length ∧
      groupTest (segAt segs y.1).2 (segAt segs y.2).2 ∧
      xOverlap (segAt segs y.1).1 (segAt segs y.2).1 := by
  obtain ⟨c, d⟩ := y
  rw [List.mem_map]
  constructor
  · rintro ⟨⟨a, b⟩, hx, e⟩
    unfold unorderedPair at e
    simp only at e
    split_ifs at e with hab
    · simp only [Prod.mk.injEq] at e
      obtain ⟨rfl, rfl⟩ := e
      exact ⟨hab, (mem_sweepTests_or_iff h a b).mp (Or.inl hx)⟩
    · simp only [Prod.mk.injEq] at e
      obtain ⟨rfl, rfl⟩ := e
      exact ⟨by simp only; omega, (mem_sweepTests_or_iff h b a).mp (Or.inr hx)⟩
  · rintro ⟨hcd, hrest⟩
    simp only at hcd hrest
    rcases (mem_sweepTests_or_iff h c d).mpr hrest with hx | hx
    · exact ⟨(c, d), hx, by simp [unorderedPair, hcd]⟩
    · refine ⟨(d, c), hx, ?_⟩
      unfold unorderedPair
      simp only
      split_ifs with hdc
      · have : c = d := by omega
        rw [this]
      · rfl

theorem nodup_map_unorderedPair {segs : List (SweepLineSegment × Option Nat)}
    {st : SimpleSweepLineIntersector} (h : Prepared segs st) :
    ((sweepTests st).map unorderedPair).Nodup := by
  apply List.Nodup.map_on _ (nodup_sweepTests h)
  rintro ⟨a, b⟩ hx ⟨c, d⟩ hy e
  unfold unorderedPair at e
  simp only at e
  split_ifs at e with h1 h2 h2
  · exact e
  · simp only [Prod.mk.injEq] at e
    obtain ⟨rfl, rfl⟩ := e
    have := sweepTests_antisymm h _ _ hx hy
    omega
  · simp only [Prod.mk.injEq] at e
    obtain ⟨rfl, rfl⟩ := e
    have := sweepTests_antisymm h _ _ hx hy
    omega
  · simp only [Prod.mk.injEq] at e
    obtain ⟨rfl, rfl⟩ := e
    rfl

/-- Two prepared event lists of the same segments lead to the same unordered
pairs of tested segments, each tested once. -/
theorem sweepTests_perm {segs : List (SweepLineSegment × Option Nat)}
    {st1 st2 : SimpleSweepLineIntersector} (h1 : Prepared segs st1) (h2 : Prepared segs st2) :
    ((sweepTests st1).map unorderedPair).Perm ((sweepTests st2).map unorderedPair) := by
  rw [List.perm_ext_iff_of_nodup (nodup_map_unorderedPair h1) (nodup_map_unorderedPair h2)]
  intro y
  rw [mem_map_unorderedPair h1, mem_map_unorderedPair h2]

theorem sweepTests_length_eq {segs : List (SweepLineSegment × Option Nat)}
    {st1 st2 : SimpleSweepLineIntersector} (h1 : Prepared segs st1) (h2 : Prepared segs st2) :
    (sweepTests st1).length = (sweepTests st2).length := by
  have := (sweepTests_perm h1 h2).length_eq
  simpa using this

theorem sweepTests_nOverlaps (st : SimpleSweepLineIntersector) (n : Int) :
    sweepTests { st with nOverlaps := n } = sweepTests st := rfl

theorem prepareEvents_nOverlaps (sortFn : (Nat → Nat → Bool) → List Nat → List Nat)
    (st : SimpleSweepLineIntersector) (n : Int) :
    prepareEvents sortFn { st with nOverlaps := n } =
      { prepareEvents sortFn st with nOverlaps := n } := rfl

theorem wellFormed_nOverlaps {segs : List (SweepLineSegment × Option Nat)}
    {st : SimpleSweepLineIntersector} (h : WellFormed segs st) (n : Int) :
    WellFormed segs { st with nOverlaps := n } := h

theorem prepared_nOverlaps {segs : List (SweepLineSegment × Option Nat)}
    {st : SimpleSweepLineIntersector} (h : Prepared segs st) (n : Int) :
    Prepared segs { st with nOverlaps := n } := h

/-- The state and the tests of one run of `computeIntersections(si)` on a
well-formed state. -/
theorem computeIntersections_prepared (sortFn : (Nat → Nat → Bool) → List Nat → List Nat)
    (hsort : StdSortSpec sortFn) {segs : List (SweepLineSegment × Option Nat)}
    {st : SimpleSweepLineIntersector} (h : WellFormed segs st) (si : SegmentIntersector) :
    Prepared segs (computeIntersections sortFn st si).1 ∧
    (computeIntersections sortFn st si).1.nOverlaps =
      wrapInt32 (sweepTests (computeIntersections sortFn st si).1).length ∧
    (computeIntersections sortFn st si).2 =
      si ++ sweepTests (computeIntersections sortFn st si).1 := by
  have e := computeIntersections_eq sortFn st si
  have hp := prepared_prepareEvents sortFn hsort segs _ (wellFormed_nOverlaps h 0)
  have e1 : (computeIntersections sortFn st si).1 =
      { prepareEvents sortFn { st with nOverlaps := 0 } with
        nOverlaps :=
          wrapInt32 (sweepTests (prepareEvents sortFn { st with nOverlaps := 0 })).length } :=
    congrArg Prod.fst e
  have e2 : (computeIntersections sortFn st si).2 =
      si ++ sweepTests (prepareEvents sortFn { st with nOverlaps := 0 }) :=
    congrArg Prod.snd e
  have e3 : sweepTests (computeIntersections sortFn st si).1 =
      sweepTests (prepareEvents sortFn { st with nOverlaps := 0 }) := by
    rw [e1]
    exact sweepTests_nOverlaps _ _
  refine ⟨?_, ?_, ?_⟩
  · rw [e1]
    exact prepared_nOverlaps hp _
  · rw [e3, e1]
  · rw [e3, e2]


/-! ## Segments of edge lists -/

theorem taggedSegments_append (a b : List (Edge × Option Nat)) :
    taggedSegments (a ++ b) = taggedSegments a ++ taggedSegments b := by
  simp [taggedSegments]

theorem taggedSegments_map_const (edges : List Edge) (g : Option Nat) :
    taggedSegments (edges.map (fun e => (e, g))) =
      (edgeSegments edges).map (fun s => (s, g)) := by
  induction edges with
  | nil => rfl
  | cons e l ih =>
    simp only [taggedSegments, edgeSegments, List.map_cons, List.flatMap_cons,
      List.map_append] at ih ⊢
    rw [ih]
    simp [segmentsOf]

theorem taggedSegments_map_own (edges : List Edge) :
    taggedSegments (edges.map (fun e => (e, some e.addr))) =
      (edgeSegments edges).map (fun s => (s, some s.edge.addr)) := by
  induction edges with
  | nil => rfl
  | cons e l ih =>
    simp only [taggedSegments, edgeSegments, List.map_cons, List.flatMap_cons,
      List.map_append] at ih ⊢
    rw [ih]
    simp [segmentsOf]

theorem segAt_eq_getElem (segs : List (SweepLineSegment × Option Nat)) (k : Nat)
    (hk : k < segs.length) : segAt segs k = segs[k] := by
  unfold segAt
  exact List.getD_eq_getElem _ _ hk

theorem segAt_mem (segs : List (SweepLineSegment × Option Nat)) (k : Nat)
    (hk : k < segs.length) : segAt segs k ∈ segs := by
  rw [segAt_eq_getElem segs k hk]
  exact List.getElem_mem _

theorem segAt_append_lt (A B : List (SweepLineSegment × Option Nat)) (k : Nat)
    (hk : k < A.length) : segAt (A ++ B) k = segAt A k := by
  unfold segAt
  rw [List.getD_eq_getElem?_getD, List.getD_eq_getElem?_getD, List.getElem?_append_left hk]

theorem segAt_append_ge (A B : List (SweepLineSegment × Option Nat)) (k : Nat)
    (hk : A.length ≤ k) : segAt (A ++ B) k = segAt B (k - A.length) := by
  unfold segAt
  rw [List.getD_eq_getElem?_getD, List.getD_eq_getElem?_getD, List.getElem?_append_right hk]

theorem segAt_map (S : List SweepLineSegment) (f : SweepLineSegment → Option Nat) (k : Nat)
    (hk : k < S.length) :
    (segAt (S.map (fun s => (s, f s))) k).1 ∈ S ∧
    (segAt (S.map (fun s => (s, f s))) k).2 = f (segAt (S.map (fun s => (s, f s))) k).1 := by
  have hm := segAt_mem (S.map (fun s => (s, f s))) k (by simpa using hk)
  rw [List.mem_map] at hm
  obtain ⟨s, hs, e⟩ := hm
  rw [← e]
  exact ⟨hs, rfl⟩

theorem segDeref_map_fst (segs : List (SweepLineSegment × Option Nat)) (k : Nat) :
    segDeref (segs.map Prod.fst) k = (segAt segs k).1 := by
  unfold segDeref segAt
  rw [List.getD_eq_getElem?_getD, List.getD_eq_getElem?_getD, List.getElem?_map]
  cases segs[k]? <;> rfl


/-! ## Completeness of the sweep -/

/-- C1. Completeness of the sweep: on an intersector to which any sequence of
edges has been added, two segments `s` and `t` (distinct or not) whose closed
x-intervals overlap and whose group tags are not both non-null and equal are
handed to the segment-pair test, as `(s, t)` or as `(t, s)`, by one run of
`computeIntersections(si)`. -/
theorem sweep_complete (sortFn : (Nat → Nat → Bool) → List Nat → List Nat)
    (hsort : StdSortSpec sortFn) (adds : List (Edge × Option Nat)) (s t : Nat)
    (hs : s < (taggedSegments adds).length) (ht : t < (taggedSegments adds).length)
    (hx : xOverlap (segAt (taggedSegments adds) s).1 (segAt (taggedSegments adds) t).1)
    (hg : ¬ ((segAt (taggedSegments adds) s).2 ≠ none ∧
      (segAt (taggedSegments adds) t).2 ≠ none ∧
      (segAt (taggedSegments adds) s).2 = (segAt (taggedSegments adds) t).2)) :
    (s, t) ∈ (computeIntersections sortFn
        (addAll SimpleSweepLineIntersector.init adds) []).2 ∨
    (t, s) ∈ (computeIntersections sortFn
        (addAll SimpleSweepLineIntersector.init adds) []).2 := by
  obtain ⟨hp, _, hcalls⟩ :=
    computeIntersections_prepared sortFn hsort (wellFormed_built adds) []
  rw [hcalls, List.nil_append]
  apply (mem_sweepTests_or_iff hp s t).mpr
  refine ⟨hs, ht, ?_, hx⟩
  rw [groupTest_iff]
  intro hc
  exact hg ⟨hc.1, hc.2 ▸ hc.1, hc.2⟩

theorem sweep_complete_witness :
    StdSortSpec insertionSort ∧
    xOverlap (segAt (taggedSegments [(edgeA, none), (edgeB, none)]) 0).1
      (segAt (taggedSegments [(edgeA, none), (edgeB, none)]) 1).1 ∧
    ((0, 1) ∈ (computeIntersections insertionSort
        (addAll SimpleSweepLineIntersector.init [(edgeA, none), (edgeB, none)]) []).2 ∨
     (1, 0) ∈ (computeIntersections insertionSort
        (addAll SimpleSweepLineIntersector.init [(edgeA, none), (edgeB, none)]) []).2) :=
  ⟨insertionSort_spec, by decide,
    sweep_complete insertionSort insertionSort_spec [(edgeA, none), (edgeB, none)] 0 1
      (by decide) (by decide) (by decide) (by decide)⟩


/-! ## The two-list and the single-list entry points -/

theorem cross_wellFormed (edges0 edges1 : EdgeList) :
    WellFormed
      ((edgeSegments edges0.edges).map (fun s => (s, some edges0.addr)) ++
        (edgeSegments edges1.edges).map (fun s => (s, some edges1.addr)))
      (addEdges (addEdges SimpleSweepLineIntersector.init edges0.edges (some edges0.addr))
        edges1.edges (some edges1.addr)) := by
  rw [addEdges_eq_addAll, addEdges_eq_addAll, ← addAll_append,
    ← taggedSegments_map_const, ← taggedSegments_map_const, ← taggedSegments_append]
  exact wellFormed_built _

theorem cross_tag_left (S0 S1 : List SweepLineSegment) (g0 g1 : Option Nat) (k : Nat)
    (hk : k < S0.length) :
    (segAt (S0.map (fun s => (s, g0)) ++ S1.map (fun s => (s, g1))) k).1 ∈ S0 ∧
    (segAt (S0.map (fun s => (s, g0)) ++ S1.map (fun s => (s, g1))) k).2 = g0 := by
  rw [segAt_append_lt _ _ k (by simpa using hk)]
  exact segAt_map S0 (fun _ => g0) k hk

theorem cross_tag_right (S0 S1 : List SweepLineSegment) (g0 g1 : Option Nat) (k : Nat)
    (hk0 : S0.length ≤ k) (hk : k < S0.length + S1.length) :
    (segAt (S0.map (fun s => (s, g0)) ++ S1.map (fun s => (s, g1))) k).1 ∈ S1 ∧
    (segAt (S0.map (fun s => (s, g0)) ++ S1.map (fun s => (s, g1))) k).2 = g1 := by
  rw [segAt_append_ge _ _ k (by simpa using hk0)]
  have := segAt_map S1 (fun _ => g1) (k - S0.length) (by omega)
  simpa using this

theorem cross_sides (sortFn : (Nat → Nat → Bool) → List Nat → List Nat)
    (hsort : StdSortSpec sortFn) (edges0 edges1 : EdgeList) :
    (computeIntersectionsCross sortFn SimpleSweepLineIntersector.init edges0 edges1 []).1.segHeap
      = edgeSegments edges0.edges ++ edgeSegments edges1.edges ∧
    ∀ x ∈ (computeIntersectionsCross sortFn SimpleSweepLineIntersector.init
        edges0 edges1 []).2,
      (x.1 < (edgeSegments edges0.edges).length ∧
        (edgeSegments edges0.edges).length ≤ x.2 ∧
        x.2 < (edgeSegments edges0.edges).length + (edgeSegments edges1.edges).length) ∨
      (x.2 < (edgeSegments edges0.edges).length ∧
        (edgeSegments edges0.edges).length ≤ x.1 ∧
        x.1 < (edgeSegments edges0.edges).length + (edgeSegments edges1.edges).length) := by
  unfold computeIntersectionsCross
  obtain ⟨hp, _, hcalls⟩ :=
    computeIntersections_prepared sortFn hsort (cross_wellFormed edges0 edges1) []
  constructor
  · rw [hp.1.1]
    simp [Function.comp_def]
  · rw [hcalls, List.nil_append]
    rintro ⟨a, b⟩ hx
    have hm := (mem_sweepTests_or_iff hp a b).mp (Or.inl hx)
    obtain ⟨ha, hb, hg, _⟩ := hm
    simp only [List.length_append, List.length_map] at ha hb
    rw [groupTest_iff] at hg
    simp only
    by_cases ha0 : a < (edgeSegments edges0.edges).length
    · by_cases hb0 : b < (edgeSegments edges0.edges).length
      · exfalso
        apply hg
        rw [(cross_tag_left _ _ _ _ a ha0).2, (cross_tag_left _ _ _ _ b hb0).2]
        simp
      · exact Or.inl ⟨ha0, by omega, hb⟩
    · by_cases hb0 : b < (edgeSegments edges0.edges).length
      · exact Or.inr ⟨hb0, by omega, ha⟩
      · exfalso
        apply hg
        rw [(cross_tag_right _ _ _ _ a (by omega) ha).2,
          (cross_tag_right _ _ _ _ b (by omega) hb).2]
        simp

/-- The tags of the two-list entry point: every event of a segment created
from `edges0` carries the address of `edges0`, every event of a segment created
from `edges1` the address of `edges1`, and every segment has its insert event
in the event list. -/
theorem cross_tags (sortFn : (Nat → Nat → Bool) → List Nat → List Nat)
    (hsort : StdSortSpec sortFn) (edges0 edges1 : EdgeList) :
    (∀ p ∈ (computeIntersectionsCross sortFn SimpleSweepLineIntersector.init
        edges0 edges1 []).1.events,
      (deref (computeIntersectionsCross sortFn SimpleSweepLineIntersector.init
          edges0 edges1 []).1.evHeap p).obj <
        (edgeSegments edges0.edges).length + (edgeSegments edges1.edges).length ∧
      (deref (computeIntersectionsCross sortFn SimpleSweepLineIntersector.init
          edges0 edges1 []).1.evHeap p).edgeSet =
        if (deref (computeIntersectionsCross sortFn SimpleSweepLineIntersector.init
            edges0 edges1 []).1.evHeap p).obj < (edgeSegments edges0.edges).length
        then some edges0.addr else some edges1.addr) ∧
    (∀ k : Nat, k < (edgeSegments edges0.edges).length + (edgeSegments edges1.edges).length →
      ∃ p ∈ (computeIntersectionsCross sortFn SimpleSweepLineIntersector.init
          edges0 edges1 []).1.events,
        (deref (computeIntersectionsCross sortFn SimpleSweepLineIntersector.init
          edges0 edges1 []).1.evHeap p).isInsert = true ∧
        (deref (computeIntersectionsCross sortFn SimpleSweepLineIntersector.init
          edges0 edges1 []).1.evHeap p).obj = k) := by
  unfold computeIntersectionsCross
  obtain ⟨hp, _, _⟩ :=
    computeIntersections_prepared sortFn hsort (cross_wellFormed edges0 edges1) []
  have hlen : ((edgeSegments edges0.edges).map (fun s => (s, some edges0.addr)) ++
      (edgeSegments edges1.edges).map (fun s => (s, some edges1.addr))).length =
      (edgeSegments edges0.edges).length + (edgeSegments edges1.edges).length := by
    simp
  have htag : ∀ k : Nat,
      k < (edgeSegments edges0.edges).length + (edgeSegments edges1.edges).length →
      (segAt ((edgeSegments edges0.edges).map (fun s => (s, some edges0.addr)) ++
        (edgeSegments edges1.edges).map (fun s => (s, some edges1.addr))) k).2 =
      if k < (edgeSegments edges0.edges).length then some edges0.addr
      else some edges1.addr := by
    intro k hk
    by_cases h0 : k < (edgeSegments edges0.edges).length
    · rw [if_pos h0]
      exact (cross_tag_left _ _ _ _ k h0).2
    · rw [if_neg h0]
      exact (cross_tag_right _ _ _ _ k (by omega) hk).2
  constructor
  · intro p hmem
    have hlt := (hp.1.mem_events p).mp hmem
    rw [hlen] at hlt
    rcases Nat.even_or_odd' p with ⟨k, rfl | rfl⟩
    · obtain ⟨h1, _, _, h4⟩ := wellFormed_insert hp.1 k (by rw [hlen]; omega)
      rw [h1, h4]
      exact ⟨by omega, htag k (by omega)⟩
    · obtain ⟨h1, _, _, h4⟩ := wellFormed_delete hp.1 k (by rw [hlen]; omega)
      rw [h1, h4]
      exact ⟨by omega, htag k (by omega)⟩
  · intro k hk
    obtain ⟨_, _, h3, h4⟩ := wellFormed_insert hp.1 k (by rw [hlen]; omega)
    refine ⟨2 * k, (hp.1.mem_events _).mpr (by rw [hlen]; omega), ?_, h4⟩
    simp [SweepLineEvent.isInsert, h3]

/-- With two different list addresses the two-list entry point tests every
segment of `edges0` with every segment of `edges1` that overlaps it in x. -/
theorem cross_complete (sortFn : (Nat → Nat → Bool) → List Nat → List Nat)
    (hsort : StdSortSpec sortFn) (edges0 edges1 : EdgeList)
    (hne : edges0.addr ≠ edges1.addr) (s t : Nat)
    (hs : s < (edgeSegments edges0.edges).length)
    (ht0 : (edgeSegments edges0.edges).length ≤ t)
    (ht : t < (edgeSegments edges0.edges).length + (edgeSegments edges1.edges).length)
    (hx : xOverlap
      (segDeref (computeIntersectionsCross sortFn SimpleSweepLineIntersector.init
        edges0 edges1 []).1.segHeap s)
      (segDeref (computeIntersectionsCross sortFn SimpleSweepLineIntersector.init
        edges0 edges1 []).1.segHeap t)) :
    (s, t) ∈ (computeIntersectionsCross sortFn SimpleSweepLineIntersector.init
        edges0 edges1 []).2 ∨
    (t, s) ∈ (computeIntersectionsCross sortFn SimpleSweepLineIntersector.init
        edges0 edges1 []).2 := by
  unfold computeIntersectionsCross at hx ⊢
  obtain ⟨hp, _, hcalls⟩ :=
    computeIntersections_prepared sortFn hsort (cross_wellFormed edges0 edges1) []
  rw [hcalls, List.nil_append]
  rw [hp.1.1, segDeref_map_fst, segDeref_map_fst] at hx
  rw [mem_sweepTests_or_iff hp]
  refine ⟨by simp; omega, by simp; omega, ?_, hx⟩
  rw [groupTest_iff, (cross_tag_left _ _ _ _ s hs).2, (cross_tag_right _ _ _ _ t ht0 ht).2]
  simp [hne]

/-- C8. Two-list mode: `computeIntersections(edges0, edges1, si)` on a fresh
intersector tags every segment with its own list: the segment store holds the
segments of `edges0` followed by those of `edges1`, every event in the event
list carries the address of `edges0` as its `edgeSet` when its segment was
created from `edges0` (a pointer below the number of segments of `edges0`) and
the address of `edges1` otherwise, and every segment has its insert event in
the list.  Every pair handed to the segment-pair test has one segment from
`edges0` and one from `edges1`: no pair of segments of the same list, and no
segment with itself, is tested.  When the two lists are distinct, every segment
of `edges0` is tested with every segment of `edges1` whose x-interval overlaps
its own. -/
theorem cross_mode_pairs (sortFn : (Nat → Nat → Bool) → List Nat → List Nat)
    (hsort : StdSortSpec sortFn) (edges0 edges1 : EdgeList) :
    ((computeIntersectionsCross sortFn SimpleSweepLineIntersector.init
        edges0 edges1 []).1.segHeap
      = edgeSegments edges0.edges ++ edgeSegments edges1.edges) ∧
    (∀ p ∈ (computeIntersectionsCross sortFn SimpleSweepLineIntersector.init
        edges0 edges1 []).1.events,
      (deref (computeIntersectionsCross sortFn SimpleSweepLineIntersector.init
          edges0 edges1 []).1.evHeap p).obj <
        (edgeSegments edges0.edges).length + (edgeSegments edges1.edges).length ∧
      (deref (computeIntersectionsCross sortFn SimpleSweepLineIntersector.init
          edges0 edges1 []).1.evHeap p).edgeSet =
        if (deref (computeIntersectionsCross sortFn SimpleSweepLineIntersector.init
            edges0 edges1 []).1.evHeap p).obj < (edgeSegments edges0.edges).length
        then some edges0.addr else some edges1.addr) ∧
    (∀ k : Nat, k < (edgeSegments edges0.edges).length + (edgeSegments edges1.edges).length →
      ∃ p ∈ (computeIntersectionsCross sortFn SimpleSweepLineIntersector.init
          edges0 edges1 []).1.events,
        (deref (computeIntersectionsCross sortFn SimpleSweepLineIntersector.init
          edges0 edges1 []).1.evHeap p).isInsert = true ∧
        (deref (computeIntersectionsCross sortFn SimpleSweepLineIntersector.init
          edges0 edges1 []).1.evHeap p).obj = k) ∧
    (∀ x ∈ (computeIntersectionsCross sortFn SimpleSweepLineIntersector.init
        edges0 edges1 []).2,
      x.1 ≠ x.2 ∧
      ((x.1 < (edgeSegments edges0.edges).length ∧
          (edgeSegments edges0.edges).length ≤ x.2 ∧
          x.2 < (edgeSegments edges0.edges).length + (edgeSegments edges1.edges).length) ∨
        (x.2 < (edgeSegments edges0.edges).length ∧
          (edgeSegments edges0.edges).length ≤ x.1 ∧
          x.1 < (edgeSegments edges0.edges).length + (edgeSegments edges1.edges).length))) ∧
    (edges0.addr ≠ edges1.addr →
      ∀ s t : Nat, s < (edgeSegments edges0.edges).length →
        (edgeSegments edges0.edges).length ≤ t →
        t < (edgeSegments edges0.edges).length + (edgeSegments edges1.edges).length →
        xOverlap
          (segDeref (computeIntersectionsCross sortFn SimpleSweepLineIntersector.init
            edges0 edges1 []).1.segHeap s)
          (segDeref (computeIntersectionsCross sortFn SimpleSweepLineIntersector.init
            edges0 edges1 []).1.segHeap t) →
        (s, t) ∈ (computeIntersectionsCross sortFn SimpleSweepLineIntersector.init
            edges0 edges1 []).2 ∨
        (t, s) ∈ (computeIntersectionsCross sortFn SimpleSweepLineIntersector.init
            edges0 edges1 []).2) := by
  refine ⟨(cross_sides sortFn hsort edges0 edges1).1,
    (cross_tags sortFn hsort edges0 edges1).1,
    (cross_tags sortFn hsort edges0 edges1).2, ?_, ?_⟩
  · intro x hx
    have h := (cross_sides sortFn hsort edges0 edges1).2 x hx
    refine ⟨?_, h⟩
    rcases h with ⟨h1, h2, _⟩ | ⟨h1, h2, _⟩ <;> omega
  · intro hne s t hs ht0 ht hxo
    exact cross_complete sortFn hsort edges0 edges1 hne s t hs ht0 ht hxo

theorem cross_mode_pairs_witness :
    StdSortSpec insertionSort ∧
    (((computeIntersectionsCross insertionSort SimpleSweepLineIntersector.init
        ⟨10, [edgeA]⟩ ⟨20, [edgeB, edgeC]⟩ []).1.segHeap
      = edgeSegments [edgeA] ++ edgeSegments [edgeB, edgeC]) ∧
    (∀ p ∈ (computeIntersectionsCross insertionSort SimpleSweepLineIntersector.init
        ⟨10, [edgeA]⟩ ⟨20, [edgeB, edgeC]⟩ []).1.events,
      (deref (computeIntersectionsCross insertionSort SimpleSweepLineIntersector.init
          ⟨10, [edgeA]⟩ ⟨20, [edgeB, edgeC]⟩ []).1.evHeap p).obj <
        (edgeSegments [edgeA]).length + (edgeSegments [edgeB, edgeC]).length ∧
      (deref (computeIntersectionsCross insertionSort SimpleSweepLineIntersector.init
          ⟨10, [edgeA]⟩ ⟨20, [edgeB, edgeC]⟩ []).1.evHeap p).edgeSet =
        if (deref (computeIntersectionsCross insertionSort SimpleSweepLineIntersector.init
            ⟨10, [edgeA]⟩ ⟨20, [edgeB, edgeC]⟩ []).1.evHeap p).obj <
            (edgeSegments [edgeA]).length
        then some 10 else some 20) ∧
    (∀ k : Nat, k < (edgeSegments [edgeA]).length + (edgeSegments [edgeB, edgeC]).length →
      ∃ p ∈ (computeIntersectionsCross insertionSort SimpleSweepLineIntersector.init
          ⟨10, [edgeA]⟩ ⟨20, [edgeB, edgeC]⟩ []).1.events,
        (deref (computeIntersectionsCross insertionSort SimpleSweepLineIntersector.init
          ⟨10, [edgeA]⟩ ⟨20, [edgeB, edgeC]⟩ []).1.evHeap p).isInsert = true ∧
        (deref (computeIntersectionsCross insertionSort SimpleSweepLineIntersector.init
          ⟨10, [edgeA]⟩ ⟨20, [edgeB, edgeC]⟩ []).1.evHeap p).obj = k) ∧
    (∀ x ∈ (computeIntersectionsCross insertionSort SimpleSweepLineIntersector.init
        ⟨10, [edgeA]⟩ ⟨20, [edgeB, edgeC]⟩ []).2,
      x.1 ≠ x.2 ∧
      ((x.1 < (edgeSegments [edgeA]).length ∧
          (edgeSegments [edgeA]).length ≤ x.2 ∧
          x.2 < (edgeSegments [edgeA]).length + (edgeSegments [edgeB, edgeC]).length) ∨
        (x.2 < (edgeSegments [edgeA]).length ∧
          (edgeSegments [edgeA]).length ≤ x.1 ∧
          x.1 < (edgeSegments [edgeA]).length + (edgeSegments [edgeB, edgeC]).length))) ∧
    ((10 : Nat) ≠ 20 →
      ∀ s t : Nat, s < (edgeSegments [edgeA]).length →
        (edgeSegments [edgeA]).length ≤ t →
        t < (edgeSegments [edgeA]).length + (edgeSegments [edgeB, edgeC]).length →
        xOverlap
          (segDeref (computeIntersectionsCross insertionSort SimpleSweepLineIntersector.init
            ⟨10, [edgeA]⟩ ⟨20, [edgeB, edgeC]⟩ []).1.segHeap s)
          (segDeref (computeIntersectionsCross insertionSort SimpleSweepLineIntersector.init
            ⟨10, [edgeA]⟩ ⟨20, [edgeB, edgeC]⟩ []).1.segHeap t) →
        (s, t) ∈ (computeIntersectionsCross insertionSort SimpleSweepLineIntersector.init
            ⟨10, [edgeA]⟩ ⟨20, [edgeB, edgeC]⟩ []).2 ∨
        (t, s) ∈ (computeIntersectionsCross insertionSort SimpleSweepLineIntersector.init
            ⟨10, [edgeA]⟩ ⟨20, [edgeB, edgeC]⟩ []).2)) ∧
    ((10 : Nat) ≠ 20 ∧
      ((0, 1) ∈ (computeIntersectionsCross insertionSort SimpleSweepLineIntersector.init
          ⟨10, [edgeA]⟩ ⟨20, [edgeB, edgeC]⟩ []).2 ∨
        (1, 0) ∈ (computeIntersectionsCross insertionSort SimpleSweepLineIntersector.init
          ⟨10, [edgeA]⟩ ⟨20, [edgeB, edgeC]⟩ []).2)) :=
  ⟨insertionSort_spec,
    cross_mode_pairs insertionSort insertionSort_spec ⟨10, [edgeA]⟩ ⟨20, [edgeB, edgeC]⟩,
    by decide,
    (cross_mode_pairs insertionSort insertionSort_spec ⟨10, [edgeA]⟩
      ⟨20, [edgeB, edgeC]⟩).2.2.2.2 (by decide) 0 1 (by decide) (by decide) (by decide)
      (by decide)⟩

/-- C2. Cross-noding of sets that are disjoint in x: when every segment of one
of the two edge lists lies strictly to the left of every segment of the other,
`computeIntersections(edges0, edges1, si)` on a fresh intersector hands no pair
to the segment-pair test and ends with `nOverlaps = 0`, whatever the number of
segments. -/
theorem cross_disjoint_no_tests (sortFn : (Nat → Nat → Bool) → List Nat → List Nat)
    (hsort : StdSortSpec sortFn) (edges0 edges1 : EdgeList)
    (hsep : (∀ s ∈ edgeSegments edges0.edges, ∀ t ∈ edgeSegments edges1.edges,
        s.getMaxX < t.getMinX) ∨
      (∀ s ∈ edgeSegments edges0.edges, ∀ t ∈ edgeSegments edges1.edges,
        t.getMaxX < s.getMinX)) :
    (computeIntersectionsCross sortFn SimpleSweepLineIntersector.init edges0 edges1 []).2 = [] ∧
    (computeIntersectionsCross sortFn SimpleSweepLineIntersector.init
      edges0 edges1 []).1.nOverlaps = 0 := by
  have hpairs := (cross_sides sortFn hsort edges0 edges1).2
  unfold computeIntersectionsCross at hpairs ⊢
  obtain ⟨hp, hn, hcalls⟩ :=
    computeIntersections_prepared sortFn hsort (cross_wellFormed edges0 edges1) []
  have hnil : sweepTests (computeIntersections sortFn
      (addEdges (addEdges SimpleSweepLineIntersector.init edges0.edges (some edges0.addr))
        edges1.edges (some edges1.addr)) []).1 = [] := by
    rw [List.eq_nil_iff_forall_not_mem]
    rintro ⟨a, b⟩ hx
    have hside := hpairs (a, b) (by rw [hcalls, List.nil_append]; exact hx)
    obtain ⟨_, _, _, ho1, ho2⟩ := (mem_sweepTests_or_iff hp a b).mp (Or.inl hx)
    simp only at hside
    rcases hside with ⟨h1, h2, h3⟩ | ⟨h1, h2, h3⟩
    · have ma := (cross_tag_left (edgeSegments edges0.edges) (edgeSegments edges1.edges)
        (some edges0.addr) (some edges1.addr) a h1).1
      have mb := (cross_tag_right (edgeSegments edges0.edges) (edgeSegments edges1.edges)
        (some edges0.addr) (some edges1.addr) b h2 h3).1
      rcases hsep with hsep | hsep
      · have := hsep _ ma _ mb
        omega
      · have := hsep _ ma _ mb
        omega
    · have mb := (cross_tag_left (edgeSegments edges0.edges) (edgeSegments edges1.edges)
        (some edges0.addr) (some edges1.addr) b h1).1
      have ma := (cross_tag_right (edgeSegments edges0.edges) (edgeSegments edges1.edges)
        (some edges0.addr) (some edges1.addr) a h2 h3).1
      rcases hsep with hsep | hsep
      · have := hsep _ mb _ ma
        omega
      · have := hsep _ mb _ ma
        omega
  rw [hcalls, hn, hnil]
  exact ⟨rfl, rfl⟩

theorem cross_disjoint_no_tests_witness :
    StdSortSpec insertionSort ∧
    (∀ s ∈ edgeSegments [edgeA, edgeB], ∀ t ∈ edgeSegments [edgeC], s.getMaxX < t.getMinX) ∧
    (computeIntersectionsCross insertionSort SimpleSweepLineIntersector.init
      ⟨10, [edgeA, edgeB]⟩ ⟨20, [edgeC]⟩ []).2 = [] ∧
    (computeIntersectionsCross insertionSort SimpleSweepLineIntersector.init
      ⟨10, [edgeA, edgeB]⟩ ⟨20, [edgeC]⟩ []).1.nOverlaps = 0 :=
  ⟨insertionSort_spec, by decide,
    cross_disjoint_no_tests insertionSort insertionSort_spec
      ⟨10, [edgeA, edgeB]⟩ ⟨20, [edgeC]⟩ (Or.inl (by decide))⟩


theorem own_wellFormed (edges : List Edge) :
    WellFormed ((edgeSegments edges).map (fun s => (s, some s.edge.addr)))
      (addEdgesOwnGroup SimpleSweepLineIntersector.init edges) := by
  rw [addEdgesOwnGroup_eq_addAll, ← taggedSegments_map_own]
  exact wellFormed_built _

/-- C9. Single-list mode with `testAllSegments = false`: on a fresh intersector
`computeIntersections(edges, si, false)` never hands two segments of the same
`Edge` (nor a segment with itself) to the segment-pair test, and the group rule
removes no pair of segments of two different edges: two such segments whose
x-intervals overlap are tested, in one order or the other. -/
theorem own_group_pairs (sortFn : (Nat → Nat → Bool) → List Nat → List Nat)
    (hsort : StdSortSpec sortFn) (edges : EdgeList) :
    (computeIntersectionsSelf sortFn SimpleSweepLineIntersector.init edges [] false).1.segHeap
      = edgeSegments edges.edges ∧
    (∀ x ∈ (computeIntersectionsSelf sortFn SimpleSweepLineIntersector.init edges [] false).2,
      (segDeref (edgeSegments edges.edges) x.1).edge.addr ≠
        (segDeref (edgeSegments edges.edges) x.2).edge.addr) ∧
    (∀ s t, s < (edgeSegments edges.edges).length → t < (edgeSegments edges.edges).length →
      (segDeref (edgeSegments edges.edges) s).edge.addr ≠
        (segDeref (edgeSegments edges.edges) t).edge.addr →
      xOverlap (segDeref (edgeSegments edges.edges) s) (segDeref (edgeSegments edges.edges) t) →
      (s, t) ∈ (computeIntersectionsSelf sortFn SimpleSweepLineIntersector.init
          edges [] false).2 ∨
      (t, s) ∈ (computeIntersectionsSelf sortFn SimpleSweepLineIntersector.init
          edges [] false).2) := by
  unfold computeIntersectionsSelf
  simp only [Bool.false_eq_true, if_false]
  obtain ⟨hp, _, hcalls⟩ :=
    computeIntersections_prepared sortFn hsort (own_wellFormed edges.edges) []
  have hseg : ∀ k, segDeref (edgeSegments edges.edges) k =
      (segAt ((edgeSegments edges.edges).map (fun s => (s, some s.edge.addr))) k).1 := by
    intro k
    rw [← segDeref_map_fst]
    simp [Function.comp_def]
  have htag : ∀ k, k < (edgeSegments edges.edges).length →
      (segAt ((edgeSegments edges.edges).map (fun s => (s, some s.edge.addr))) k).2 =
        some (segDeref (edgeSegments edges.edges) k).edge.addr := by
    intro k hk
    rw [hseg]
    exact (segAt_map (edgeSegments edges.edges) (fun s => some s.edge.addr) k hk).2
  refine ⟨?_, ?_, ?_⟩
  · rw [hp.1.1]
    simp [Function.comp_def]
  · rw [hcalls, List.nil_append]
    rintro ⟨a, b⟩ hx
    obtain ⟨ha, hb, hg, _⟩ := (mem_sweepTests_or_iff hp a b).mp (Or.inl hx)
    simp only [List.length_map] at ha hb
    rw [groupTest_iff, htag a ha, htag b hb] at hg
    intro e
    apply hg
    simp only at e
    simp [e]
  · intro s t hs ht hne hx
    rw [hcalls, List.nil_append]
    apply (mem_sweepTests_or_iff hp s t).mpr
    refine ⟨by simpa using hs, by simpa using ht, ?_, ?_⟩
    · rw [groupTest_iff, htag s hs, htag t ht]
      intro hc
      apply hne
      simpa using hc.2
    · rw [← hseg, ← hseg]
      exact hx

theorem own_group_pairs_witness :
    StdSortSpec insertionSort ∧
    ((computeIntersectionsSelf insertionSort SimpleSweepLineIntersector.init
        ⟨10, [edgeA, edgeB, edgeC]⟩ [] false).1.segHeap
      = edgeSegments [edgeA, edgeB, edgeC] ∧
    (∀ x ∈ (computeIntersectionsSelf insertionSort SimpleSweepLineIntersector.init
        ⟨10, [edgeA, edgeB, edgeC]⟩ [] false).2,
      (segDeref (edgeSegments [edgeA, edgeB, edgeC]) x.1).edge.addr ≠
        (segDeref (edgeSegments [edgeA, edgeB, edgeC]) x.2).edge.addr) ∧
    (∀ s t, s < (edgeSegments [edgeA, edgeB, edgeC]).length →
      t < (edgeSegments [edgeA, edgeB, edgeC]).length →
      (segDeref (edgeSegments [edgeA, edgeB, edgeC]) s).edge.addr ≠
        (segDeref (edgeSegments [edgeA, edgeB, edgeC]) t).edge.addr →
      xOverlap (segDeref (edgeSegments [edgeA, edgeB, edgeC]) s)
        (segDeref (edgeSegments [edgeA, edgeB, edgeC]) t) →
      (s, t) ∈ (computeIntersectionsSelf insertionSort SimpleSweepLineIntersector.init
          ⟨10, [edgeA, edgeB, edgeC]⟩ [] false).2 ∨
      (t, s) ∈ (computeIntersectionsSelf insertionSort SimpleSweepLineIntersector.init
          ⟨10, [edgeA, edgeB, edgeC]⟩ [] false).2)) :=
  ⟨insertionSort_spec,
    own_group_pairs insertionSort insertionSort_spec ⟨10, [edgeA, edgeB, edgeC]⟩⟩


/-! ## `add` -/

theorem deref_append_left (heap extra : List SweepLineEvent) (p : Nat) (hp : p < heap.length) :
    deref (heap ++ extra) p = deref heap p := by
  rw [deref_eq, deref_eq, List.getElem?_append_left hp]

theorem deref_append_right (heap extra : List SweepLineEvent) (j : Nat) :
    deref (heap ++ extra) (heap.length + j) = deref extra j := by
  rw [deref_eq, deref_eq, List.getElem?_append_right (by omega)]
  simp

/-- The effect of the loop of `add(edge, edgeSet)` after `m` iterations. -/
theorem foldl_addSegment_eq (edge : Edge) (g : Option Nat) (st : SimpleSweepLineIntersector)
    (m : Nat) :
    ∃ newObjs : List SweepLineEvent,
      ((List.range m).foldl (addSegment edge g) st).evHeap = st.evHeap ++ newObjs ∧
      newObjs.length = 2 * m ∧
      ((List.range m).foldl (addSegment edge g) st).segHeap.length = st.segHeap.length + m ∧
      ((List.range m).foldl (addSegment edge g) st).events =
        st.events ++ (List.range (2 * m)).map (fun j => st.evHeap.length + j) ∧
      ((List.range m).foldl (addSegment edge g) st).nOverlaps = st.nOverlaps ∧
      ∀ i, i < m →
        deref newObjs (2 * i) =
          SweepLineEvent.new g (SweepLineSegment.getMinX ⟨edge, i⟩) none
            (st.segHeap.length + i) ∧
        deref newObjs (2 * i + 1) =
          SweepLineEvent.new g (SweepLineSegment.getMaxX ⟨edge, i⟩)
            (some (st.evHeap.length + 2 * i)) (st.segHeap.length + i) := by
  induction m with
  | zero => exact ⟨[], by simp⟩
  | succ m ih =>
    obtain ⟨objs, h1, h2, h3, h4, h5, h6⟩ := ih
    rw [List.range_succ, List.foldl_append, List.foldl_cons, List.foldl_nil]
    refine ⟨objs ++ [SweepLineEvent.new g (SweepLineSegment.getMinX ⟨edge, m⟩) none
        (st.segHeap.length + m),
      SweepLineEvent.new g (SweepLineSegment.getMaxX ⟨edge, m⟩)
        (some (st.evHeap.length + 2 * m)) (st.segHeap.length + m)], ?_, ?_, ?_, ?_, ?_, ?_⟩
    · simp only [addSegment, h1, h3, List.length_append, h2, List.append_assoc]
    · simp [h2]; omega
    · simp only [addSegment, List.length_append, h3, List.length_singleton]; omega
    · simp only [addSegment, h4, h1, List.length_append, h2, List.append_assoc]
      rw [show 2 * (m + 1) = (2 * m + 1) + 1 by ring, List.range_succ, List.range_succ]
      simp [Nat.add_assoc]
    · simp only [addSegment, h5]
    · intro i hi
      by_cases him : i < m
      · rw [deref_append_left _ _ _ (by omega), deref_append_left _ _ _ (by omega)]
        exact h6 i him
      · have e : i = m := by omega
        subst e
        have e1 := deref_append_right objs [SweepLineEvent.new g
          (SweepLineSegment.getMinX ⟨edge, i⟩) none (st.segHeap.length + i),
          SweepLineEvent.new g (SweepLineSegment.getMaxX ⟨edge, i⟩)
            (some (st.evHeap.length + 2 * i)) (st.segHeap.length + i)] 0
        have e2 := deref_append_right objs [SweepLineEvent.new g
          (SweepLineSegment.getMinX ⟨edge, i⟩) none (st.segHeap.length + i),
          SweepLineEvent.new g (SweepLineSegment.getMaxX ⟨edge, i⟩)
            (some (st.evHeap.length + 2 * i)) (st.segHeap.length + i)] 1
        rw [h2] at e1 e2
        rw [Nat.add_zero] at e1
        rw [e1, e2]
        exact ⟨rfl, rfl⟩

/-- C3. For an edge with `n` points, `add(edge, edgeSet)` appends exactly
`2 (n - 1)` event pointers to the event list, an insert event followed by a
delete event for each of the `n - 1` segments, keeps the pointers that were in
the list in place, and leaves the event objects that existed unchanged (for an
edge without points nothing is appended). -/
theorem add_appends_events (st : SimpleSweepLineIntersector) (edge : Edge) (edgeSet : Option Nat) :
    ∃ (newEvents : List Nat) (newObjs : List SweepLineEvent),
      (add st edge edgeSet).events = st.events ++ newEvents ∧
      newEvents.length = 2 * (edge.pts.length - 1) ∧
      (add st edge edgeSet).evHeap = st.evHeap ++ newObjs ∧
      ∀ i, i < edge.pts.length - 1 →
        (deref (add st edge edgeSet).evHeap (newEvents.getD (2 * i) 0)).isInsert = true ∧
        (deref (add st edge edgeSet).evHeap (newEvents.getD (2 * i + 1) 0)).isDelete = true ∧
        (deref (add st edge edgeSet).evHeap (newEvents.getD (2 * i) 0)).obj =
          (deref (add st edge edgeSet).evHeap (newEvents.getD (2 * i + 1) 0)).obj := by
  obtain ⟨objs, h1, h2, _, h4, _, h6⟩ :=
    foldl_addSegment_eq edge edgeSet st (edge.pts.length - 1)
  refine ⟨(List.range (2 * (edge.pts.length - 1))).map (fun j => st.evHeap.length + j), objs,
    h4, by simp, h1, ?_⟩
  intro i hi
  have g1 : ((List.range (2 * (edge.pts.length - 1))).map
      (fun j => st.evHeap.length + j)).getD (2 * i) 0 = st.evHeap.length + 2 * i := by
    rw [List.getD_eq_getElem _ _ (by simp; omega)]
    simp
  have g2 : ((List.range (2 * (edge.pts.length - 1))).map
      (fun j => st.evHeap.length + j)).getD (2 * i + 1) 0 = st.evHeap.length + (2 * i + 1) := by
    rw [List.getD_eq_getElem _ _ (by simp; omega)]
    simp
  unfold add
  rw [h1, g1, g2, deref_append_right, deref_append_right, (h6 i hi).1, (h6 i hi).2]
  exact ⟨rfl, rfl, rfl⟩


/-! ## `prepareEvents`: delete indices and order -/

theorem wellFormed_insertEvent_some {segs : List (SweepLineSegment × Option Nat)}
    {st : SimpleSweepLineIntersector} (h : WellFormed segs st) (q ins : Nat)
    (hq : q < 2 * segs.length) (hi : (deref st.evHeap q).insertEvent = some ins) :
    ∃ k, k < segs.length ∧ ins = 2 * k ∧ q = 2 * k + 1 := by
  rcases Nat.even_or_odd' q with ⟨k, rfl | rfl⟩
  · have := wellFormed_insert h k (by omega)
    rw [this.2.2.1] at hi
    cases hi
  · have := wellFormed_delete h k (by omega)
    rw [this.2.2.1] at hi
    cases hi
    exact ⟨k, by omega, rfl, rfl⟩

/-- C4. After `prepareEvents` on an intersector built by `add`, the insert
event paired with the delete event at position `p` of the sorted list records
the delete index `p`; and the delete index `j` recorded on an insert event is a
position of the list, the event at `j` is a delete event that refers to that
insert event, and it is the only such position. -/
theorem prepareEvents_delete_index (sortFn : (Nat → Nat → Bool) → List Nat → List Nat)
    (hsort : StdSortSpec sortFn) (adds : List (Edge × Option Nat)) :
    (∀ p ins, p < (prepareEvents sortFn
          (addAll SimpleSweepLineIntersector.init adds)).events.length →
      (deref (prepareEvents sortFn (addAll SimpleSweepLineIntersector.init adds)).evHeap
        ((prepareEvents sortFn (addAll SimpleSweepLineIntersector.init adds)).events.getD p 0)
        ).insertEvent = some ins →
      (deref (prepareEvents sortFn (addAll SimpleSweepLineIntersector.init adds)).evHeap
        ins).deleteEventIndex = p) ∧
    (∀ i, i < (prepareEvents sortFn
          (addAll SimpleSweepLineIntersector.init adds)).events.length →
      (deref (prepareEvents sortFn (addAll SimpleSweepLineIntersector.init adds)).evHeap
        ((prepareEvents sortFn (addAll SimpleSweepLineIntersector.init adds)).events.getD i 0)
        ).isInsert = true →
      ∃ j, (deref (prepareEvents sortFn (addAll SimpleSweepLineIntersector.init adds)).evHeap
          ((prepareEvents sortFn (addAll SimpleSweepLineIntersector.init adds)).events.getD i 0)
          ).deleteEventIndex = j ∧
        j < (prepareEvents sortFn
          (addAll SimpleSweepLineIntersector.init adds)).events.length ∧
        ∀ p, p < (prepareEvents sortFn
            (addAll SimpleSweepLineIntersector.init adds)).events.length →
          ((deref (prepareEvents sortFn (addAll SimpleSweepLineIntersector.init adds)).evHeap
            ((prepareEvents sortFn (addAll SimpleSweepLineIntersector.init adds)).events.getD
              p 0)).insertEvent =
            some ((prepareEvents sortFn
              (addAll SimpleSweepLineIntersector.init adds)).events.getD i 0) ↔ p = j)) := by
  have hp := prepared_prepareEvents sortFn hsort _ _ (wellFormed_built adds)
  generalize prepareEvents sortFn (addAll SimpleSweepLineIntersector.init adds) = st at hp
  have hlen := hp.1.events_length
  constructor
  · intro p ins hpl hins
    obtain ⟨k, _, rfl, hq⟩ :=
      wellFormed_insertEvent_some hp.1 _ ins (hp.1.getD_lt p (by omega)) hins
    exact hp.2.2 p k hpl hq
  · intro i hi hins
    have hq := hp.1.getD_lt i (by omega)
    rw [wellFormed_isInsert hp.1 _ hq] at hins
    obtain ⟨k, hk⟩ : ∃ k, st.events.getD i 0 = 2 * k := ⟨st.events.getD i 0 / 2, by omega⟩
    rw [hk] at hq ⊢
    have hkn : k < (taggedSegments adds).length := by omega
    have hd := hp.1.pos_lt (2 * k + 1) (by omega)
    refine ⟨pos st (2 * k + 1), hp.deleteEventIndex_eq k hkn, by omega, ?_⟩
    intro p hpl
    constructor
    · intro hins'
      obtain ⟨k', _, e1, e2⟩ :=
        wellFormed_insertEvent_some hp.1 _ _ (hp.1.getD_lt p (by omega)) hins'
      have := hp.1.pos_getD p (by omega)
      rw [e2, ← e1] at this
      exact this.symm
    · intro e
      rw [e, hp.1.getD_pos (2 * k + 1) (by omega)]
      exact (wellFormed_delete hp.1 k hkn).2.2.1

theorem prepareEvents_delete_index_witness :
    StdSortSpec insertionSort ∧
    (deref (prepareEvents insertionSort (addAll SimpleSweepLineIntersector.init
        [(edgeA, none), (edgeB, none)])).evHeap 0).deleteEventIndex = 2 :=
  ⟨insertionSort_spec,
    (prepareEvents_delete_index insertionSort insertionSort_spec
      [(edgeA, none), (edgeB, none)]).1 2 0 (by decide) (by decide)⟩


/-- C10. After `prepareEvents` the event list is a permutation of the list
before the call, the event objects are the same except for the delete index,
and the list is ordered by non-decreasing x. -/
theorem prepareEvents_perm_sorted (sortFn : (Nat → Nat → Bool) → List Nat → List Nat)
    (hsort : StdSortSpec sortFn) (st : SimpleSweepLineIntersector) :
    (prepareEvents sortFn st).events.Perm st.events ∧
    (prepareEvents sortFn st).evHeap.map staticPart = st.evHeap.map staticPart ∧
    (prepareEvents sortFn st).events.Pairwise (fun a b =>
      (deref (prepareEvents sortFn st).evHeap a).xValue ≤
        (deref (prepareEvents sortFn st).evHeap b).xValue) := by
  refine ⟨(hsort st.evHeap st.events).1, prepareEvents_static sortFn st, ?_⟩
  refine (prepareEvents_sorted sortFn hsort st).imp ?_
  intro a b hab
  rw [lessThen_false_iff] at hab
  omega

theorem prepareEvents_perm_sorted_witness :
    StdSortSpec insertionSort ∧
    (prepareEvents insertionSort (addAll SimpleSweepLineIntersector.init
      [(edgeC, none), (edgeA, none)])).events.Perm
      (addAll SimpleSweepLineIntersector.init [(edgeC, none), (edgeA, none)]).events :=
  ⟨insertionSort_spec,
    (prepareEvents_perm_sorted insertionSort insertionSort_spec
      (addAll SimpleSweepLineIntersector.init [(edgeC, none), (edgeA, none)])).1⟩

/-! ## `processOverlaps` and `computeIntersections` -/

/-- C5. Group skip rule: when the scan for `ev0` looks at an insert event `ev1`
(the event at index `i`), the pair is skipped, state and intersector unchanged,
if and only if the `edgeSet` of `ev0` is non-null and equal to the `edgeSet`
of `ev1`; in every other case the segment-pair test is invoked on the two
segments and the `int` counter `nOverlaps` is incremented. -/
theorem group_skip_rule (st : SimpleSweepLineIntersector) (i ev0 : Nat)
    (si : SegmentIntersector)
    (hins : (deref st.evHeap (st.events.getD i 0)).isInsert = true) :
    (processOverlaps st i (i + 1) ev0 si = (st, si) ↔
      ((deref st.evHeap ev0).edgeSet ≠ none ∧
        (deref st.evHeap ev0).edgeSet = (deref st.evHeap (st.events.getD i 0)).edgeSet)) ∧
    (¬ ((deref st.evHeap ev0).edgeSet ≠ none ∧
        (deref st.evHeap ev0).edgeSet = (deref st.evHeap (st.events.getD i 0)).edgeSet) →
      processOverlaps st i (i + 1) ev0 si =
        ({ st with nOverlaps := incrInt32 st.nOverlaps },
          si ++ [((deref st.evHeap ev0).obj, (deref st.evHeap (st.events.getD i 0)).obj)])) := by
  have hr : List.range' i (i + 1 - i) = [i] := by
    rw [show i + 1 - i = 1 by omega]
    rfl
  have hstep : processOverlaps st i (i + 1) ev0 si = processOverlapsStep ev0 (st, si) i := by
    unfold processOverlaps
    rw [hr]
    rfl
  rw [hstep]
  by_cases hc : (deref st.evHeap ev0).edgeSet ≠ none ∧
      (deref st.evHeap ev0).edgeSet = (deref st.evHeap (st.events.getD i 0)).edgeSet
  · have hg : ¬ ((deref st.evHeap ev0).edgeSet = none ∨
        (deref st.evHeap ev0).edgeSet ≠ (deref st.evHeap (st.events.getD i 0)).edgeSet) := by
      intro h
      rcases h with h | h
      · exact hc.1 h
      · exact h hc.2
    have : processOverlapsStep ev0 (st, si) i = (st, si) := by
      simp only [processOverlapsStep]
      rw [if_pos hins, if_neg hg]
    rw [this]
    exact ⟨⟨fun _ => hc, fun _ => rfl⟩, fun h => absurd hc h⟩
  · have hg : (deref st.evHeap ev0).edgeSet = none ∨
        (deref st.evHeap ev0).edgeSet ≠ (deref st.evHeap (st.events.getD i 0)).edgeSet := by
      by_cases h1 : (deref st.evHeap ev0).edgeSet = none
      · exact Or.inl h1
      · exact Or.inr (fun h2 => hc ⟨h1, h2⟩)
    have : processOverlapsStep ev0 (st, si) i =
        ({ st with nOverlaps := incrInt32 st.nOverlaps },
          si ++ [((deref st.evHeap ev0).obj, (deref st.evHeap (st.events.getD i 0)).obj)]) := by
      simp only [processOverlapsStep, SweepLineSegment.computeIntersections]
      rw [if_pos hins, if_pos hg]
    rw [this]
    refine ⟨⟨fun h => ?_, fun h => absurd h hc⟩, fun _ => rfl⟩
    exfalso
    have := congrArg (fun r => r.2.length) h
    simp at this

theorem group_skip_rule_witness :
    (deref (addAll SimpleSweepLineIntersector.init [(edgeA, some 7), (edgeB, some 7)]).evHeap
      ((addAll SimpleSweepLineIntersector.init
        [(edgeA, some 7), (edgeB, some 7)]).events.getD 2 0)).isInsert = true ∧
    processOverlaps (addAll SimpleSweepLineIntersector.init [(edgeA, some 7), (edgeB, some 7)])
      2 (2 + 1) 0 [] =
      (addAll SimpleSweepLineIntersector.init [(edgeA, some 7), (edgeB, some 7)], []) :=
  ⟨by decide,
    (group_skip_rule (addAll SimpleSweepLineIntersector.init [(edgeA, some 7), (edgeB, some 7)])
      2 0 [] (by decide)).1.mpr (by decide)⟩


/-- C6, as stated, fails: with the single segment of `edgeA` added under a NULL
tag, the sorted list is `[insert, delete]`, the insert event at index 0 records
the delete index 1, the range of indices 1 up to 0 is empty, and yet the run
hands the pair `(0, 0)`, the segment with itself, to the segment-pair test. -/
theorem scan_range_counterexample :
    (computeIntersections insertionSort
      (addAll SimpleSweepLineIntersector.init [(edgeA, none)]) []).1.events = [0, 1] ∧
    (deref (computeIntersections insertionSort
      (addAll SimpleSweepLineIntersector.init [(edgeA, none)]) []).1.evHeap 0).deleteEventIndex
      = 1 ∧
    (computeIntersections insertionSort
      (addAll SimpleSweepLineIntersector.init [(edgeA, none)]) []).2 = [(0, 0)] := by
  decide

/-- C6, amended. Scan range: on an intersector built by `add`, the tests of one
run of `computeIntersections(si)` are, for every index `i` of the sorted list
that holds an insert event, with recorded delete index `j`, taken in order, the
tests of that event against the insert events at the indices `i`, `i + 1`, ...,
`j - 1` that pass the group rule; `i < j`, so the scan starts with the insert
event at index `i` itself, and `j` is an index of the list. -/
theorem scan_range_from_start (sortFn : (Nat → Nat → Bool) → List Nat → List Nat)
    (hsort : StdSortSpec sortFn) (adds : List (Edge × Option Nat)) (si : SegmentIntersector) :
    (computeIntersections sortFn (addAll SimpleSweepLineIntersector.init adds) si).2 =
      si ++ (List.range (computeIntersections sortFn
          (addAll SimpleSweepLineIntersector.init adds) si).1.events.length).flatMap (fun i =>
        if (deref (computeIntersections sortFn
              (addAll SimpleSweepLineIntersector.init adds) si).1.evHeap
            ((computeIntersections sortFn
              (addAll SimpleSweepLineIntersector.init adds) si).1.events.getD i 0)
            ).isInsert = true then
          (List.range' i ((deref (computeIntersections sortFn
              (addAll SimpleSweepLineIntersector.init adds) si).1.evHeap
            ((computeIntersections sortFn
              (addAll SimpleSweepLineIntersector.init adds) si).1.events.getD i 0)
            ).deleteEventIndex - i)).filterMap (fun k =>
              if (deref (computeIntersections sortFn
                      (addAll SimpleSweepLineIntersector.init adds) si).1.evHeap
                    ((computeIntersections sortFn
                      (addAll SimpleSweepLineIntersector.init adds) si).1.events.getD k 0)
                    ).isInsert = true ∧
                  ((deref (computeIntersections sortFn
                      (addAll SimpleSweepLineIntersector.init adds) si).1.evHeap
                    ((computeIntersections sortFn
                      (addAll SimpleSweepLineIntersector.init adds) si).1.events.getD i 0)
                    ).edgeSet = none ∨
                  (deref (computeIntersections sortFn
                      (addAll SimpleSweepLineIntersector.init adds) si).1.evHeap
                    ((computeIntersections sortFn
                      (addAll SimpleSweepLineIntersector.init adds) si).1.events.getD i 0)
                    ).edgeSet ≠
                  (deref (computeIntersections sortFn
                      (addAll SimpleSweepLineIntersector.init adds) si).1.evHeap
                    ((computeIntersections sortFn
                      (addAll SimpleSweepLineIntersector.init adds) si).1.events.getD k 0)
                    ).edgeSet) then
                some ((deref (computeIntersections sortFn
                      (addAll SimpleSweepLineIntersector.init adds) si).1.evHeap
                    ((computeIntersections sortFn
                      (addAll SimpleSweepLineIntersector.init adds) si).1.events.getD i 0)).obj,
                  (deref (computeIntersections sortFn
                      (addAll SimpleSweepLineIntersector.init adds) si).1.evHeap
                    ((computeIntersections sortFn
                      (addAll SimpleSweepLineIntersector.init adds) si).1.events.getD k 0)).obj)
              else none)
        else []) ∧
    ∀ i, i < (computeIntersections sortFn
          (addAll SimpleSweepLineIntersector.init adds) si).1.events.length →
      (deref (computeIntersections sortFn
          (addAll SimpleSweepLineIntersector.init adds) si).1.evHeap
        ((computeIntersections sortFn
          (addAll SimpleSweepLineIntersector.init adds) si).1.events.getD i 0)).isInsert = true →
      i < (deref (computeIntersections sortFn
          (addAll SimpleSweepLineIntersector.init adds) si).1.evHeap
        ((computeIntersections sortFn
          (addAll SimpleSweepLineIntersector.init adds) si).1.events.getD i 0)).deleteEventIndex ∧
      (deref (computeIntersections sortFn
          (addAll SimpleSweepLineIntersector.init adds) si).1.evHeap
        ((computeIntersections sortFn
          (addAll SimpleSweepLineIntersector.init adds) si).1.events.getD i 0)).deleteEventIndex <
        (computeIntersections sortFn
          (addAll SimpleSweepLineIntersector.init adds) si).1.events.length := by
  obtain ⟨hp, _, hcalls⟩ :=
    computeIntersections_prepared sortFn hsort (wellFormed_built adds) si
  refine ⟨hcalls, ?_⟩
  generalize (computeIntersections sortFn
    (addAll SimpleSweepLineIntersector.init adds) si).1 = st at hp
  intro i hi hins
  have hlen := hp.1.events_length
  have hq := hp.1.getD_lt i (by omega)
  rw [wellFormed_isInsert hp.1 _ hq] at hins
  obtain ⟨k, hk⟩ : ∃ k, st.events.getD i 0 = 2 * k := ⟨st.events.getD i 0 / 2, by omega⟩
  rw [hk] at hq ⊢
  have hkn : k < (taggedSegments adds).length := by omega
  have hpos := hp.1.pos_getD i (by omega)
  rw [hk] at hpos
  rw [hp.deleteEventIndex_eq k hkn, hlen]
  exact ⟨by rw [← hpos]; exact hp.insert_before_delete k hkn,
    hp.1.pos_lt (2 * k + 1) (by omega)⟩

theorem scan_range_from_start_witness :
    StdSortSpec insertionSort ∧
    0 < (deref (computeIntersections insertionSort
          (addAll SimpleSweepLineIntersector.init [(edgeA, none), (edgeB, none)]) []).1.evHeap
        ((computeIntersections insertionSort
          (addAll SimpleSweepLineIntersector.init
            [(edgeA, none), (edgeB, none)]) []).1.events.getD 0 0)).deleteEventIndex :=
  ⟨insertionSort_spec,
    ((scan_range_from_start insertionSort insertionSort_spec
      [(edgeA, none), (edgeB, none)] []).2 0 (by decide) (by decide)).1⟩

theorem mem_trianglePairs (n : Nat) (y : Nat × Nat) :
    y ∈ trianglePairs n ↔ y.1 ≤ y.2 ∧ y.2 < n := by
  obtain ⟨a, b⟩ := y
  unfold trianglePairs
  simp only [List.mem_flatMap, List.mem_range, List.mem_map, Prod.mk.injEq]
  constructor
  · rintro ⟨b', hb, a', ha, rfl, rfl⟩
    exact ⟨by omega, hb⟩
  · rintro ⟨h1, h2⟩
    exact ⟨b, h2, a, by omega, rfl, rfl⟩

theorem trianglePairs_succ (n : Nat) :
    trianglePairs (n + 1) = trianglePairs n ++ (List.range (n + 1)).map (fun a => (a, n)) := by
  unfold trianglePairs
  rw [List.range_succ, List.flatMap_append]
  simp [List.range_succ]

theorem nodup_trianglePairs (n : Nat) : (trianglePairs n).Nodup := by
  induction n with
  | zero => simp [trianglePairs]
  | succ n ih =>
    rw [trianglePairs_succ, List.nodup_append]
    refine ⟨ih, ?_, ?_⟩
    · exact List.Nodup.map (fun a b e => (Prod.mk.inj e).1) (List.nodup_range _)
    · intro y h1 h2
      rw [mem_trianglePairs] at h1
      rw [List.mem_map] at h2
      obtain ⟨a, _, rfl⟩ := h2
      simp only at h1
      omega

theorem length_trianglePairs (n : Nat) : 2 * (trianglePairs n).length = n * (n + 1) := by
  induction n with
  | zero => simp [trianglePairs]
  | succ n ih =>
    rw [trianglePairs_succ, List.length_append, List.length_map, List.length_range]
    have : (n + 1) * (n + 1 + 1) = n * (n + 1) + 2 * (n + 1) := by ring
    omega

/-- When every two segments overlap in x and pass the group rule, the sweep
tests every unordered pair of segments once, each segment with itself
included. -/
theorem sweepTests_length_all {segs : List (SweepLineSegment × Option Nat)}
    {st : SimpleSweepLineIntersector} (h : Prepared segs st)
    (hall : ∀ a b : Nat, a < segs.length → b < segs.length →
      groupTest (segAt segs a).2 (segAt segs b).2 ∧
      xOverlap (segAt segs a).1 (segAt segs b).1) :
    2 * (sweepTests st).length = segs.length * (segs.length + 1) := by
  have hperm : ((sweepTests st).map unorderedPair).Perm (trianglePairs segs.length) := by
    rw [List.perm_ext_iff_of_nodup (nodup_map_unorderedPair h) (nodup_trianglePairs _)]
    intro y
    rw [mem_map_unorderedPair h, mem_trianglePairs]
    constructor
    · rintro ⟨h1, _, h2, _⟩
      exact ⟨h1, h2⟩
    · rintro ⟨h1, h2⟩
      exact ⟨h1, by omega, h2, hall _ _ (by omega) h2⟩
  have := hperm.length_eq
  rw [List.length_map] at this
  rw [this]
  exact length_trianglePairs _

theorem zigzagEdge_getX (m i : Nat) (hi : i ≤ m) :
    (zigzagEdge m).getX i = ((i % 2 : Nat) : Int) := by
  unfold Edge.getX zigzagEdge
  simp only
  rw [List.getD_eq_getElem _ _ (by simpa using Nat.lt_succ_of_le hi)]
  simp

theorem length_taggedSegments_zigzag (m : Nat) :
    (taggedSegments [(zigzagEdge m, none)]).length = m := by
  simp [taggedSegments, segmentsOf, zigzagEdge]

theorem segAt_taggedSegments_zigzag (m k : Nat) (hk : k < m) :
    segAt (taggedSegments [(zigzagEdge m, none)]) k =
      (({ edge := zigzagEdge m, ptIndex := k } : SweepLineSegment), none) := by
  have hlen := length_taggedSegments_zigzag m
  rw [segAt_eq_getElem _ _ (by omega)]
  simp [taggedSegments, segmentsOf]

theorem zigzag_getMinX (m k : Nat) (hk : k < m) :
    ({ edge := zigzagEdge m, ptIndex := k } : SweepLineSegment).getMinX = 0 := by
  unfold SweepLineSegment.getMinX
  simp only
  rw [zigzagEdge_getX m k (by omega), zigzagEdge_getX m (k + 1) (by omega)]
  rcases Nat.mod_two_eq_zero_or_one k with e | e
  · have : (k + 1) % 2 = 1 := by omega
    rw [e, this]; decide
  · have : (k + 1) % 2 = 0 := by omega
    rw [e, this]; decide

theorem zigzag_getMaxX (m k : Nat) (hk : k < m) :
    ({ edge := zigzagEdge m, ptIndex := k } : SweepLineSegment).getMaxX = 1 := by
  unfold SweepLineSegment.getMaxX
  simp only
  rw [zigzagEdge_getX m k (by omega), zigzagEdge_getX m (k + 1) (by omega)]
  rcases Nat.mod_two_eq_zero_or_one k with e | e
  · have : (k + 1) % 2 = 1 := by omega
    rw [e, this]; decide
  · have : (k + 1) % 2 = 0 := by omega
    rw [e, this]; decide

/-- One edge of `m` segments that all span the x-interval [0, 1], added with a
null tag: the sweep makes `m (m + 1) / 2` tests. -/
theorem zigzag_tests (sortFn : (Nat → Nat → Bool) → List Nat → List Nat)
    (hsort : StdSortSpec sortFn) (m : Nat) :
    2 * (computeIntersections sortFn
        (addAll SimpleSweepLineIntersector.init [(zigzagEdge m, none)]) []).2.length =
      m * (m + 1) ∧
    (computeIntersections sortFn
        (addAll SimpleSweepLineIntersector.init [(zigzagEdge m, none)]) []).1.nOverlaps =
      wrapInt32 (computeIntersections sortFn
        (addAll SimpleSweepLineIntersector.init [(zigzagEdge m, none)]) []).2.length := by
  obtain ⟨hp, hn, hcalls⟩ :=
    computeIntersections_prepared sortFn hsort (wellFormed_built [(zigzagEdge m, none)]) []
  have hlen := length_taggedSegments_zigzag m
  rw [hcalls, List.nil_append]
  refine ⟨?_, hn⟩
  have := sweepTests_length_all hp (by
    intro a b ha hb
    rw [hlen] at ha hb
    rw [segAt_taggedSegments_zigzag m a ha, segAt_taggedSegments_zigzag m b hb]
    refine ⟨Or.inl rfl, ?_, ?_⟩
    · show SweepLineSegment.getMinX _ ≤ SweepLineSegment.getMaxX _
      rw [zigzag_getMinX m a ha, zigzag_getMaxX m b hb]; decide
    · show SweepLineSegment.getMinX _ ≤ SweepLineSegment.getMaxX _
      rw [zigzag_getMinX m b hb, zigzag_getMaxX m a ha]; decide)
  rw [this, hlen]

/-- C7, as stated, fails: one edge of 65536 segments that all span the
x-interval from 0 to 1, added under a NULL tag to a fresh intersector, makes
one run of `computeIntersections(si)` invoke 2147516416 segment-pair tests,
more than the largest `int`, and the run ends with `nOverlaps = -2147450880`,
which is not the number of tests. -/
theorem overlap_counter_counterexample :
    (computeIntersections insertionSort
        (addAll SimpleSweepLineIntersector.init [(zigzagEdge 65536, none)]) []).2.length =
      2147516416 ∧
    (computeIntersections insertionSort
        (addAll SimpleSweepLineIntersector.init [(zigzagEdge 65536, none)]) []).1.nOverlaps =
      -2147450880 ∧
    (computeIntersections insertionSort
        (addAll SimpleSweepLineIntersector.init [(zigzagEdge 65536, none)]) []).1.nOverlaps ≠
      (computeIntersections insertionSort
        (addAll SimpleSweepLineIntersector.init [(zigzagEdge 65536, none)]) []).2.length := by
  obtain ⟨h1, h2⟩ := zigzag_tests insertionSort insertionSort_spec 65536
  have hl : (computeIntersections insertionSort
      (addAll SimpleSweepLineIntersector.init [(zigzagEdge 65536, none)]) []).2.length =
      2147516416 := by omega
  rw [h2, hl]
  refine ⟨rfl, ?_, ?_⟩
  · unfold wrapInt32; omega
  · unfold wrapInt32; omega

/-- C7, amended. Overlap counter: a run of `computeIntersections(si)` resets
the `int` counter `nOverlaps`, whatever it held before, and increments it once
for every segment-pair test of that run, so that at the end `nOverlaps` equals
the number of tests of that run alone whenever that number is at most
`2^31 - 1`; a second run on the same events makes the same number of tests,
counts its own tests only and ends with the same value of `nOverlaps`. -/
theorem overlap_counter (sortFn : (Nat → Nat → Bool) → List Nat → List Nat)
    (hsort : StdSortSpec sortFn) (adds : List (Edge × Option Nat)) (n0 : Int)
    (si1 si2 : SegmentIntersector) :
    ∃ t1 t2 : List (Nat × Nat),
      (computeIntersections sortFn
        { addAll SimpleSweepLineIntersector.init adds with nOverlaps := n0 } si1).2
        = si1 ++ t1 ∧
      (computeIntersections sortFn
        { addAll SimpleSweepLineIntersector.init adds with nOverlaps := n0 } si1).1.nOverlaps
        = incrInt32^[t1.length] 0 ∧
      (t1.length ≤ 2147483647 →
        (computeIntersections sortFn
          { addAll SimpleSweepLineIntersector.init adds with nOverlaps := n0 } si1).1.nOverlaps
          = t1.length) ∧
      (computeIntersections sortFn (computeIntersections sortFn
        { addAll SimpleSweepLineIntersector.init adds with nOverlaps := n0 } si1).1 si2).2
        = si2 ++ t2 ∧
      (computeIntersections sortFn (computeIntersections sortFn
        { addAll SimpleSweepLineIntersector.init adds with nOverlaps := n0 } si1).1 si2).1.nOverlaps
        = incrInt32^[t2.length] 0 ∧
      (t2.length ≤ 2147483647 →
        (computeIntersections sortFn (computeIntersections sortFn
          { addAll SimpleSweepLineIntersector.init adds with nOverlaps := n0 } si1).1
            si2).1.nOverlaps
          = t2.length) ∧
      t2.length = t1.length ∧
      (computeIntersections sortFn (computeIntersections sortFn
        { addAll SimpleSweepLineIntersector.init adds with nOverlaps := n0 } si1).1 si2).1.nOverlaps
        = (computeIntersections sortFn
          { addAll SimpleSweepLineIntersector.init adds with nOverlaps := n0 } si1).1.nOverlaps := by
  have hwf := wellFormed_nOverlaps (wellFormed_built adds) n0
  obtain ⟨hp1, hn1, hc1⟩ := computeIntersections_prepared sortFn hsort hwf si1
  obtain ⟨hp2, hn2, hc2⟩ := computeIntersections_prepared sortFn hsort hp1.1 si2
  have hlen := sweepTests_length_eq hp2 hp1
  refine ⟨_, _, hc1, ?_, ?_, hc2, ?_, ?_, hlen, ?_⟩
  · rw [hn1, iterate_incrInt32_zero]
  · intro h
    rw [hn1]
    exact wrapInt32_of_le _ (by omega) (by omega)
  · rw [hn2, iterate_incrInt32_zero]
  · intro h
    rw [hn2]
    exact wrapInt32_of_le _ (by omega) (by omega)
  · rw [hn2, hn1, hlen]

theorem overlap_counter_witness :
    StdSortSpec insertionSort ∧
    (∃ t1 t2 : List (Nat × Nat),
      (computeIntersections insertionSort
        { addAll SimpleSweepLineIntersector.init [(edgeA, none), (edgeB, none)] with
          nOverlaps := 5 } []).2 = [] ++ t1 ∧
      (computeIntersections insertionSort
        { addAll SimpleSweepLineIntersector.init [(edgeA, none), (edgeB, none)] with
          nOverlaps := 5 } []).1.nOverlaps = incrInt32^[t1.length] 0 ∧
      (t1.length ≤ 2147483647 →
        (computeIntersections insertionSort
          { addAll SimpleSweepLineIntersector.init [(edgeA, none), (edgeB, none)] with
            nOverlaps := 5 } []).1.nOverlaps = t1.length) ∧
      (computeIntersections insertionSort (computeIntersections insertionSort
        { addAll SimpleSweepLineIntersector.init [(edgeA, none), (edgeB, none)] with
          nOverlaps := 5 } []).1 []).2 = [] ++ t2 ∧
      (computeIntersections insertionSort (computeIntersections insertionSort
        { addAll SimpleSweepLineIntersector.init [(edgeA, none), (edgeB, none)] with
          nOverlaps := 5 } []).1 []).1.nOverlaps = incrInt32^[t2.length] 0 ∧
      (t2.length ≤ 2147483647 →
        (computeIntersections insertionSort (computeIntersections insertionSort
          { addAll SimpleSweepLineIntersector.init [(edgeA, none), (edgeB, none)] with
            nOverlaps := 5 } []).1 []).1.nOverlaps = t2.length) ∧
      t2.length = t1.length ∧
      (computeIntersections insertionSort (computeIntersections insertionSort
        { addAll SimpleSweepLineIntersector.init [(edgeA, none), (edgeB, none)] with
          nOverlaps := 5 } []).1 []).1.nOverlaps =
        (computeIntersections insertionSort
          { addAll SimpleSweepLineIntersector.init [(edgeA, none), (edgeB, none)] with
            nOverlaps := 5 } []).1.nOverlaps) ∧
    ((computeIntersections insertionSort
        { addAll SimpleSweepLineIntersector.init [(edgeA, none), (edgeB, none)] with
          nOverlaps := 5 } []).1.nOverlaps = 3 ∧
      (computeIntersections insertionSort (computeIntersections insertionSort
        { addAll SimpleSweepLineIntersector.init [(edgeA, none), (edgeB, none)] with
          nOverlaps := 5 } []).1 []).1.nOverlaps = 3) := by
  refine ⟨insertionSort_spec,
    overlap_counter insertionSort insertionSort_spec [(edgeA, none), (edgeB, none)] 5 [] [], ?_⟩
  obtain ⟨t1, t2, h1, _, h3, _, _, _, _, h8⟩ :=
    overlap_counter insertionSort insertionSort_spec [(edgeA, none), (edgeB, none)] 5 [] []
  have e : t1 = [(0, 0), (0, 1), (1, 1)] := by
    rw [List.nil_append] at h1
    rw [← h1]
    decide
  rw [e] at h3
  rw [h8]
  exact ⟨h3 (by decide), h3 (by decide)⟩


/-! ## Event construction -/

theorem foldl_addSegment_segHeap (edge : Edge) (g : Option Nat)
    (st : SimpleSweepLineIntersector) (m : Nat) :
    ((List.range m).foldl (addSegment edge g) st).segHeap =
      st.segHeap ++ (List.range m).map
        (fun i => ({ edge := edge, ptIndex := i } : SweepLineSegment)) := by
  induction m with
  | zero => simp
  | succ m ih =>
    rw [List.range_succ, List.foldl_append, List.foldl_cons, List.foldl_nil]
    simp only [addSegment, ih, List.map_append, List.map_cons, List.map_nil, List.append_assoc]

theorem segDeref_append_right (heap extra : List SweepLineSegment) (j : Nat) :
    segDeref (heap ++ extra) (heap.length + j) = segDeref extra j := by
  unfold segDeref
  rw [List.getD_eq_getElem?_getD, List.getD_eq_getElem?_getD,
    List.getElem?_append_right (by omega)]
  simp

/-- C11. Event construction: for every segment index `i` of an edge passed to
`add(edge, edgeSet)`, the two event pointers appended for it refer to an insert
event (no insert back-reference) at x = `minX` of segment `i` and to a delete
event at x = `maxX` of segment `i` whose back-reference is the pointer of that
insert event; both events carry the given `edgeSet` and the pointer of one
`SweepLineSegment` object, which is the segment `(edge, i)`; the x of the
insert event is not greater than the x of the delete event. -/
theorem add_event_construction (st : SimpleSweepLineIntersector) (edge : Edge)
    (edgeSet : Option Nat) (i : Nat) (hi : i < edge.pts.length - 1) :
    (add st edge edgeSet).events.getD (st.events.length + 2 * i) 0 =
      st.evHeap.length + 2 * i ∧
    (add st edge edgeSet).events.getD (st.events.length + 2 * i + 1) 0 =
      st.evHeap.length + 2 * i + 1 ∧
    deref (add st edge edgeSet).evHeap (st.evHeap.length + 2 * i) =
      SweepLineEvent.new edgeSet (SweepLineSegment.getMinX ⟨edge, i⟩) none
        (st.segHeap.length + i) ∧
    deref (add st edge edgeSet).evHeap (st.evHeap.length + 2 * i + 1) =
      SweepLineEvent.new edgeSet (SweepLineSegment.getMaxX ⟨edge, i⟩)
        (some (st.evHeap.length + 2 * i)) (st.segHeap.length + i) ∧
    segDeref (add st edge edgeSet).segHeap (st.segHeap.length + i) = ⟨edge, i⟩ ∧
    (deref (add st edge edgeSet).evHeap (st.evHeap.length + 2 * i)).isInsert = true ∧
    (deref (add st edge edgeSet).evHeap (st.evHeap.length + 2 * i + 1)).isDelete = true ∧
    (deref (add st edge edgeSet).evHeap (st.evHeap.length + 2 * i)).xValue ≤
      (deref (add st edge edgeSet).evHeap (st.evHeap.length + 2 * i + 1)).xValue := by
  obtain ⟨objs, h1, h2, _, h4, _, h6⟩ :=
    foldl_addSegment_eq edge edgeSet st (edge.pts.length - 1)
  have hseg := foldl_addSegment_segHeap edge edgeSet st (edge.pts.length - 1)
  have e1 : deref (add st edge edgeSet).evHeap (st.evHeap.length + 2 * i) =
      SweepLineEvent.new edgeSet (SweepLineSegment.getMinX ⟨edge, i⟩) none
        (st.segHeap.length + i) := by
    unfold add
    rw [h1, deref_append_right, (h6 i hi).1]
  have e2 : deref (add st edge edgeSet).evHeap (st.evHeap.length + 2 * i + 1) =
      SweepLineEvent.new edgeSet (SweepLineSegment.getMaxX ⟨edge, i⟩)
        (some (st.evHeap.length + 2 * i)) (st.segHeap.length + i) := by
    unfold add
    rw [h1, Nat.add_assoc, deref_append_right, (h6 i hi).2]
  have g1 : (add st edge edgeSet).events.getD (st.events.length + 2 * i) 0 =
      st.evHeap.length + 2 * i := by
    unfold add
    rw [h4, List.getD_eq_getElem?_getD, List.getElem?_append_right (by omega),
      show st.events.length + 2 * i - st.events.length = 2 * i by omega, List.getElem?_map,
      List.getElem?_range (by omega)]
    rfl
  have g2 : (add st edge edgeSet).events.getD (st.events.length + 2 * i + 1) 0 =
      st.evHeap.length + 2 * i + 1 := by
    unfold add
    rw [h4, List.getD_eq_getElem?_getD, List.getElem?_append_right (by omega),
      show st.events.length + 2 * i + 1 - st.events.length = 2 * i + 1 by omega,
      List.getElem?_map, List.getElem?_range (by omega)]
    rfl
  refine ⟨g1, g2, e1, e2, ?_, ?_, ?_, ?_⟩
  · unfold add
    rw [hseg, segDeref_append_right]
    unfold segDeref
    rw [List.getD_eq_getElem _ _ (by simpa using hi)]
    simp
  · rw [e1]; rfl
  · rw [e2]; rfl
  · rw [e1, e2]
    exact getMinX_le_getMaxX _

theorem add_event_construction_witness :
    1 < edgeC.pts.length - 1 ∧
    deref (add SimpleSweepLineIntersector.init edgeC (some 9)).evHeap 2 =
      SweepLineEvent.new (some 9) 6 none 1 ∧
    deref (add SimpleSweepLineIntersector.init edgeC (some 9)).evHeap 3 =
      SweepLineEvent.new (some 9) 7 (some 2) 1 :=
  ⟨by decide,
    (add_event_construction SimpleSweepLineIntersector.init edgeC (some 9) 1 (by decide)).2.2.1,
    (add_event_construction SimpleSweepLineIntersector.init edgeC (some 9) 1
      (by decide)).2.2.2.1⟩


/-! ## The order of edge intersections -/

theorem edgeIntersectionLessThen_iff (a b : EdgeIntersection) :
    EdgeIntersectionLessThen a b = true ↔
      a.segmentIndex < b.segmentIndex ∨
      (a.segmentIndex = b.segmentIndex ∧ a.dist < b.dist) := by
  unfold EdgeIntersectionLessThen
  split_ifs with h
  · exact ⟨fun _ => h, fun _ => rfl⟩
  · exact ⟨fun e => absurd e (by simp), fun e => absurd e h⟩

theorem edgeIntersectionLessThen_false_iff (a b : EdgeIntersection) :
    EdgeIntersectionLessThen a b = false ↔
      b.segmentIndex < a.segmentIndex ∨
      (a.segmentIndex = b.segmentIndex ∧ b.dist ≤ a.dist) := by
  rw [← Bool.not_eq_true, edgeIntersectionLessThen_iff]
  omega

theorem edgeIntersectionLessThen_strictWeakOrder : StrictWeakOrder EdgeIntersectionLessThen := by
  refine ⟨?_, ?_, ?_⟩
  · intro a
    rw [edgeIntersectionLessThen_false_iff]
    omega
  · intro a b c h1 h2
    rw [edgeIntersectionLessThen_iff] at h1 h2 ⊢
    omega
  · intro a b c h1 h2 h3 h4
    rw [edgeIntersectionLessThen_false_iff] at h1 h2 h3 h4 ⊢
    rw [edgeIntersectionLessThen_false_iff]
    omega

/-- C12. `EdgeIntersectionLessThen` is the strict lexicographic order on the
key `(segmentIndex, dist)`: it returns true exactly when the first segment index
is smaller, or the segment indices are equal and the first `dist` is smaller;
it is irreflexive and transitive; and two intersections are equivalent under
it (neither less than the other) exactly when they have the same
`segmentIndex` and the same `dist`, whatever their coordinates. -/
theorem edgeIntersectionLessThen_lexicographic :
    (∀ a b : EdgeIntersection, EdgeIntersectionLessThen a b = true ↔
      a.segmentIndex < b.segmentIndex ∨
      (a.segmentIndex = b.segmentIndex ∧ a.dist < b.dist)) ∧
    (∀ a : EdgeIntersection, EdgeIntersectionLessThen a a = false) ∧
    (∀ a b c : EdgeIntersection, EdgeIntersectionLessThen a b = true →
      EdgeIntersectionLessThen b c = true → EdgeIntersectionLessThen a c = true) ∧
    (∀ a b : EdgeIntersection,
      (EdgeIntersectionLessThen a b = false ∧ EdgeIntersectionLessThen b a = false) ↔
        (a.segmentIndex = b.segmentIndex ∧ a.dist = b.dist)) := by
  refine ⟨edgeIntersectionLessThen_iff, edgeIntersectionLessThen_strictWeakOrder.1,
    edgeIntersectionLessThen_strictWeakOrder.2.1, ?_⟩
  intro a b
  rw [edgeIntersectionLessThen_false_iff, edgeIntersectionLessThen_false_iff]
  omega


/-! ## Insertion into an ordered set -/

theorem setInsert_cases {α : Type} (lt : α → α → Bool) (x : α) (l : List α) :
    ((setInsert lt x l).2.2 = true ∧ (setInsert lt x l).2.1 = x ∧
      (setInsert lt x l).1.Perm (x :: l)) ∨
    ((setInsert lt x l).2.2 = false ∧ (setInsert lt x l).1 = l ∧
      (setInsert lt x l).2.1 ∈ l ∧ lt x (setInsert lt x l).2.1 = false ∧
      lt (setInsert lt x l).2.1 x = false) := by
  induction l with
  | nil => exact Or.inl ⟨rfl, rfl, List.Perm.refl _⟩
  | cons y l ih =>
    unfold setInsert
    by_cases h1 : lt x y = true
    · rw [if_pos h1]
      exact Or.inl ⟨rfl, rfl, List.Perm.refl _⟩
    · rw [if_neg h1]
      by_cases h2 : lt y x = true
      · rw [if_pos h2]
        rcases ih with ⟨a, b, c⟩ | ⟨a, b, c, d, e⟩
        · exact Or.inl ⟨a, b, (List.Perm.cons y c).trans (List.Perm.swap x y l)⟩
        · exact Or.inr ⟨a, by rw [b], List.mem_cons_of_mem _ c, d, e⟩
      · rw [if_neg h2]
        exact Or.inr ⟨rfl, rfl, List.mem_cons_self _ _, by simpa using h1, by simpa using h2⟩

theorem setInsert_found {α : Type} (lt : α → α → Bool) (hswo : StrictWeakOrder lt) (x : α)
    (l : List α) (hl : l.Pairwise (fun a b => lt a b = true))
    (y : α) (hy : y ∈ l) (hxy : lt x y = false) (hyx : lt y x = false) :
    (setInsert lt x l).2.2 = false := by
  induction l with
  | nil => cases hy
  | cons z l ih =>
    rw [List.pairwise_cons] at hl
    unfold setInsert
    by_cases h1 : lt x z = true
    · exfalso
      rcases List.mem_cons.mp hy with rfl | hy'
      · rw [h1] at hxy; cases hxy
      · have := hswo.2.1 x z y h1 (hl.1 y hy')
        rw [this] at hxy; cases hxy
    · rw [if_neg h1]
      by_cases h2 : lt z x = true
      · rw [if_pos h2]
        rcases List.mem_cons.mp hy with rfl | hy'
        · rw [h2] at hyx; cases hyx
        · exact ih hl.2 hy'
      · rw [if_neg h2]

theorem setInsert_sorted {α : Type} (lt : α → α → Bool) (hswo : StrictWeakOrder lt) (x : α)
    (l : List α) (hl : l.Pairwise (fun a b => lt a b = true)) :
    (setInsert lt x l).1.Pairwise (fun a b => lt a b = true) := by
  induction l with
  | nil => simp [setInsert]
  | cons z l ih =>
    rw [List.pairwise_cons] at hl
    unfold setInsert
    by_cases h1 : lt x z = true
    · rw [if_pos h1]
      refine List.Pairwise.cons ?_ (List.Pairwise.cons hl.1 hl.2)
      intro w hw
      rcases List.mem_cons.mp hw with rfl | hw'
      · exact h1
      · exact hswo.2.1 x z w h1 (hl.1 w hw')
    · rw [if_neg h1]
      by_cases h2 : lt z x = true
      · rw [if_pos h2]
        refine List.Pairwise.cons ?_ (ih hl.2)
        intro w hw
        rcases setInsert_cases lt x l with ⟨_, _, c⟩ | ⟨_, b, _⟩
        · rcases List.mem_cons.mp (c.mem_iff.mp hw) with rfl | hw'
          · exact h2
          · exact hl.1 w hw'
        · rw [b] at hw
          exact hl.1 w hw
      · rw [if_neg h2]
        exact List.Pairwise.cons hl.1 hl.2

theorem sorted_no_equivalent {α : Type} (lt : α → α → Bool)
    (l : List α) (hl : l.Pairwise (fun a b => lt a b = true)) :
    l.Pairwise (fun a b => ¬ (lt a b = false ∧ lt b a = false)) := by
  refine hl.imp ?_
  intro a b hab hc
  rw [hab] at hc
  cases hc.1


/-- C13. `EdgeIntersectionList::add` on a list whose entries are ordered by
`EdgeIntersectionLessThen`: when the list holds an entry with the given
`(segmentIndex, dist)`, the list is unchanged and that entry is returned;
otherwise exactly one entry, the new one, is inserted and returned; in both
cases the entries stay ordered, so no two of them compare equal. -/
theorem edgeIntersectionList_add (eil : EdgeIntersectionList)
    (hvalid : eil.nodeMap.Pairwise (fun a b => EdgeIntersectionLessThen a b = true))
    (coord : Coordinate) (segmentIndex dist : Int) :
    ((∃ e ∈ eil.nodeMap, e.segmentIndex = segmentIndex ∧ e.dist = dist) →
      (eil.add coord segmentIndex dist).1 = eil ∧
      (eil.add coord segmentIndex dist).2 ∈ eil.nodeMap ∧
      (eil.add coord segmentIndex dist).2.segmentIndex = segmentIndex ∧
      (eil.add coord segmentIndex dist).2.dist = dist) ∧
    ((¬ ∃ e ∈ eil.nodeMap, e.segmentIndex = segmentIndex ∧ e.dist = dist) →
      (eil.add coord segmentIndex dist).1.nodeMap.Perm
        ({ coord := coord, segmentIndex := segmentIndex, dist := dist } :: eil.nodeMap) ∧
      (eil.add coord segmentIndex dist).1.edge = eil.edge ∧
      (eil.add coord segmentIndex dist).2 =
        { coord := coord, segmentIndex := segmentIndex, dist := dist }) ∧
    (eil.add coord segmentIndex dist).1.nodeMap.Pairwise
      (fun a b => EdgeIntersectionLessThen a b = true) ∧
    (eil.add coord segmentIndex dist).1.nodeMap.Pairwise
      (fun a b => ¬ (EdgeIntersectionLessThen a b = false ∧
        EdgeIntersectionLessThen b a = false)) := by
  have hs := setInsert_sorted EdgeIntersectionLessThen edgeIntersectionLessThen_strictWeakOrder
    { coord := coord, segmentIndex := segmentIndex, dist := dist } eil.nodeMap hvalid
  have hc := setInsert_cases EdgeIntersectionLessThen
    { coord := coord, segmentIndex := segmentIndex, dist := dist } eil.nodeMap
  have hret : (eil.add coord segmentIndex dist).2 =
      (setInsert EdgeIntersectionLessThen
        { coord := coord, segmentIndex := segmentIndex, dist := dist } eil.nodeMap).2.1 := rfl
  refine ⟨?_, ?_, hs, sorted_no_equivalent _ _ hs⟩
  · rintro ⟨e, he, h1, h2⟩
    have hf := setInsert_found EdgeIntersectionLessThen edgeIntersectionLessThen_strictWeakOrder
      { coord := coord, segmentIndex := segmentIndex, dist := dist } eil.nodeMap hvalid e he
      (by rw [edgeIntersectionLessThen_false_iff]; simp only; omega)
      (by rw [edgeIntersectionLessThen_false_iff]; simp only; omega)
    rcases hc with ⟨a, _, _⟩ | ⟨_, b, c, d, d'⟩
    · rw [hf] at a; cases a
    · rw [edgeIntersectionLessThen_false_iff] at d d'
      simp only at d d'
      rw [hret]
      refine ⟨?_, c, by omega, by omega⟩
      unfold EdgeIntersectionList.add
      simp only [b]
  · intro hno
    rcases hc with ⟨_, b, c⟩ | ⟨_, _, c, d, d'⟩
    · exact ⟨c, rfl, hret.trans b⟩
    · exfalso
      rw [edgeIntersectionLessThen_false_iff] at d d'
      simp only at d d'
      exact hno ⟨_, c, by omega, by omega⟩

theorem edgeIntersectionList_add_witness :
    (({ edge := 1, nodeMap := [⟨⟨0, 0, 0⟩, 0, 0⟩, ⟨⟨4, 4, 0⟩, 1, 3⟩] } :
        EdgeIntersectionList).nodeMap.Pairwise
      (fun a b => EdgeIntersectionLessThen a b = true)) ∧
    (({ edge := 1, nodeMap := [⟨⟨0, 0, 0⟩, 0, 0⟩, ⟨⟨4, 4, 0⟩, 1, 3⟩] } :
        EdgeIntersectionList).add ⟨9, 9, 0⟩ 1 3).1 =
      { edge := 1, nodeMap := [⟨⟨0, 0, 0⟩, 0, 0⟩, ⟨⟨4, 4, 0⟩, 1, 3⟩] } :=
  ⟨by decide,
    ((edgeIntersectionList_add { edge := 1, nodeMap := [⟨⟨0, 0, 0⟩, 0, 0⟩, ⟨⟨4, 4, 0⟩, 1, 3⟩] }
      (by decide) ⟨9, 9, 0⟩ 1 3).1 ⟨⟨⟨4, 4, 0⟩, 1, 3⟩, by decide, rfl, rfl⟩).1⟩


/-! ## Symmetric directed edges -/

theorem derefDE_set_self (store : List DirectedEdge) (d : Nat) (x : DirectedEdge)
    (hd : d < store.length) : derefDE (store.set d x) d = x := by
  unfold derefDE
  rw [List.getD_eq_getElem?_getD, List.getElem?_set]
  simp [hd]

theorem derefDE_set_ne (store : List DirectedEdge) (d d' : Nat) (x : DirectedEdge)
    (hne : d ≠ d') : derefDE (store.set d x) d' = derefDE store d' := by
  unfold derefDE
  rw [List.getD_eq_getElem?_getD, List.getD_eq_getElem?_getD, List.getElem?_set]
  simp [hne]

theorem getSym_set_same_sym (store : List DirectedEdge) (d d' : Nat) (x : DirectedEdge)
    (hx : x.sym = (derefDE store d).sym) :
    DirectedEdge.getSym (store.set d x) d' = DirectedEdge.getSym store d' := by
  unfold DirectedEdge.getSym
  by_cases hne : d = d'
  · subst hne
    by_cases hd : d < store.length
    · rw [derefDE_set_self store d x hd, hx]
    · rw [List.set_eq_of_length_le (by omega)]
  · rw [derefDE_set_ne store d d' x hne]

theorem getSym_setSym_self (store : List DirectedEdge) (d : Nat) (de : Option Nat)
    (hd : d < store.length) :
    DirectedEdge.getSym (DirectedEdge.setSym store d de) d = de := by
  unfold DirectedEdge.getSym DirectedEdge.setSym
  rw [derefDE_set_self store d _ hd]

theorem getSym_setSym_ne (store : List DirectedEdge) (d d' : Nat) (de : Option Nat)
    (hne : d' ≠ d) :
    DirectedEdge.getSym (DirectedEdge.setSym store d de) d' = DirectedEdge.getSym store d' := by
  unfold DirectedEdge.getSym DirectedEdge.setSym
  rw [derefDE_set_ne store d d' _ (Ne.symm hne)]

theorem length_setSym (store : List DirectedEdge) (d : Nat) (de : Option Nat) :
    (DirectedEdge.setSym store d de).length = store.length := by
  unfold DirectedEdge.setSym
  rw [List.length_set]

/-- C14, as stated, fails: in a store where every directed edge satisfies
`sym.sym == self` (0 paired with 1, 2 paired with 3), the single call
`d0.setSym(d2)` leaves `d0` with its sym set to `d2`, whose sym is still `d3`,
so that `d0.getSym().getSym()` is `d3` and not `d0`. -/
theorem sym_pairing_counterexample :
    (symOfSym pairedStore 0 = some 0 ∧ symOfSym pairedStore 1 = some 1 ∧
      symOfSym pairedStore 2 = some 2 ∧ symOfSym pairedStore 3 = some 3) ∧
    DirectedEdge.getSym (DirectedEdge.setSym pairedStore 0 (some 2)) 0 = some 2 ∧
    symOfSym (DirectedEdge.setSym pairedStore 0 (some 2)) 0 = some 3 := by
  decide

/-- C14, amended. Sym pairing: a call `d.setSym(e)` sets the sym of `d` to `e`
and changes the sym of no other directed edge; after the two calls
`d.setSym(e)` and `e.setSym(d)`, `d.getSym().getSym()` is `d` and
`e.getSym().getSym()` is `e`; and the other inline setters of `DirectedEdge`
leave the sym of every directed edge as it is. -/
theorem sym_pairing (store : List DirectedEdge) (d e : Nat) (hd : d < store.length)
    (he : e < store.length) :
    DirectedEdge.getSym (DirectedEdge.setSym store d (some e)) d = some e ∧
    (∀ d', d' ≠ d →
      DirectedEdge.getSym (DirectedEdge.setSym store d (some e)) d' =
        DirectedEdge.getSym store d') ∧
    symOfSym (DirectedEdge.setSym (DirectedEdge.setSym store d (some e)) e (some d)) d
      = some d ∧
    symOfSym (DirectedEdge.setSym (DirectedEdge.setSym store d (some e)) e (some d)) e
      = some e ∧
    (∀ (x : Option Nat) (d' : Nat),
      DirectedEdge.getSym (DirectedEdge.setNext store d x) d' = DirectedEdge.getSym store d' ∧
      DirectedEdge.getSym (DirectedEdge.setNextMin store d x) d' =
        DirectedEdge.getSym store d' ∧
      DirectedEdge.getSym (DirectedEdge.setEdgeRing store d x) d' =
        DirectedEdge.getSym store d' ∧
      DirectedEdge.getSym (DirectedEdge.setMinEdgeRing store d x) d' =
        DirectedEdge.getSym store d') ∧
    (∀ (v : Bool) (d' : Nat),
      DirectedEdge.getSym (DirectedEdge.setInResult store d v) d' =
        DirectedEdge.getSym store d' ∧
      DirectedEdge.getSym (DirectedEdge.setVisited store d v) d' =
        DirectedEdge.getSym store d') := by
  have he' : e < (DirectedEdge.setSym store d (some e)).length := by
    rw [length_setSym]; exact he
  have h1 : DirectedEdge.getSym
      (DirectedEdge.setSym (DirectedEdge.setSym store d (some e)) e (some d)) e = some d :=
    getSym_setSym_self _ e _ he'
  have h2 : DirectedEdge.getSym
      (DirectedEdge.setSym (DirectedEdge.setSym store d (some e)) e (some d)) d = some e := by
    by_cases hde : d = e
    · subst hde
      exact h1
    · rw [getSym_setSym_ne _ e d _ hde]
      exact getSym_setSym_self store d _ hd
  refine ⟨getSym_setSym_self store d _ hd, fun d' hne => getSym_setSym_ne store d d' _ hne,
    ?_, ?_, ?_, ?_⟩
  · unfold symOfSym
    rw [h2]
    exact h1
  · unfold symOfSym
    rw [h1]
    exact h2
  · intro x d'
    exact ⟨getSym_set_same_sym store d d' _ rfl, getSym_set_same_sym store d d' _ rfl,
      getSym_set_same_sym store d d' _ rfl, getSym_set_same_sym store d d' _ rfl⟩
  · intro v d'
    exact ⟨getSym_set_same_sym store d d' _ rfl, getSym_set_same_sym store d d' _ rfl⟩

theorem sym_pairing_witness :
    0 < pairedStore.length ∧ 2 < pairedStore.length ∧
    symOfSym (DirectedEdge.setSym (DirectedEdge.setSym pairedStore 0 (some 2)) 2 (some 0)) 0
      = some 0 :=
  ⟨by decide, by decide, (sym_pairing pairedStore 0 2 (by decide) (by decide)).2.2.1⟩


/-! ## The node map -/

theorem mapFind_some {κ V : Type} (lt : κ → κ → Bool) (k : κ) (l : List (κ × V))
    (e : κ × V) (h : mapFind lt k l = some e) :
    e ∈ l ∧ lt k e.1 = false ∧ lt e.1 k = false := by
  induction l with
  | nil => cases h
  | cons y l ih =>
    unfold mapFind at h
    split_ifs at h with hc
    · cases h
      exact ⟨List.mem_cons_self _ _, hc.1, hc.2⟩
    · obtain ⟨a, b⟩ := ih h
      exact ⟨List.mem_cons_of_mem _ a, b⟩

theorem mapFind_none {κ V : Type} (lt : κ → κ → Bool) (k : κ) (l : List (κ × V))
    (h : mapFind lt k l = none) :
    ∀ e ∈ l, ¬ (lt k e.1 = false ∧ lt e.1 k = false) := by
  induction l with
  | nil => intro e he; cases he
  | cons y l ih =>
    unfold mapFind at h
    split_ifs at h with hc
    intro e he
    rcases List.mem_cons.mp he with rfl | he'
    · exact hc
    · exact ih h e he'

theorem countP_equiv_le_one {κ V : Type} (lt : κ → κ → Bool) (hswo : StrictWeakOrder lt)
    (k : κ) (l : List (κ × V)) (hl : l.Pairwise (fun a b => lt a.1 b.1 = true)) :
    l.countP (fun e => !lt k e.1 && !lt e.1 k) ≤ 1 := by
  induction l with
  | nil => simp
  | cons y l ih =>
    rw [List.pairwise_cons] at hl
    rw [List.countP_cons]
    by_cases hy : (!lt k y.1 && !lt y.1 k) = true
    · have hz : l.countP (fun e => !lt k e.1 && !lt e.1 k) = 0 := by
        rw [List.countP_eq_zero]
        intro z hz hzz
        simp only [Bool.and_eq_true, Bool.not_eq_true'] at hy hzz
        have := hswo.2.2 y.1 k z.1 hy.2 hy.1 hzz.1 hzz.2
        rw [hl.1 z hz] at this
        cases this.1
      rw [hz, if_pos hy]
    · rw [if_neg hy]
      exact ih hl.2

theorem mapAssign_absent {κ V : Type} (lt : κ → κ → Bool) (hirr : ∀ a, lt a a = false)
    (k : κ) (v : V) (l : List (κ × V))
    (hno : ∀ e ∈ l, ¬ (lt k e.1 = false ∧ lt e.1 k = false)) :
    mapFind lt k (mapAssign lt k v l) = some (k, v) ∧
    (mapAssign lt k v l).countP (fun e => !lt k e.1 && !lt e.1 k) = 1 ∧
    (mapAssign lt k v l).Perm ((k, v) :: l) := by
  have hzero : ∀ l' : List (κ × V), (∀ e ∈ l', ¬ (lt k e.1 = false ∧ lt e.1 k = false)) →
      l'.countP (fun e => !lt k e.1 && !lt e.1 k) = 0 := by
    intro l' h'
    rw [List.countP_eq_zero]
    intro z hz hzz
    simp only [Bool.and_eq_true, Bool.not_eq_true'] at hzz
    exact h' z hz hzz
  have hself : (!lt k k && !lt k k) = true := by simp [hirr k]
  induction l with
  | nil =>
    refine ⟨?_, ?_, List.Perm.refl _⟩
    · simp [mapAssign, mapFind, hirr k]
    · simp [mapAssign, hirr k]
  | cons y l ih =>
    have hy := hno y (List.mem_cons_self _ _)
    have ih' := ih (fun e he => hno e (List.mem_cons_of_mem _ he))
    unfold mapAssign
    by_cases h1 : lt k y.1 = true
    · rw [if_pos h1]
      refine ⟨?_, ?_, List.Perm.refl _⟩
      · unfold mapFind
        rw [if_pos ⟨hirr k, hirr k⟩]
      · rw [List.countP_cons, hzero (y :: l) hno, if_pos hself]
    · rw [if_neg h1]
      by_cases h2 : lt y.1 k = true
      · rw [if_pos h2]
        refine ⟨?_, ?_, (List.Perm.cons y ih'.2.2).trans (List.Perm.swap _ _ _)⟩
        · unfold mapFind
          rw [if_neg hy]
          exact ih'.1
        · rw [List.countP_cons, ih'.2.1, if_neg (by simp [h2])]
      · exact absurd ⟨by simpa using h1, by simpa using h2⟩ hy

theorem mapAssign_sorted {κ V : Type} (lt : κ → κ → Bool) (hswo : StrictWeakOrder lt)
    (k : κ) (v : V) (l : List (κ × V))
    (hno : ∀ e ∈ l, ¬ (lt k e.1 = false ∧ lt e.1 k = false))
    (hl : l.Pairwise (fun a b => lt a.1 b.1 = true)) :
    (mapAssign lt k v l).Pairwise (fun a b => lt a.1 b.1 = true) := by
  induction l with
  | nil => simp [mapAssign]
  | cons y l ih =>
    have hy := hno y (List.mem_cons_self _ _)
    have hno' : ∀ e ∈ l, ¬ (lt k e.1 = false ∧ lt e.1 k = false) :=
      fun e he => hno e (List.mem_cons_of_mem _ he)
    rw [List.pairwise_cons] at hl
    unfold mapAssign
    by_cases h1 : lt k y.1 = true
    · rw [if_pos h1]
      refine List.Pairwise.cons ?_ (List.Pairwise.cons hl.1 hl.2)
      intro w hw
      rcases List.mem_cons.mp hw with rfl | hw'
      · exact h1
      · exact hswo.2.1 _ _ _ h1 (hl.1 w hw')
    · rw [if_neg h1]
      by_cases h2 : lt y.1 k = true
      · rw [if_pos h2]
        refine List.Pairwise.cons ?_ (ih hno' hl.2)
        intro w hw
        rcases List.mem_cons.mp
          ((mapAssign_absent lt hswo.1 k v l hno').2.2.mem_iff.mp hw) with rfl | hw'
        · exact h2
        · exact hl.1 w hw'
      · exact absurd ⟨by simpa using h1, by simpa using h2⟩ hy

theorem coordLT_compareXY_iff (a b : Coordinate) :
    CoordLT compareXY a b = true ↔ a.x < b.x ∨ (a.x = b.x ∧ a.y < b.y) := by
  unfold CoordLT compareXY
  rw [decide_eq_true_eq]
  split_ifs <;> omega

theorem coordLT_compareXY_false_iff (a b : Coordinate) :
    CoordLT compareXY a b = false ↔ b.x < a.x ∨ (a.x = b.x ∧ b.y ≤ a.y) := by
  rw [← Bool.not_eq_true, coordLT_compareXY_iff]
  omega

theorem compareXY_strictWeakOrder : StrictWeakOrder (CoordLT compareXY) := by
  refine ⟨?_, ?_, ?_⟩
  · intro a
    rw [coordLT_compareXY_false_iff]
    omega
  · intro a b c h1 h2
    rw [coordLT_compareXY_iff] at h1 h2 ⊢
    omega
  · intro a b c h1 h2 h3 h4
    rw [coordLT_compareXY_false_iff] at h1 h2 h3 h4 ⊢
    rw [coordLT_compareXY_false_iff]
    omega


theorem addNode_found (compareTo : Coordinate → Coordinate → Int) (nm : NodeMap)
    (c : Coordinate) (e : Coordinate × Nat)
    (h : mapFind (CoordLT compareTo) c nm.nodeMap = some e) :
    nm.addNode compareTo c = (nm, e.2) := by
  unfold NodeMap.addNode NodeMap.find
  rw [h]
  rfl

theorem addNode_absent (compareTo : Coordinate → Coordinate → Int) (nm : NodeMap)
    (c : Coordinate) (h : mapFind (CoordLT compareTo) c nm.nodeMap = none) :
    nm.addNode compareTo c =
      ({ nodeMap := mapAssign (CoordLT compareTo) c nm.nodes.length nm.nodeMap
         nodes := nm.nodes ++ [{ coord := c }] },
        nm.nodes.length) := by
  unfold NodeMap.addNode NodeMap.find
  rw [h]
  rfl

/-- C15. For every node map whose entries are ordered by the comparator, and
every coordinate `c`, two calls of `addNode(c)` return the same node, the
second call leaves the map as the first one left it, and the map then holds
exactly one entry whose key is equivalent to `c`; the entries stay ordered. -/
theorem addNode_twice (compareTo : Coordinate → Coordinate → Int)
    (hswo : StrictWeakOrder (CoordLT compareTo)) (nm : NodeMap)
    (hvalid : nm.nodeMap.Pairwise (fun a b => CoordLT compareTo a.1 b.1 = true))
    (c : Coordinate) :
    ((nm.addNode compareTo c).1.addNode compareTo c).2 = (nm.addNode compareTo c).2 ∧
    ((nm.addNode compareTo c).1.addNode compareTo c).1 = (nm.addNode compareTo c).1 ∧
    ((nm.addNode compareTo c).1.addNode compareTo c).1.nodeMap.countP
      (fun e => !CoordLT compareTo c e.1 && !CoordLT compareTo e.1 c) = 1 ∧
    ((nm.addNode compareTo c).1.addNode compareTo c).1.nodeMap.Pairwise
      (fun a b => CoordLT compareTo a.1 b.1 = true) := by
  cases hf : mapFind (CoordLT compareTo) c nm.nodeMap with
  | some e =>
    rw [addNode_found compareTo nm c e hf]
    simp only
    rw [addNode_found compareTo nm c e hf]
    refine ⟨rfl, rfl, ?_, hvalid⟩
    have hle := countP_equiv_le_one (CoordLT compareTo) hswo c nm.nodeMap hvalid
    have hm := mapFind_some _ _ _ _ hf
    have hpos : 0 < nm.nodeMap.countP
        (fun e => !CoordLT compareTo c e.1 && !CoordLT compareTo e.1 c) := by
      rw [List.countP_pos_iff]
      exact ⟨e, hm.1, by simp [hm.2.1, hm.2.2]⟩
    simp only
    omega
  | none =>
    have hno := mapFind_none _ _ _ hf
    have ha := mapAssign_absent (CoordLT compareTo) hswo.1 c nm.nodes.length nm.nodeMap hno
    rw [addNode_absent compareTo nm c hf]
    simp only
    rw [addNode_found compareTo _ c (c, nm.nodes.length) ha.1]
    exact ⟨rfl, rfl, ha.2.1, mapAssign_sorted _ hswo _ _ _ hno hvalid⟩

theorem addNode_twice_witness :
    StrictWeakOrder (CoordLT compareXY) ∧
    ((({ nodeMap := [(⟨0, 0, 0⟩, 0)], nodes := [⟨⟨0, 0, 0⟩⟩] } : NodeMap).addNode compareXY
        ⟨3, 4, 0⟩).1.addNode compareXY ⟨3, 4, 0⟩).2 =
      (({ nodeMap := [(⟨0, 0, 0⟩, 0)], nodes := [⟨⟨0, 0, 0⟩⟩] } : NodeMap).addNode compareXY
        ⟨3, 4, 0⟩).2 :=
  ⟨compareXY_strictWeakOrder,
    (addNode_twice compareXY compareXY_strictWeakOrder
      { nodeMap := [(⟨0, 0, 0⟩, 0)], nodes := [⟨⟨0, 0, 0⟩⟩] } (by decide) ⟨3, 4, 0⟩).1⟩


/-! ## Soundness, self tests and the order of the tests -/

theorem insertionSortRev_spec : StdSortSpec insertionSortRev := by
  intro heap l
  have h := insertionSort_spec heap l.reverse
  exact ⟨h.1.trans (List.reverse_perm l), h.2⟩

/-- C16. Soundness of the sweep: on an intersector built by `add`, whatever the
group tags, every pair `(s0, s1)` handed to the segment-pair test by one run of
`computeIntersections(si)` is a pair of added segments with
`s0.minX <= s1.minX <= s0.maxX`; their x-intervals overlap. -/
theorem sweep_sound (sortFn : (Nat → Nat → Bool) → List Nat → List Nat)
    (hsort : StdSortSpec sortFn) (adds : List (Edge × Option Nat)) :
    ∀ x ∈ (computeIntersections sortFn (addAll SimpleSweepLineIntersector.init adds) []).2,
      x.1 < (taggedSegments adds).length ∧ x.2 < (taggedSegments adds).length ∧
      (segAt (taggedSegments adds) x.1).1.getMinX ≤ (segAt (taggedSegments adds) x.2).1.getMinX ∧
      (segAt (taggedSegments adds) x.2).1.getMinX ≤ (segAt (taggedSegments adds) x.1).1.getMaxX ∧
      xOverlap (segAt (taggedSegments adds) x.1).1 (segAt (taggedSegments adds) x.2).1 := by
  obtain ⟨hp, _, hcalls⟩ :=
    computeIntersections_prepared sortFn hsort (wellFormed_built adds) []
  rw [hcalls, List.nil_append]
  rintro ⟨a, b⟩ hx
  obtain ⟨ha, hb, h1, h2, _⟩ := (mem_sweepTests_iff hp a b).mp hx
  have o1 := hp.insert_order a b ha hb h1
  have o2 := (hp.insert_before_delete_iff a b ha hb).mp h2
  have o3 := getMinX_le_getMaxX (segAt (taggedSegments adds) b).1
  exact ⟨ha, hb, o1, o2, by simp only; omega, o2⟩

theorem sweep_sound_witness :
    StdSortSpec insertionSort ∧
    (segAt (taggedSegments [(edgeA, none), (edgeB, none)]) 0).1.getMinX ≤
      (segAt (taggedSegments [(edgeA, none), (edgeB, none)]) 1).1.getMinX :=
  ⟨insertionSort_spec,
    (sweep_sound insertionSort insertionSort_spec [(edgeA, none), (edgeB, none)]
      (0, 1) (by decide)).2.2.1⟩

theorem count_le_one_of_nodup (l : List (Nat × Nat)) (h : l.Nodup) (a : Nat × Nat) :
    l.count a ≤ 1 := by
  induction l with
  | nil => simp
  | cons b l ih =>
    rw [List.nodup_cons] at h
    rw [List.count_cons]
    by_cases hb : (b == a) = true
    · have e : b = a := by simpa using hb
      rw [if_pos hb, List.count_eq_zero_of_not_mem (e ▸ h.1)]
    · rw [if_neg hb]
      exact ih h.2

theorem count_eq_one_of_nodup_mem (l : List (Nat × Nat)) (h : l.Nodup) (a : Nat × Nat)
    (ha : a ∈ l) : l.count a = 1 := by
  have h1 := count_le_one_of_nodup l h a
  have h2 := List.count_pos_iff.mpr ha
  omega

/-- C17. Self test: on an intersector built by `add`, one run of
`computeIntersections(si)` hands a segment added with a NULL `edgeSet` to the
segment-pair test paired with itself exactly once, and never does so for a
segment added with a non-null `edgeSet`; the `int` counter `nOverlaps`, reset
at the start of the run, is incremented once for every test of the run, the
self tests included, so that it holds the number of all the tests whenever
that number is at most `2^31 - 1`. -/
theorem self_test (sortFn : (Nat → Nat → Bool) → List Nat → List Nat)
    (hsort : StdSortSpec sortFn) (adds : List (Edge × Option Nat)) (s : Nat)
    (hs : s < (taggedSegments adds).length) :
    ((segAt (taggedSegments adds) s).2 = none →
      (computeIntersections sortFn
        (addAll SimpleSweepLineIntersector.init adds) []).2.count (s, s) = 1) ∧
    ((segAt (taggedSegments adds) s).2 ≠ none →
      (s, s) ∉ (computeIntersections sortFn
        (addAll SimpleSweepLineIntersector.init adds) []).2) ∧
    (computeIntersections sortFn
        (addAll SimpleSweepLineIntersector.init adds) []).1.nOverlaps =
      incrInt32^[(computeIntersections sortFn
        (addAll SimpleSweepLineIntersector.init adds) []).2.length] 0 ∧
    ((computeIntersections sortFn
        (addAll SimpleSweepLineIntersector.init adds) []).2.length ≤ 2147483647 →
      (computeIntersections sortFn
          (addAll SimpleSweepLineIntersector.init adds) []).1.nOverlaps =
        (computeIntersections sortFn
          (addAll SimpleSweepLineIntersector.init adds) []).2.length) := by
  obtain ⟨hp, hn, hcalls⟩ :=
    computeIntersections_prepared sortFn hsort (wellFormed_built adds) []
  rw [hcalls, List.nil_append]
  have hmem : (s, s) ∈ sweepTests (computeIntersections sortFn
      (addAll SimpleSweepLineIntersector.init adds) []).1 ↔
      (segAt (taggedSegments adds) s).2 = none := by
    rw [mem_sweepTests_iff hp, groupTest_self]
    constructor
    · intro h; exact h.2.2.2.2
    · intro h
      exact ⟨hs, hs, le_refl _, hp.insert_before_delete s hs, h⟩
  refine ⟨?_, ?_, ?_, ?_⟩
  · intro h
    exact count_eq_one_of_nodup_mem _ (nodup_sweepTests hp) _ (hmem.mpr h)
  · intro h hc
    exact h (hmem.mp hc)
  · rw [hn, iterate_incrInt32_zero]
  · intro h
    rw [hn]
    exact wrapInt32_of_le _ (by omega) (by omega)

theorem self_test_witness :
    StdSortSpec insertionSort ∧
    (segAt (taggedSegments [(edgeV, none), (edgeB, some 5)]) 0).2 = none ∧
    (computeIntersections insertionSort
      (addAll SimpleSweepLineIntersector.init [(edgeV, none), (edgeB, some 5)]) []).2.count
        (0, 0) = 1 ∧
    (computeIntersections insertionSort
      (addAll SimpleSweepLineIntersector.init
        [(edgeV, none), (edgeB, some 5)]) []).2.length ≤ 2147483647 ∧
    (computeIntersections insertionSort
      (addAll SimpleSweepLineIntersector.init
        [(edgeV, none), (edgeB, some 5)]) []).1.nOverlaps =
      (computeIntersections insertionSort
        (addAll SimpleSweepLineIntersector.init
          [(edgeV, none), (edgeB, some 5)]) []).2.length :=
  ⟨insertionSort_spec, by decide,
    (self_test insertionSort insertionSort_spec [(edgeV, none), (edgeB, some 5)] 0
      (by decide)).1 (by decide),
    by decide,
    (self_test insertionSort insertionSort_spec [(edgeV, none), (edgeB, some 5)] 0
      (by decide)).2.2.2 (by decide)⟩

/-- C18. Tie-break independence: for a fixed sequence of added edges, two
sorting functions that meet the contract of `std::sort`, whatever the order in
which each leaves the events that compare equivalent, lead to the same
unordered pairs of tested segments (the same pairs up to the order of the list
and of each pair) and to the same `nOverlaps`. -/
theorem tie_break_independence (sortFn1 sortFn2 : (Nat → Nat → Bool) → List Nat → List Nat)
    (hsort1 : StdSortSpec sortFn1) (hsort2 : StdSortSpec sortFn2)
    (adds : List (Edge × Option Nat)) :
    ((computeIntersections sortFn1
        (addAll SimpleSweepLineIntersector.init adds) []).2.map unorderedPair).Perm
      ((computeIntersections sortFn2
        (addAll SimpleSweepLineIntersector.init adds) []).2.map unorderedPair) ∧
    (∀ s t : Nat,
      ((s, t) ∈ (computeIntersections sortFn1
          (addAll SimpleSweepLineIntersector.init adds) []).2 ∨
        (t, s) ∈ (computeIntersections sortFn1
          (addAll SimpleSweepLineIntersector.init adds) []).2) ↔
      ((s, t) ∈ (computeIntersections sortFn2
          (addAll SimpleSweepLineIntersector.init adds) []).2 ∨
        (t, s) ∈ (computeIntersections sortFn2
          (addAll SimpleSweepLineIntersector.init adds) []).2)) ∧
    (computeIntersections sortFn1
        (addAll SimpleSweepLineIntersector.init adds) []).1.nOverlaps =
      (computeIntersections sortFn2
        (addAll SimpleSweepLineIntersector.init adds) []).1.nOverlaps := by
  obtain ⟨hp1, hn1, hc1⟩ :=
    computeIntersections_prepared sortFn1 hsort1 (wellFormed_built adds) []
  obtain ⟨hp2, hn2, hc2⟩ :=
    computeIntersections_prepared sortFn2 hsort2 (wellFormed_built adds) []
  rw [hc1, hc2, hn1, hn2, List.nil_append, List.nil_append]
  refine ⟨sweepTests_perm hp1 hp2, ?_, by rw [sweepTests_length_eq hp1 hp2]⟩
  intro s t
  rw [mem_sweepTests_or_iff hp1, mem_sweepTests_or_iff hp2]

theorem tie_break_independence_witness :
    StdSortSpec insertionSort ∧ StdSortSpec insertionSortRev ∧
    (computeIntersections insertionSort (addAll SimpleSweepLineIntersector.init
        [(edgeA, none), (edgeV, none), (edgeB, none), (edgeA, some 3)]) []).1.nOverlaps =
      (computeIntersections insertionSortRev (addAll SimpleSweepLineIntersector.init
        [(edgeA, none), (edgeV, none), (edgeB, none), (edgeA, some 3)]) []).1.nOverlaps :=
  ⟨insertionSort_spec, insertionSortRev_spec,
    (tie_break_independence insertionSort insertionSortRev insertionSort_spec
      insertionSortRev_spec
      [(edgeA, none), (edgeV, none), (edgeB, none), (edgeA, some 3)]).2.2⟩


/-- C19. No pair is tested twice: on an intersector built by `add`, where every
segment object is created once, one run of `computeIntersections(si)` makes no
test twice, invokes the segment-pair test at most once on each unordered pair
of distinct segments, and whenever it tests `(s, t)` with `s` and `t`
distinct, the insert event of `s` stands before the insert event of `t` in the
sorted event list and the test `(t, s)` is not made. -/
theorem no_pair_twice (sortFn : (Nat → Nat → Bool) → List Nat → List Nat)
    (hsort : StdSortSpec sortFn) (adds : List (Edge × Option Nat)) :
    (computeIntersections sortFn (addAll SimpleSweepLineIntersector.init adds) []).2.Nodup ∧
    (∀ s t : Nat, s ≠ t →
      (computeIntersections sortFn
          (addAll SimpleSweepLineIntersector.init adds) []).2.count (s, t) +
        (computeIntersections sortFn
          (addAll SimpleSweepLineIntersector.init adds) []).2.count (t, s) ≤ 1) ∧
    (∀ s t : Nat, s ≠ t →
      (s, t) ∈ (computeIntersections sortFn
          (addAll SimpleSweepLineIntersector.init adds) []).2 →
      (t, s) ∉ (computeIntersections sortFn
          (addAll SimpleSweepLineIntersector.init adds) []).2 ∧
      ∃ i j : Nat, i < j ∧
        j < (computeIntersections sortFn
          (addAll SimpleSweepLineIntersector.init adds) []).1.events.length ∧
        (deref (computeIntersections sortFn
            (addAll SimpleSweepLineIntersector.init adds) []).1.evHeap
          ((computeIntersections sortFn
            (addAll SimpleSweepLineIntersector.init adds) []).1.events.getD i 0)).isInsert
          = true ∧
        (deref (computeIntersections sortFn
            (addAll SimpleSweepLineIntersector.init adds) []).1.evHeap
          ((computeIntersections sortFn
            (addAll SimpleSweepLineIntersector.init adds) []).1.events.getD i 0)).obj = s ∧
        (deref (computeIntersections sortFn
            (addAll SimpleSweepLineIntersector.init adds) []).1.evHeap
          ((computeIntersections sortFn
            (addAll SimpleSweepLineIntersector.init adds) []).1.events.getD j 0)).isInsert
          = true ∧
        (deref (computeIntersections sortFn
            (addAll SimpleSweepLineIntersector.init adds) []).1.evHeap
          ((computeIntersections sortFn
            (addAll SimpleSweepLineIntersector.init adds) []).1.events.getD j 0)).obj = t) := by
  obtain ⟨hp, _, hcalls⟩ :=
    computeIntersections_prepared sortFn hsort (wellFormed_built adds) []
  rw [hcalls, List.nil_append]
  generalize (computeIntersections sortFn
    (addAll SimpleSweepLineIntersector.init adds) []).1 = st at hp
  have hnd := nodup_sweepTests hp
  refine ⟨hnd, ?_, ?_⟩
  · intro s t hne
    by_cases h1 : (s, t) ∈ sweepTests st
    · have h2 : (t, s) ∉ sweepTests st := fun h2 => hne (sweepTests_antisymm hp s t h1 h2)
      rw [List.count_eq_zero_of_not_mem h2]
      exact count_le_one_of_nodup _ hnd _
    · rw [List.count_eq_zero_of_not_mem h1, Nat.zero_add]
      exact count_le_one_of_nodup _ hnd _
  · intro s t hne h1
    refine ⟨fun h2 => hne (sweepTests_antisymm hp s t h1 h2), ?_⟩
    obtain ⟨hs, ht, hle, _, _⟩ := (mem_sweepTests_iff hp s t).mp h1
    have hlen := hp.1.events_length
    have hps := hp.1.pos_lt (2 * s) (by omega)
    have hpt := hp.1.pos_lt (2 * t) (by omega)
    have hneq : pos st (2 * s) ≠ pos st (2 * t) := by
      intro e
      have := hp.1.pos_inj _ _ (by omega) (by omega) e
      omega
    refine ⟨pos st (2 * s), pos st (2 * t), by omega, by omega, ?_, ?_, ?_, ?_⟩
    · rw [hp.1.getD_pos (2 * s) (by omega)]
      exact (wellFormed_isInsert hp.1 _ (by omega)).mpr (by omega)
    · rw [hp.1.getD_pos (2 * s) (by omega)]
      exact (wellFormed_insert hp.1 s hs).2.2.2
    · rw [hp.1.getD_pos (2 * t) (by omega)]
      exact (wellFormed_isInsert hp.1 _ (by omega)).mpr (by omega)
    · rw [hp.1.getD_pos (2 * t) (by omega)]
      exact (wellFormed_insert hp.1 t ht).2.2.2

theorem no_pair_twice_witness :
    StdSortSpec insertionSort ∧
    (computeIntersections insertionSort (addAll SimpleSweepLineIntersector.init
        [(edgeA, none), (edgeV, none), (edgeB, none)]) []).2.count (0, 1) +
      (computeIntersections insertionSort (addAll SimpleSweepLineIntersector.init
        [(edgeA, none), (edgeV, none), (edgeB, none)]) []).2.count (1, 0) ≤ 1 :=
  ⟨insertionSort_spec,
    (no_pair_twice insertionSort insertionSort_spec
      [(edgeA, none), (edgeV, none), (edgeB, none)]).2.1 0 1 (by decide)⟩

/-- C20. Insert precedes delete: after `prepareEvents` on an intersector built
by `add`, every insert event, at index `i`, records a delete index `j` with
`i < j`, also for a vertical segment (`minX = maxX`); `j` is an index of the
list, the event at `j` is a delete event, and it is the delete event paired
with that insert event.  The scanned range from `i` up to `j - 1` is not
empty. -/
theorem insert_precedes_delete (sortFn : (Nat → Nat → Bool) → List Nat → List Nat)
    (hsort : StdSortSpec sortFn) (adds : List (Edge × Option Nat)) (i : Nat)
    (hi : i < (prepareEvents sortFn
      (addAll SimpleSweepLineIntersector.init adds)).events.length)
    (hins : (deref (prepareEvents sortFn (addAll SimpleSweepLineIntersector.init adds)).evHeap
      ((prepareEvents sortFn (addAll SimpleSweepLineIntersector.init adds)).events.getD i 0)
      ).isInsert = true) :
    i < (deref (prepareEvents sortFn (addAll SimpleSweepLineIntersector.init adds)).evHeap
      ((prepareEvents sortFn (addAll SimpleSweepLineIntersector.init adds)).events.getD i 0)
      ).deleteEventIndex ∧
    (deref (prepareEvents sortFn (addAll SimpleSweepLineIntersector.init adds)).evHeap
      ((prepareEvents sortFn (addAll SimpleSweepLineIntersector.init adds)).events.getD i 0)
      ).deleteEventIndex <
      (prepareEvents sortFn (addAll SimpleSweepLineIntersector.init adds)).events.length ∧
    (deref (prepareEvents sortFn (addAll SimpleSweepLineIntersector.init adds)).evHeap
      ((prepareEvents sortFn (addAll SimpleSweepLineIntersector.init adds)).events.getD
        (deref (prepareEvents sortFn (addAll SimpleSweepLineIntersector.init adds)).evHeap
          ((prepareEvents sortFn (addAll SimpleSweepLineIntersector.init adds)).events.getD i 0)
          ).deleteEventIndex 0)).isDelete = true ∧
    (deref (prepareEvents sortFn (addAll SimpleSweepLineIntersector.init adds)).evHeap
      ((prepareEvents sortFn (addAll SimpleSweepLineIntersector.init adds)).events.getD
        (deref (prepareEvents sortFn (addAll SimpleSweepLineIntersector.init adds)).evHeap
          ((prepareEvents sortFn (addAll SimpleSweepLineIntersector.init adds)).events.getD i 0)
          ).deleteEventIndex 0)).insertEvent =
      some ((prepareEvents sortFn
        (addAll SimpleSweepLineIntersector.init adds)).events.getD i 0) := by
  have hp := prepared_prepareEvents sortFn hsort _ _ (wellFormed_built adds)
  generalize prepareEvents sortFn (addAll SimpleSweepLineIntersector.init adds) = st
    at hp hi hins ⊢
  have hlen := hp.1.events_length
  have hq := hp.1.getD_lt i (by omega)
  rw [wellFormed_isInsert hp.1 _ hq] at hins
  obtain ⟨k, hk⟩ : ∃ k, st.events.getD i 0 = 2 * k := ⟨st.events.getD i 0 / 2, by omega⟩
  rw [hk] at hq ⊢
  have hkn : k < (taggedSegments adds).length := by omega
  have hpos := hp.1.pos_getD i (by omega)
  rw [hk] at hpos
  have hd := wellFormed_delete hp.1 k hkn
  rw [hp.deleteEventIndex_eq k hkn, hlen, hp.1.getD_pos (2 * k + 1) (by omega)]
  refine ⟨by rw [← hpos]; exact hp.insert_before_delete k hkn,
    hp.1.pos_lt (2 * k + 1) (by omega), ?_, hd.2.2.1⟩
  simp [SweepLineEvent.isDelete, hd.2.2.1]

theorem insert_precedes_delete_witness :
    (edgeV.pts.map Coordinate.x = [1, 1]) ∧
    0 < (deref (prepareEvents insertionSortRev
        (addAll SimpleSweepLineIntersector.init [(edgeV, none)])).evHeap
      ((prepareEvents insertionSortRev
        (addAll SimpleSweepLineIntersector.init [(edgeV, none)])).events.getD 0 0)
      ).deleteEventIndex :=
  ⟨by decide,
    (insert_precedes_delete insertionSortRev insertionSortRev_spec [(edgeV, none)] 0
      (by decide) (by decide)).1⟩


/-! ## Index safety -/

theorem foldlM_eq_some_foldl {σ ι : Type} (f : σ → ι → σ) (g : σ → ι → Option σ)
    (I : σ → Prop) (l : List ι) (s : σ) (hI : I s)
    (h : ∀ s i, I s → i ∈ l → g s i = some (f s i) ∧ I (f s i)) :
    l.foldlM g s = some (l.foldl f s) ∧ I (l.foldl f s) := by
  induction l generalizing s with
  | nil => exact ⟨rfl, hI⟩
  | cons a l ih =>
    obtain ⟨h1, h2⟩ := h s a hI (List.mem_cons_self _ _)
    rw [List.foldlM_cons, h1, List.foldl_cons]
    exact ih (f s a) h2 (fun s' i hs' hi => h s' i hs' (List.mem_cons_of_mem _ hi))

theorem processOverlapsStep_frame (ev0 : Nat)
    (acc : SimpleSweepLineIntersector × SegmentIntersector) (i : Nat) :
    (processOverlapsStep ev0 acc i).1.events = acc.1.events ∧
    (processOverlapsStep ev0 acc i).1.evHeap = acc.1.evHeap := by
  unfold processOverlapsStep
  simp only
  split_ifs <;> exact ⟨rfl, rfl⟩

theorem processOverlapsChecked_eq (st : SimpleSweepLineIntersector) (start end_ ev0 : Nat)
    (si : SegmentIntersector) (hend : end_ ≤ st.events.length)
    (hptr : ∀ i, i < st.events.length → st.events.getD i 0 < st.evHeap.length)
    (hev0 : ev0 < st.evHeap.length) :
    processOverlapsChecked st start end_ ev0 si = some (processOverlaps st start end_ ev0 si) := by
  unfold processOverlapsChecked processOverlaps
  refine (foldlM_eq_some_foldl (processOverlapsStep ev0) (processOverlapsStepChecked ev0)
    (fun acc => acc.1.events = st.events ∧ acc.1.evHeap = st.evHeap) _ (st, si) ⟨rfl, rfl⟩ ?_).1
  intro acc i hacc hi
  rw [List.mem_range'_1] at hi
  have hfr := processOverlapsStep_frame ev0 acc i
  refine ⟨?_, hfr.1.trans hacc.1, hfr.2.trans hacc.2⟩
  unfold processOverlapsStepChecked
  rw [if_pos]
  rw [hacc.1, hacc.2]
  exact ⟨by omega, hptr i (by omega), hev0⟩

theorem processOverlaps_frame (st : SimpleSweepLineIntersector) (start end_ ev0 : Nat)
    (si : SegmentIntersector) :
    (processOverlaps st start end_ ev0 si).1.events = st.events ∧
    (processOverlaps st start end_ ev0 si).1.evHeap = st.evHeap := by
  rw [processOverlaps_eq]
  exact ⟨rfl, rfl⟩

theorem sweepStep_frame (acc : SimpleSweepLineIntersector × SegmentIntersector) (i : Nat) :
    (sweepStep acc i).1.events = acc.1.events ∧ (sweepStep acc i).1.evHeap = acc.1.evHeap := by
  unfold sweepStep
  simp only
  split_ifs
  · exact processOverlaps_frame _ _ _ _ _
  · exact ⟨rfl, rfl⟩

/-- The checked sweep loop succeeds and agrees with the loop of
`computeIntersections` on a prepared state, when every insert event is among
the assigned ones. -/
theorem sweepChecked_eq {segs : List (SweepLineSegment × Option Nat)}
    {st : SimpleSweepLineIntersector} (hp : Prepared segs st) (assigned : List Nat)
    (hass : ∀ k, k < segs.length → 2 * k ∈ assigned) (si : SegmentIntersector) :
    (List.range st.events.length).foldlM (sweepStepChecked assigned) (st, si) =
      some ((List.range st.events.length).foldl sweepStep (st, si)) := by
  have hlen := hp.1.events_length
  have hheap := hp.1.heap_length
  refine (foldlM_eq_some_foldl sweepStep (sweepStepChecked assigned)
    (fun acc => acc.1.events = st.events ∧ acc.1.evHeap = st.evHeap) _ (st, si) ⟨rfl, rfl⟩ ?_).1
  intro acc i hacc hi
  rw [List.mem_range] at hi
  have hfr := sweepStep_frame acc i
  refine ⟨?_, hfr.1.trans hacc.1, hfr.2.trans hacc.2⟩
  have hq := hp.1.getD_lt i (by omega)
  unfold sweepStepChecked sweepStep
  simp only
  rw [hacc.1, hacc.2, if_pos ⟨hi, by omega⟩]
  by_cases hins : (deref st.evHeap (st.events.getD i 0)).isInsert = true
  · rw [if_pos hins, if_pos hins]
    have hins' := (wellFormed_isInsert hp.1 _ hq).mp hins
    obtain ⟨k, hk⟩ : ∃ k, st.events.getD i 0 = 2 * k := ⟨st.events.getD i 0 / 2, by omega⟩
    have hkn : k < segs.length := by omega
    rw [if_pos (by rw [hk]; exact hass k hkn)]
    have hd : (deref st.evHeap (st.events.getD i 0)).deleteEventIndex ≤ acc.1.events.length := by
      rw [hk, hp.deleteEventIndex_eq k hkn, hacc.1, hlen]
      exact le_of_lt (hp.1.pos_lt (2 * k + 1) (by omega))
    exact processOverlapsChecked_eq acc.1 i _ _ acc.2 hd
      (by
        intro j hj
        rw [hacc.1, hacc.2]
        rw [hacc.1] at hj
        have := hp.1.getD_lt j (by omega)
        omega)
      (by rw [hacc.2]; omega)
  · rw [if_neg hins, if_neg hins]


theorem stampStepGhost_fst (events : List Nat) (l : List Nat)
    (acc : List SweepLineEvent × List Nat) :
    (l.foldl (stampStepGhost events) acc).1 = l.foldl (stampStep events) acc.1 := by
  induction l generalizing acc with
  | nil => rfl
  | cons a l ih =>
    rw [List.foldl_cons, List.foldl_cons, ih]
    rfl

theorem stampStepGhost_mem (events : List Nat) (heap : List SweepLineEvent) (l : List Nat)
    (acc : List SweepLineEvent × List Nat)
    (hacc : acc.1.map staticPart = heap.map staticPart) :
    (∀ q ∈ acc.2, q ∈ (l.foldl (stampStepGhost events) acc).2) ∧
    (∀ i ∈ l, ∀ q, (deref heap (events.getD i 0)).insertEvent = some q →
      q ∈ (l.foldl (stampStepGhost events) acc).2) := by
  induction l generalizing acc with
  | nil =>
    refine ⟨fun q hq => hq, ?_⟩
    intro i hi
    cases hi
  | cons a l ih =>
    rw [List.foldl_cons]
    have hst : (stampStepGhost events acc a).1.map staticPart = heap.map staticPart := by
      unfold stampStepGhost
      simp only
      rw [map_staticPart_stampStep, hacc]
    have hmono : ∀ q ∈ acc.2, q ∈ (stampStepGhost events acc a).2 := by
      intro q hq
      unfold stampStepGhost
      simp only
      split
      · exact List.mem_cons_of_mem _ hq
      · exact hq
    obtain ⟨ih1, ih2⟩ := ih (stampStepGhost events acc a) hst
    refine ⟨fun q hq => ih1 q (hmono q hq), ?_⟩
    intro i hi q hq
    rcases List.mem_cons.mp hi with rfl | hi'
    · apply ih1
      have hins := insertEvent_static_congr hacc (events.getD i 0)
      unfold stampStepGhost
      simp only
      rw [hins, hq]
      exact List.mem_cons_self _ _
    · exact ih2 i hi' q hq

/-- On a well-formed state the checked `prepareEvents` succeeds, agrees with
`prepareEvents`, and assigns the delete index of every insert event. -/
theorem prepareEventsChecked_eq (sortFn : (Nat → Nat → Bool) → List Nat → List Nat)
    (hsort : StdSortSpec sortFn) {segs : List (SweepLineSegment × Option Nat)}
    {st : SimpleSweepLineIntersector} (h : WellFormed segs st) :
    ∃ assigned : List Nat,
      prepareEventsChecked sortFn st = some (prepareEvents sortFn st, assigned) ∧
      ∀ k, k < segs.length → 2 * k ∈ assigned := by
  have hwf := wellFormed_prepareEvents sortFn hsort segs st h
  have hlen : (sortFn (SweepLineEventLessThen st.evHeap) st.events).length = 2 * segs.length :=
    hwf.events_length
  have hheap := h.heap_length
  have hstatic := prepareEvents_static sortFn st
  have hget : ∀ i, i < 2 * segs.length →
      (sortFn (SweepLineEventLessThen st.evHeap) st.events).getD i 0 < 2 * segs.length :=
    fun i hi => hwf.getD_lt i hi
  have hfold := foldlM_eq_some_foldl
    (stampStepGhost (sortFn (SweepLineEventLessThen st.evHeap) st.events))
    (stampStepChecked (sortFn (SweepLineEventLessThen st.evHeap) st.events))
    (fun acc => acc.1.map staticPart = st.evHeap.map staticPart)
    (List.range (sortFn (SweepLineEventLessThen st.evHeap) st.events).length)
    (st.evHeap, []) rfl
    (by
      intro acc i hacc hi
      rw [List.mem_range] at hi
      have hl : acc.1.length = 2 * segs.length := by
        have := congrArg List.length hacc
        simp only [List.length_map] at this
        omega
      have hins := insertEvent_static_congr hacc
        ((sortFn (SweepLineEventLessThen st.evHeap) st.events).getD i 0)
      refine ⟨?_, ?_⟩
      · unfold stampStepChecked stampStepGhost stampStep
        simp only
        rw [if_pos ⟨hi, by rw [hl]; exact hget i (by omega)⟩]
        cases hc : (deref st.evHeap
            ((sortFn (SweepLineEventLessThen st.evHeap) st.events).getD i 0)).insertEvent with
        | none =>
          rw [hins, hc]
        | some ins =>
          rw [hins, hc]
          simp only
          obtain ⟨k, hk, e1, _⟩ := wellFormed_insertEvent_some h _ ins (hget i (by omega)) hc
          rw [if_pos (by omega)]
      · unfold stampStepGhost
        simp only
        rw [map_staticPart_stampStep, hacc])
  refine ⟨((List.range (sortFn (SweepLineEventLessThen st.evHeap) st.events).length).foldl
    (stampStepGhost (sortFn (SweepLineEventLessThen st.evHeap) st.events)) (st.evHeap, [])).2,
    ?_, ?_⟩
  · unfold prepareEventsChecked prepareEvents
    rw [hfold.1]
    simp only [Option.map_some']
    rw [stampStepGhost_fst]
  · intro k hk
    have hmem := (stampStepGhost_mem (sortFn (SweepLineEventLessThen st.evHeap) st.events)
      st.evHeap (List.range (sortFn (SweepLineEventLessThen st.evHeap) st.events).length)
      (st.evHeap, []) rfl).2
    have hpos := hwf.pos_lt (2 * k + 1) (by omega)
    have hgp := hwf.getD_pos (2 * k + 1) (by omega)
    apply hmem (pos (prepareEvents sortFn st) (2 * k + 1))
    · rw [List.mem_range, hlen]
      exact hpos
    · have : (sortFn (SweepLineEventLessThen st.evHeap) st.events).getD
          (pos (prepareEvents sortFn st) (2 * k + 1)) 0 = 2 * k + 1 := hgp
      rw [this]
      exact (wellFormed_delete h k hk).2.2.1

theorem computeIntersectionsChecked_eq (sortFn : (Nat → Nat → Bool) → List Nat → List Nat)
    (hsort : StdSortSpec sortFn) {segs : List (SweepLineSegment × Option Nat)}
    {st : SimpleSweepLineIntersector} (h : WellFormed segs st) (si : SegmentIntersector) :
    computeIntersectionsChecked sortFn st si = some (computeIntersections sortFn st si) := by
  have hwf0 := wellFormed_nOverlaps h 0
  obtain ⟨assigned, hpe, hass⟩ := prepareEventsChecked_eq sortFn hsort hwf0
  have hp := prepared_prepareEvents sortFn hsort segs _ hwf0
  unfold computeIntersectionsChecked computeIntersections
  rw [hpe]
  simp only
  exact sweepChecked_eq hp assigned hass si


/-- The checks of the checked sweep are effective: on a state that `add` cannot
build, where an insert event has no delete event, the checked run fails. -/
theorem computeIntersectionsChecked_unpaired :
    computeIntersectionsChecked insertionSort unpairedState [] = none := by
  decide

/-- C21. Index safety: on an intersector whose events were built by `add`
only, a run of `computeIntersections(si)` with every access `events[i]` of
`prepareEvents`, `computeIntersections` and `processOverlaps` checked against
`events.size()`, every followed event pointer checked, and every read of a
delete index checked to come after its assignment by `prepareEvents`, does not
fail and gives the result of the unchecked run; and the delete index of every
insert event is smaller than `events.size()`. -/
theorem index_safety (sortFn : (Nat → Nat → Bool) → List Nat → List Nat)
    (hsort : StdSortSpec sortFn) (adds : List (Edge × Option Nat)) (si : SegmentIntersector) :
    computeIntersectionsChecked sortFn (addAll SimpleSweepLineIntersector.init adds) si =
      some (computeIntersections sortFn (addAll SimpleSweepLineIntersector.init adds) si) ∧
    ∀ i, i < (computeIntersections sortFn
          (addAll SimpleSweepLineIntersector.init adds) si).1.events.length →
      (deref (computeIntersections sortFn
          (addAll SimpleSweepLineIntersector.init adds) si).1.evHeap
        ((computeIntersections sortFn
          (addAll SimpleSweepLineIntersector.init adds) si).1.events.getD i 0)).isInsert = true →
      (deref (computeIntersections sortFn
          (addAll SimpleSweepLineIntersector.init adds) si).1.evHeap
        ((computeIntersections sortFn
          (addAll SimpleSweepLineIntersector.init adds) si).1.events.getD i 0)).deleteEventIndex <
        (computeIntersections sortFn
          (addAll SimpleSweepLineIntersector.init adds) si).1.events.length := by
  refine ⟨computeIntersectionsChecked_eq sortFn hsort (wellFormed_built adds) si, ?_⟩
  obtain ⟨hp, _, _⟩ :=
    computeIntersections_prepared sortFn hsort (wellFormed_built adds) si
  generalize (computeIntersections sortFn
    (addAll SimpleSweepLineIntersector.init adds) si).1 = st at hp
  intro i hi hins
  have hlen := hp.1.events_length
  have hq := hp.1.getD_lt i (by omega)
  rw [wellFormed_isInsert hp.1 _ hq] at hins
  obtain ⟨k, hk⟩ : ∃ k, st.events.getD i 0 = 2 * k := ⟨st.events.getD i 0 / 2, by omega⟩
  rw [hk] at hq ⊢
  have hkn : k < (taggedSegments adds).length := by omega
  rw [hp.deleteEventIndex_eq k hkn, hlen]
  exact hp.1.pos_lt (2 * k + 1) (by omega)

theorem index_safety_witness :
    StdSortSpec insertionSort ∧
    computeIntersectionsChecked insertionSort
        (addAll SimpleSweepLineIntersector.init
          [(edgeA, none), (edgeV, some 3), (edgeB, none)]) [] =
      some (computeIntersections insertionSort
        (addAll SimpleSweepLineIntersector.init
          [(edgeA, none), (edgeV, some 3), (edgeB, none)]) []) :=
  ⟨insertionSort_spec,
    (index_safety insertionSort insertionSort_spec
      [(edgeA, none), (edgeV, some 3), (edgeB, none)] []).1⟩


end geos
